import Mathlib

/-!
# Package-tracking check digits and match engine

A shallow embedding of `internal/checkdigit.go`, `internal/services.go` and
`parcel.go`.

Conventions of the embedding:

* a Go `string` is its byte sequence, `Str := List Nat`, every byte below 256;
* a Go `byte` operation is written over `Nat` with an explicit `% 256`;
* a Go `int` is the 64-bit two's-complement integer of the usual targets: a value
  of `Int` in `[-2^63, 2^63)`, every `+` and `*` followed by `wrapInt`;
* Go's `%` on `int` is the truncated remainder `Int.tmod`;
* a Go call either returns a value, returns an error, or panics: `Outcome`.
-/

namespace Parcel

/-- A Go string: the sequence of its bytes. -/
abbrev Str := List Nat

/-- The bytes of an ASCII literal. -/
def ascii (s : String) : Str := s.data.map Char.toNat

/-- The result of a Go call: a value, a returned error, or a run-time panic. -/
inductive Outcome (ε α : Type) where
  | ok (a : α)
  | error (e : ε)
  | panic
  deriving DecidableEq, Repr

/-- Reduction of an exact integer to Go's 64-bit `int`. -/
def wrapInt (x : Int) : Int :=
  (x + 9223372036854775808) % 18446744073709551616 - 9223372036854775808

/-- The decimal digits of a natural number, as bytes. -/
def fmtNat (n : Nat) : Str := (Nat.toDigits 10 n).map Char.toNat

/-- The bytes of `fmt.Sprintf("%d", n)`. -/
def fmtInt : Int → Str
  | Int.ofNat n => fmtNat n
  | Int.negSucc n => 45 :: fmtNat (n + 1)

/-- The call `strconv.Atoi(string(c))` for one byte `c`: it succeeds exactly on
the ASCII digits (`string(c)` is the one-rune string of code point `c`, which is a
decimal numeral only for `'0'..'9'`). -/
def atoiByte (c : Nat) : Option Int :=
  if 48 ≤ c ∧ c ≤ 57 then some ((c - 48 : Nat) : Int) else none

/-- Value of a run of decimal digits, `none` when a byte is not a digit. -/
def digitsValue : Nat → Str → Option Nat
  | acc, [] => some acc
  | acc, c :: cs => if 48 ≤ c ∧ c ≤ 57 then digitsValue (acc * 10 + (c - 48)) cs else none

/-- The digits of `strconv.Atoi`, after the sign: one or more decimal digits whose
signed value fits the 64-bit `int`. -/
def atoiDigits (neg : Bool) (body : Str) : Option Int :=
  if body = [] then none
  else
    match digitsValue 0 body with
    | none => none
    | some v =>
      let n : Int := if neg then -(v : Int) else (v : Int)
      if -9223372036854775808 ≤ n ∧ n < 9223372036854775808 then some n else none

/-- The call `strconv.Atoi(s)`: an optional sign, then one or more decimal digits,
and a value that fits the 64-bit `int`; every other input is an error. -/
def Atoi (s : Str) : Option Int :=
  if s.head? = some 45 then atoiDigits true s.tail
  else if s.head? = some 43 then atoiDigits false s.tail
  else atoiDigits false s

/-- Errors returned by `Generate`. -/
inductive GenError where
  | length
  | atoi
  deriving DecidableEq, Repr

/-! ## The check-digit algorithms (`internal/checkdigit.go`) -/

structure Noop where
  deriving DecidableEq, Repr

structure Mod7 where
  deriving DecidableEq, Repr

/-- `Multipliers [2]int`: index 0 is `even`, index 1 is `odd`. -/
structure Mod10 where
  even : Int
  odd : Int
  deriving DecidableEq, Repr

structure S10 where
  Weightings : List Int
  deriving DecidableEq, Repr

structure SumProductWithWeightingsAndModulo where
  Weightings : List Int
  Modulo1 : Int
  Modulo2 : Int
  deriving DecidableEq, Repr

structure Mod3736 where
  deriving DecidableEq, Repr

def Noop.Generate (_ : Noop) (_ : Str) : Outcome GenError Str := .ok []

/-- `Validate` returns a boolean and no error: `none` stands for a panic. -/
def Noop.Validate (_ : Noop) (_ _ : Str) : Option Bool := some true

def Mod7.Generate (_ : Mod7) (s : Str) : Outcome GenError Str :=
  match Atoi s with
  | none => .ok (ascii "0")
  | some n => .ok (fmtInt (Int.tmod n 7))

def Mod7.Validate (m : Mod7) (s cd : Str) : Option Bool :=
  match m.Generate s with
  | .ok v => some (decide (v = cd))
  | .error _ => some false
  | .panic => none

/-- The value `n` of one byte of the serial in `Mod10.Generate`: the digit value,
or `int((c - 3) % 10)` in byte arithmetic when `Atoi` fails. -/
def Mod10.value (c : Nat) : Int :=
  match atoiByte c with
  | some v => v
  | none => (((c + 256 - 3) % 256 % 10 : Nat) : Int)

/-- The loop of `Mod10.Generate` from index `i` with running `sum`. -/
def Mod10.loop (m : Mod10) : Nat → Int → Str → Int
  | _, sum, [] => sum
  | i, sum, c :: cs =>
    Mod10.loop m (i + 1)
      (wrapInt (sum + wrapInt (Mod10.value c * (if i % 2 = 0 then m.even else m.odd)))) cs

def Mod10.Generate (m : Mod10) (s : Str) : Outcome GenError Str :=
  let sum := Mod10.loop m 0 0 s
  .ok (fmtInt (Int.tmod (wrapInt (10 - Int.tmod sum 10)) 10))

def Mod10.Validate (m : Mod10) (s cd : Str) : Option Bool :=
  match m.Generate s with
  | .ok v => some (decide (v = cd))
  | .error _ => some false
  | .panic => none

/-- The loop `for i, weight := range Weightings` shared, word for word, by
`S10.Generate` and `SumProductWithWeightingsAndModulo.Generate`: the third argument
is what is left of the seed from index `i` on. Indexing past the end of the seed
panics. -/
def weightedLoop : List Int → Int → Str → Outcome GenError Int
  | [], sum, _ => .ok sum
  | _ :: _, _, [] => .panic
  | w :: ws, sum, c :: cs =>
    match atoiByte c with
    | none => .error .atoi
    | some n => weightedLoop ws (wrapInt (sum + wrapInt (n * w))) cs

def S10.Generate (s10 : S10) (s : Str) : Outcome GenError Str :=
  if s.length ≠ s10.Weightings.length then .error .length
  else
    match weightedLoop s10.Weightings 0 s with
    | .error e => .error e
    | .panic => .panic
    | .ok sum =>
      let sum := Int.tmod sum 11
      let sum := if sum = 1 then 0 else if sum = 0 then 5 else wrapInt (11 - sum)
      .ok (fmtInt sum)

def S10.Validate (s10 : S10) (s cd : Str) : Option Bool :=
  match s10.Generate s with
  | .ok v => some (decide (v = cd))
  | .error _ => some false
  | .panic => none

def SumProductWithWeightingsAndModulo.Generate (sp : SumProductWithWeightingsAndModulo)
    (s : Str) : Outcome GenError Str :=
  if s.length < sp.Weightings.length then .error .length
  else
    let s := s.drop (s.length - sp.Weightings.length)
    match weightedLoop sp.Weightings 0 s with
    | .error e => .error e
    | .panic => .panic
    | .ok sum =>
      if sp.Modulo1 = 0 then .panic
      else if sp.Modulo2 = 0 then .panic
      else .ok (fmtInt (Int.tmod (Int.tmod sum sp.Modulo1) sp.Modulo2))

def SumProductWithWeightingsAndModulo.Validate (sp : SumProductWithWeightingsAndModulo)
    (s cd : Str) : Option Bool :=
  match sp.Generate s with
  | .ok v => some (decide (v = cd))
  | .error _ => some false
  | .panic => none

def mod36CharToVal (b : Nat) : Option Nat :=
  if 48 ≤ b ∧ b ≤ 57 then some ((b + 256 - 48) % 256)
  else if 65 ≤ b ∧ b ≤ 90 then some ((b + 256 - 65 + 10) % 256)
  else if 97 ≤ b ∧ b ≤ 122 then some ((b + 256 - 97 + 10) % 256)
  else none

def mod36ValtoChar (b : Nat) : Nat :=
  let b := b % 36
  if b < 10 then (b + 48) % 256 else (b + 256 - 10 + 65) % 256

/-- One iteration of the loop of `Mod3736.Generate` on the byte accumulator `n`. -/
def Mod3736.step (n c : Nat) : Nat :=
  match mod36CharToVal c with
  | none => n
  | some si =>
    let n := (n + si) % 256
    let n := if n > 36 then (n + 256 - 36) % 256 else n
    let n := (n * 2) % 256
    if n > 36 then (n + 256 - 36 + 256 - 1) % 256 else n

def Mod3736.Generate (_ : Mod3736) (s : Str) : Outcome GenError Str :=
  let n := s.foldl Mod3736.step 36
  let n := (36 + 1 + 256 - n) % 256
  let n := n % 36
  .ok [mod36ValtoChar n]

def Mod3736.Validate (m : Mod3736) (s cd : Str) : Option Bool :=
  match m.Generate s with
  | .ok v => some (decide (v = cd))
  | .error _ => some false
  | .panic => none

/-- The `CheckDigit` interface: the closed set of its implementations. -/
inductive CheckDigit where
  | noop (v : Noop)
  | mod7 (v : Mod7)
  | mod10 (v : Mod10)
  | s10 (v : S10)
  | sumProduct (v : SumProductWithWeightingsAndModulo)
  | mod3736 (v : Mod3736)
  deriving DecidableEq, Repr

def CheckDigit.Generate : CheckDigit → Str → Outcome GenError Str
  | .noop v, s => v.Generate s
  | .mod7 v, s => v.Generate s
  | .mod10 v, s => v.Generate s
  | .s10 v, s => v.Generate s
  | .sumProduct v, s => v.Generate s
  | .mod3736 v, s => v.Generate s

def CheckDigit.Validate : CheckDigit → Str → Str → Option Bool
  | .noop v, s, cd => v.Validate s cd
  | .mod7 v, s, cd => v.Validate s cd
  | .mod10 v, s, cd => v.Validate s cd
  | .s10 v, s, cd => v.Validate s cd
  | .sumProduct v, s, cd => v.Validate s cd
  | .mod3736 v, s, cd => v.Validate s cd

def NewNoop : Option CheckDigit := some (.noop {})

def NewMod7 : Option CheckDigit := some (.mod7 {})

def NewMod10 (em om : Int) : Option CheckDigit := some (.mod10 { even := em, odd := om })

/-- The second parameter, `exists`, is accepted and not used. -/
def NewS10 (weightings : List Int) (_ : List Str) : Option CheckDigit :=
  let weightings := if weightings.length = 0 then [8, 6, 4, 2, 3, 5, 9, 7] else weightings
  some (.s10 { Weightings := weightings })

def NewMod3736 : Option CheckDigit := some (.mod3736 {})

/-- The constructor returns the nil interface, `none`, when a modulus is zero. -/
def NewSumProductWithWeightingsAndModulo (weightings : List Int) (m1 m2 : Int) :
    Option CheckDigit :=
  if m1 = 0 ∨ m2 = 0 then none
  else some (.sumProduct { Weightings := weightings, Modulo1 := m1, Modulo2 := m2 })

/-! ## Statements of the check-digit contract -/

/-- The contract between `validate` and `generate`: `validate` answers true exactly
when `generate` returns the given digit, answers false, without raising, when
`generate` returns an error, and raises only when `generate` does. -/
def ValidateFollowsGenerate (gen : Str → Outcome GenError Str)
    (val : Str → Str → Option Bool) : Prop :=
  ∀ s d : Str,
    (val s d = some true ↔ gen s = .ok d) ∧
    (∀ e, gen s = .error e → val s d = some false) ∧
    (val s d = none ↔ gen s = .panic)

/-- The exact weighted sum of `Mod10`: the value of the byte at index `i` times the
even multiplier when `i` is even and the odd multiplier when `i` is odd, summed over
the indices from `start` on, in unbounded integers. -/
def Mod10.exactSum (value : Nat → Int) (m : Mod10) (start : Nat) (s : Str) : Int :=
  ((s.enumFrom start).map fun p => value p.2 * (if p.1 % 2 = 0 then m.even else m.odd)).sum

/-- The byte value as the specification words it: the digit value of a decimal digit,
`(byte_value - 3) mod 10` otherwise, for a remainder operation `md`. -/
def Mod10.statedValue (md : Int → Int → Int) (c : Nat) : Int :=
  if 48 ≤ c ∧ c ≤ 57 then (c : Int) - 48 else md ((c : Int) - 3) 10

/-- The byte value with the subtraction taken in 8-bit arithmetic. -/
def Mod10.byteValue (c : Nat) : Int :=
  if 48 ≤ c ∧ c ≤ 57 then (c : Int) - 48 else (((c : Int) - 3) % 256) % 10

/-- The check digit of `Mod10` as the specification words it, for a remainder
operation `md`, over the exact sum. -/
def Mod10.statedDigit (md : Int → Int → Int) (m : Mod10) (s : Str) : Str :=
  fmtInt (md (10 - md (Mod10.exactSum (Mod10.statedValue md) m 0 s) 10) 10)


/-- Every byte of the string is an ASCII decimal digit. -/
def IsDigits (s : Str) : Prop := ∀ c ∈ s, 48 ≤ c ∧ c ≤ 57

/-- The exact weighted sum `digit[i] * w[i]` over the indices of the weightings, in
unbounded integers. -/
def exactWeightedSum (w : List Int) (s : Str) : Int :=
  (List.zipWith (fun (wi : Int) (c : Nat) => ((c : Int) - 48) * wi) w s).sum

/-- The map of S10 from the remainder to the check value: `1 → 0`, `0 → 5`,
otherwise `11 - r`. -/
def S10.checkValue (r : Int) : Int :=
  if r = 1 then 0 else if r = 0 then 5 else 11 - r

/-- The S10 check digit as the specification words it, for a remainder operation
`md`, over the exact sum. -/
def S10.statedDigit (md : Int → Int → Int) (w : List Int) (s : Str) : Str :=
  fmtInt (S10.checkValue (md (exactWeightedSum w s) 11))

/-- The weighted-sum check digit as the specification words it, for a remainder
operation `md`, over the exact sum of the trailing characters. -/
def SumProductWithWeightingsAndModulo.statedDigit (md : Int → Int → Int)
    (sp : SumProductWithWeightingsAndModulo) (s : Str) : Str :=
  fmtInt (md (md (exactWeightedSum sp.Weightings
    (s.drop (s.length - sp.Weightings.length))) sp.Modulo1) sp.Modulo2)

/-- The value of a run of decimal digits, in unbounded naturals. -/
def decimalValue (ds : Str) : Nat := ds.foldl (fun a c => a * 10 + (c - 48)) 0

/-- The string `s` is a base-10 integer of value `v`: one or more decimal digits,
with an optional sign in front. -/
def IsNumeral (s : Str) (v : Int) : Prop :=
  ∃ ds : Str, ds ≠ [] ∧ IsDigits ds ∧
    ((s = ds ∧ v = decimalValue ds) ∨ (s = 43 :: ds ∧ v = decimalValue ds) ∨
      (s = 45 :: ds ∧ v = -(decimalValue ds : Int)))

/-- The integer fits Go's 64-bit `int`. -/
def InInt64 (v : Int) : Prop := -9223372036854775808 ≤ v ∧ v < 9223372036854775808

instance (v : Int) : Decidable (InInt64 v) := by unfold InInt64; infer_instance

/-- The base-36 value of a byte in unbounded naturals: `0-9` for the digits, `10-35`
for the letters of either case, nothing for another byte. -/
def base36Value (c : Nat) : Option Nat :=
  if 48 ≤ c ∧ c ≤ 57 then some (c - 48)
  else if 65 ≤ c ∧ c ≤ 90 then some (c - 55)
  else if 97 ≤ c ∧ c ≤ 122 then some (c - 87)
  else none

/-- One step of the reference computation of Mod3736, in unbounded integers. -/
def Mod3736.refStep (n : Int) (c : Nat) : Int :=
  match base36Value c with
  | none => n
  | some v =>
    let n := n + v
    let n := if n > 36 then n - 36 else n
    let n := 2 * n
    if n > 36 then n - 37 else n

/-- The base-36 character of a value: `'0'-'9'` for 0-9, `'A'-'Z'` for 10-35. -/
def base36Char (n : Int) : Nat :=
  if n < 10 then (n + 48).toNat else (n + 55).toNat

/-- The reference computation of Mod3736, in unbounded integers. -/
def Mod3736.reference (s : Str) : Str :=
  let n := s.foldl Mod3736.refStep 36
  let n := (37 - n) % 36
  [base36Char n]

/-- The byte is an ASCII letter or digit. -/
def isAlnum (c : Nat) : Bool := (base36Value c).isSome

/-- The upper-case form of an ASCII byte. -/
def upperByte (c : Nat) : Nat := if 97 ≤ c ∧ c ≤ 122 then c - 32 else c

/-- The lower-case form of an ASCII byte. -/
def lowerByte (c : Nat) : Nat := if 65 ≤ c ∧ c ≤ 90 then c + 32 else c

/-- Two bytes are the same up to the case of an ASCII letter. -/
def SameUpToCase (c d : Nat) : Prop := upperByte c = upperByte d

instance (c d : Nat) : Decidable (SameUpToCase c d) := by
  unfold SameUpToCase; infer_instance

/-! ## Standard-library calls of `parcel.go`

The calls are modelled on byte strings. What depends on the Unicode tables (case
mapping and white space beyond ASCII) or on the formatting verbs of `fmt` is left as
a parameter, `Lib`. -/

/-- The table `first` of `unicode/utf8` for a lead byte: the size of the sequence
and the range accepted for its second byte; `none` for a byte that starts no
multi-byte sequence. -/
def utf8First (c : Nat) : Option (Nat × Nat × Nat) :=
  if 0xC2 ≤ c ∧ c ≤ 0xDF then some (2, 0x80, 0xBF)
  else if c = 0xE0 then some (3, 0xA0, 0xBF)
  else if 0xE1 ≤ c ∧ c ≤ 0xEC then some (3, 0x80, 0xBF)
  else if c = 0xED then some (3, 0x80, 0x9F)
  else if 0xEE ≤ c ∧ c ≤ 0xEF then some (3, 0x80, 0xBF)
  else if c = 0xF0 then some (4, 0x90, 0xBF)
  else if 0xF1 ≤ c ∧ c ≤ 0xF3 then some (4, 0x80, 0xBF)
  else if c = 0xF4 then some (4, 0x80, 0x8F)
  else none

/-- The number of bytes that one step of `utf8.RuneCountInString` consumes at the
head of a non-empty string: the size of a well-formed sequence, 1 for an ASCII byte
and for every byte that starts no well-formed sequence. -/
def runeWidth : Str → Nat
  | [] => 1
  | c :: rest =>
    if c < 0x80 then 1
    else
      match utf8First c with
      | none => 1
      | some (size, lo, hi) =>
        if rest.length + 1 < size then 1
        else
          match rest with
          | [] => 1
          | b1 :: r1 =>
            if b1 < lo ∨ hi < b1 then 1
            else if size = 2 then 2
            else
              match r1 with
              | [] => 1
              | b2 :: r2 =>
                if b2 < 0x80 ∨ 0xBF < b2 then 1
                else if size = 3 then 3
                else
                  match r2 with
                  | [] => 1
                  | b3 :: _ => if b3 < 0x80 ∨ 0xBF < b3 then 1 else 4

/-- The loop of `utf8.RuneCountInString`, with the length of the string as fuel. -/
def runeCountLoop : Nat → Str → Nat
  | 0, _ => 0
  | _ + 1, [] => 0
  | fuel + 1, c :: rest => 1 + runeCountLoop fuel ((c :: rest).drop (runeWidth (c :: rest)))

/-- The call `utf8.RuneCountInString(s)`. -/
def RuneCountInString (s : Str) : Nat := runeCountLoop s.length s

/-- The UTF-8 encoding of a code point. -/
def utf8Encode (r : Nat) : Str :=
  if r < 0x80 then [r]
  else if r < 0x800 then [0xC0 + r / 64, 0x80 + r % 64]
  else if r < 0x10000 then [0xE0 + r / 4096, 0x80 + r / 64 % 64, 0x80 + r % 64]
  else [0xF0 + r / 262144, 0x80 + r / 4096 % 64, 0x80 + r / 64 % 64, 0x80 + r % 64]

/-- The code point is a Unicode scalar value: below 0x110000 and not a surrogate. -/
def IsScalar (r : Nat) : Prop := r < 0xD800 ∨ (0xE000 ≤ r ∧ r < 0x110000)

/-- The string contains a multi-byte character: the UTF-8 encoding of a scalar value
outside the ASCII range. -/
def HasMultiByteChar (s : Str) : Prop :=
  ∃ (pre : Str) (r : Nat) (post : Str),
    0x80 ≤ r ∧ IsScalar r ∧ s = pre ++ utf8Encode r ++ post

/-- Every byte is in the ASCII range. -/
def isASCII (s : Str) : Bool := s.all (fun c => decide (c < 0x80))

/-- The white space of `strings.Fields` and `strings.TrimSpace` in the ASCII range:
tab, line feed, vertical tab, form feed, carriage return, space. -/
def isAsciiSpace (c : Nat) : Bool :=
  c = 9 || c = 10 || c = 11 || c = 12 || c = 13 || c = 32

/-- The class `\s` of the `regexp` package: tab, line feed, form feed, carriage
return, space. -/
def isRegexSpace (c : Nat) : Bool :=
  c = 9 || c = 10 || c = 12 || c = 13 || c = 32

/-- A compiled `*regexp.Regexp`, by what the match engine calls on it:
`FindStringSubmatch` returns `none` (nil) when there is no match and otherwise the
text of the match and of every group, in the order of `SubexpNames`. -/
structure Regexp where
  FindStringSubmatch : Str → Option (List Str)
  SubexpNames : List Str

/-- The call `MatchString`: whether the string contains a match. -/
def Regexp.MatchString (re : Regexp) (s : Str) : Bool := (re.FindStringSubmatch s).isSome

structure Lookup where
  Matches : Str
  MatchesRegex : Option Regexp
  Name : Str
  Description : Str
  CountryCode : Str
  CountryShortCode : Str
  Country : Str
  Courier : Str
  CourierURL : Str
  UPUReferenceURL : Str

/-- The standard-library behaviour that the embedding does not fix. -/
structure Lib where
  /-- The call `strings.ToUpper` on a string with a byte outside the ASCII range. -/
  ToUpperNonASCII : Str → Str
  /-- The call `strings.TrimSpace` on a string with a byte outside the ASCII range. -/
  TrimSpaceNonASCII : Str → Str
  /-- The call `strings.Fields` on a string with a byte outside the ASCII range. -/
  FieldsNonASCII : Str → List Str
  /-- The call `fmt.Sprintf(format, arg)` for a format taken from the data. -/
  Sprintf : Str → Str → Str
  /-- The call `fmt.Sprintf("%s", lookup)`. -/
  SprintLookup : Lookup → Str

/-- The call `strings.ToUpper`. -/
def ToUpper (lib : Lib) (s : Str) : Str :=
  if isASCII s then s.map upperByte else lib.ToUpperNonASCII s

/-- The call `strings.ReplaceAll(s, " ", "")`. -/
def ReplaceAllSpace (s : Str) : Str := s.filter (fun c => decide (c ≠ 32))

/-- The call `strings.TrimSpace`. -/
def TrimSpace (lib : Lib) (s : Str) : Str :=
  if isASCII s then
    ((s.dropWhile isAsciiSpace).reverse.dropWhile isAsciiSpace).reverse
  else lib.TrimSpaceNonASCII s

/-- The maximal runs of bytes that are not white space, for a class `sp` of white
space: `cur` is the run being read, reversed. -/
def fieldsBy (sp : Nat → Bool) : Str → Str → List Str
  | [], cur => if cur = [] then [] else [cur.reverse]
  | c :: cs, cur =>
    if sp c then
      (if cur = [] then fieldsBy sp cs [] else cur.reverse :: fieldsBy sp cs [])
    else fieldsBy sp cs (c :: cur)

/-- The string without its white space, for a class `sp` of white space. -/
def removeBy (sp : Nat → Bool) (s : Str) : Str := s.filter (fun c => !sp c)

/-- The call `strings.Fields`. -/
def Fields (lib : Lib) (s : Str) : List Str :=
  if isASCII s then fieldsBy isAsciiSpace s [] else lib.FieldsNonASCII s

/-- The call ``regexp.MustCompile(`\s`).ReplaceAllString(s, "")``. -/
def removeRegexSpace (s : Str) : Str := removeBy isRegexSpace s

/-! ## The data model (`internal/services.go`, `internal/lookup.go`) -/

/-- A `map[string]string`, as an association list with distinct keys. -/
abbrev Details := List (Str × Str)

/-- The lookup `m[k]` with its presence flag. -/
def Details.get (m : Details) (k : Str) : Option Str :=
  (m.find? (fun p => decide (p.1 = k))).map (fun p => p.2)

/-- The call `delete(m, k)`. -/
def Details.delete (m : Details) (k : Str) : Details :=
  m.filter (fun p => decide (p.1 ≠ k))

/-- The assignment `m[k] = v`. -/
def Details.set : Details → Str → Str → Details
  | [], k, v => [(k, v)]
  | p :: m, k, v => if p.1 = k then (k, v) :: m else p :: Details.set m k v

structure Additional where
  Name : Str
  RegexGroupName : Str
  Lookups : List Lookup

structure CheckDigitOpts where
  Name : Str
  EvensMultiplier : Int
  OddsMultiplier : Int
  Weightings : List Int
  Modulo1 : Int
  Modulo2 : Int

/-- The rule `prepend_if`; the pattern is `none` (nil) when the rule is not defined. -/
structure PrependIf where
  Regex : Option Regexp
  Content : Str

/-- The struct `Validation`: `Exists` is its field `Additional.Exists`, `PrependIf`
its field `SerialNumberFormat.PrependIf`, and `Validator` is `none` for the nil
interface. -/
structure Validation where
  CheckDigitOpts : CheckDigitOpts
  Validator : Option CheckDigit
  Exists : List Str
  PrependIf : PrependIf

/-- The struct `Service`; `Regex` is `none` for a nil pattern. -/
structure Service where
  ID : Str
  Name : Str
  CourierName : Str
  CourierCode : Str
  Description : Str
  TrackingURL : Str
  Regex : Option Regexp
  Validation : Validation
  TestValid : List Str
  TestInvalid : List Str
  Additional : List Additional

def Service.ValidateAdditionalExists (s : Service) (matchKey : Str) (keys : Details) : Bool :=
  s.Additional.any fun sa =>
    decide (sa.Name = matchKey) &&
      (match keys.get sa.RegexGroupName with
       | some val => sa.Lookups.any fun lookup => decide (lookup.Matches = val)
       | none => false)

def Validation.SetValidator (val : Validation) : Validation :=
  let c := val.CheckDigitOpts
  { val with Validator :=
      if c.Name = ascii "mod7" then NewMod7
      else if c.Name = ascii "mod10" then NewMod10 c.EvensMultiplier c.OddsMultiplier
      else if c.Name = ascii "s10" then NewS10 c.Weightings val.Exists
      else if c.Name = ascii "sum_product_with_weightings_and_modulo" then
        NewSumProductWithWeightingsAndModulo c.Weightings c.Modulo1 c.Modulo2
      else if c.Name = ascii "mod_37_36" then NewMod3736
      else NewNoop }

/-! ## The match engine (`parcel.go`) -/

inductive TrackError where
  | ErrBadString
  | ErrNoServices
  deriving DecidableEq, Repr

structure Tracking where
  Courier : Str
  Service : Str
  TrackingNumber : Str
  SerialNumber : Str
  CheckDigit : Str
  TrackingURL : Str
  Details : Details
  deriving DecidableEq, Repr

/-- Whether a lookup entry is a hit for the value: equal to its literal, or matched by
its pattern when it has one. -/
def lookupHit (v : Str) (lookup : Lookup) : Bool :=
  decide (v = lookup.Matches) ||
    (match lookup.MatchesRegex with
     | some r => r.MatchString v
     | none => false)

/-- The `switch k` of `populate` on a hit: the derived fields written to `deets`. -/
def derivedFields (lib : Lib) (deets : Details) (k : Str) (lookup : Lookup) : Details :=
  if k = ascii "ServiceType" then
    let deets := if lookup.Name ≠ [] then deets.set (ascii "ServiceName") lookup.Name else deets
    if lookup.Description ≠ [] then deets.set (ascii "ServiceDesc") lookup.Description
    else deets
  else if k = ascii "CountryCode" then
    let deets := if lookup.Country ≠ [] then deets.set (ascii "Country") lookup.Country else deets
    let deets := if lookup.Courier ≠ [] then deets.set (ascii "Courier") lookup.Courier else deets
    let deets :=
      if lookup.CourierURL ≠ [] then deets.set (ascii "CourierURL") lookup.CourierURL else deets
    if lookup.UPUReferenceURL ≠ [] then deets.set (ascii "UPURefURL") lookup.UPUReferenceURL
    else deets
  else if k = ascii "ShippingContainerType" then
    if lookup.Name ≠ [] then deets.set k (k ++ ascii " " ++ lookup.Name) else deets
  else deets.set (k ++ ascii ":other") (lib.SprintLookup lookup)

/-- The loop over `detail.Lookups` in `populate`, for the group name `k` and its
value `v`: `found` is the flag of the source, set when the literal of the entry
equals `v` or its pattern matches `v`; on the first entry that leaves it set the
derived fields are written and the loop is left. -/
def lookupLoop (lib : Lib) (k v : Str) : List Lookup → Bool → Details → Details
  | [], _, deets => deets
  | lookup :: rest, found, deets =>
    let found := if v = lookup.Matches then true else found
    let found :=
      match lookup.MatchesRegex with
      | some r => if r.MatchString v then true else found
      | none => found
    if found then derivedFields lib deets k lookup
    else lookupLoop lib k v rest found deets

/-- The method `populate`: for each rule, the value of its group in `Details`, the
loop over its lookup entries, and the fields derived from the hit; the fields are
merged into `Details` at the end. -/
def Tracking.populate (lib : Lib) (t : Tracking) (details : List Additional) : Tracking :=
  let deets : Parcel.Details := details.foldl (fun deets detail =>
    match t.Details.get detail.RegexGroupName with
    | none => deets
    | some v => lookupLoop lib detail.RegexGroupName v detail.Lookups false deets) []
  { t with Details := deets.foldl (fun m p => m.set p.1 p.2) t.Details }

/-- The loop over `matches` in `Track`: every named group with a non-empty trimmed
value is stored under its name. -/
def captureGroups (lib : Lib) (names : List Str) (groups : List Str) : Details :=
  (groups.zip names).foldl (fun m p =>
    if p.2 ≠ [] then
      let val := TrimSpace lib p.1
      if val ≠ [] then m.set p.2 val else m
    else m) []

/-- The `SerialNumber` step of `Track`: the serial, after the prepend rule, and the
details without the key. -/
def takeSerial (service : Service) (details : Details) : Str × Details :=
  match details.get (ascii "SerialNumber") with
  | some v =>
    let prepend := service.Validation.PrependIf
    let v := match prepend.Regex with
      | some re => if !re.MatchString v then prepend.Content ++ v else v
      | none => v
    (v, details.delete (ascii "SerialNumber"))
  | none => ([], details)

/-- The `CheckDigit` step of `Track`. -/
def takeCheckDigit (details : Details) : Str × Details :=
  match details.get (ascii "CheckDigit") with
  | some v => (v, details.delete (ascii "CheckDigit"))
  | none => ([], details)

/-- The body of the loop of `Track` for one service on the normalized input: no
result when the service does not apply, a panic on a nil pattern, on a nil validator
or when the validator panics. -/
def Service.track (lib : Lib) (service : Service) (inp : Str) :
    Outcome TrackError (Option Tracking) :=
  match service.Regex with
  | none => .panic
  | some re =>
    match re.FindStringSubmatch inp with
    | none => .ok none
    | some groups =>
      let details := captureGroups lib re.SubexpNames groups
      let (serial, details) := takeSerial service details
      let (checkDigit, details) := takeCheckDigit details
      match service.Validation.Validator with
      | none => .panic
      | some validator =>
        match validator.Validate serial checkDigit with
        | none => .panic
        | some false => .ok none
        | some true =>
          if service.Validation.Exists.all
              (fun matchKey => service.ValidateAdditionalExists matchKey details) then
            let tracker : Tracking :=
              { Courier := service.CourierCode
                Service := service.Name
                TrackingNumber := inp
                SerialNumber := serial
                CheckDigit := checkDigit
                TrackingURL :=
                  if service.TrackingURL ≠ [] then lib.Sprintf service.TrackingURL inp else []
                Details := details }
            .ok (some (tracker.populate lib service.Additional))
          else .ok none

/-- The loop of `Track` over the services, appending to `res`. -/
def trackLoop (lib : Lib) (inp : Str) : List Service → List Tracking →
    Outcome TrackError (List Tracking)
  | [], res => .ok res
  | service :: rest, res =>
    match service.track lib inp with
    | .panic => .panic
    | .error e => .error e
    | .ok none => trackLoop lib inp rest res
    | .ok (some tracker) => trackLoop lib inp rest (res ++ [tracker])

/-- The function `Track`; `services` is the package variable `internal.Services`. -/
def Track (lib : Lib) (services : List Service) (inp : Str) :
    Outcome TrackError (List Tracking) :=
  if inp.length ≠ RuneCountInString inp then .error .ErrBadString
  else if services.length = 0 then .error .ErrNoServices
  else
    let inp := ReplaceAllSpace (ToUpper lib inp)
    trackLoop lib inp services []

/-- A `map[string][]Tracking`, as an association list with distinct keys. -/
abbrev Found := List (Str × List Tracking)

/-- The assignment `out[k] = v`. -/
def Found.set : Found → Str → List Tracking → Found
  | [], k, v => [(k, v)]
  | p :: m, k, v => if p.1 = k then (k, v) :: m else p :: Found.set m k v

/-- The goroutines of `Find`, one per term, taken in the order of the terms: each
stores `Track(v)` under the key `v`, under the mutex, when it is a non-empty list, so
the map at `wg.Wait()` does not depend on their interleaving. A panic in a goroutine
ends the program. -/
def findLoop (lib : Lib) (services : List Service) : List Str → Found →
    Outcome TrackError Found
  | [], out => .ok out
  | v :: terms, out =>
    match Track lib services v with
    | .panic => .panic
    | .error _ => findLoop lib services terms out
    | .ok track =>
      if track.length ≠ 0 then findLoop lib services terms (out.set v track)
      else findLoop lib services terms out

/-- The function `Find`. -/
def Find (lib : Lib) (services : List Service) (inp : Str) : Outcome TrackError Found :=
  if services.length = 0 then .error .ErrNoServices
  else
    match findLoop lib services (Fields lib inp) [] with
    | .panic => .panic
    | .error e => .error e
    | .ok out =>
      if out.length = 0 then
        let inp := removeRegexSpace inp
        match Track lib services inp with
        | .panic => .panic
        | .error _ => .ok out
        | .ok track => if track.length ≠ 0 then .ok (out.set inp track) else .ok out
      else .ok out

/-- What the constructors guarantee of a check-digit algorithm: non-zero moduli. -/
def CheckDigit.Sound : CheckDigit → Prop
  | .sumProduct v => v.Modulo1 ≠ 0 ∧ v.Modulo2 ≠ 0
  | _ => True

/-- The registry is well formed: every service has a compiled pattern and a validator
with non-zero moduli. -/
def WellFormed (services : List Service) : Prop :=
  ∀ d ∈ services, d.Regex ≠ none ∧ ∃ v, d.Validation.Validator = some v ∧ v.Sound

/-- The result that one service contributes on the normalized input, when its loop
body returns. -/
def Service.result (lib : Lib) (d : Service) (inp : Str) : Option Tracking :=
  match d.track lib inp with
  | .ok r => r
  | _ => none

/-- The details that the service captures from the normalized input. -/
def Service.captured (lib : Lib) (d : Service) (inp : Str) : Details :=
  match d.Regex with
  | none => []
  | some re =>
    match re.FindStringSubmatch inp with
    | none => []
    | some groups => captureGroups lib re.SubexpNames groups

/-- Condition (a): the pattern of the service matches the normalized input. -/
def Service.patternMatches (d : Service) (inp : Str) : Bool :=
  match d.Regex with
  | none => false
  | some re => re.MatchString inp

/-- The serial number that the service extracts, after the prepend rule; empty when
the pattern captures none. -/
def Service.serialOf (lib : Lib) (d : Service) (inp : Str) : Str :=
  (takeSerial d (d.captured lib inp)).1

/-- The check digit that the service extracts; empty when the pattern captures none. -/
def Service.checkDigitOf (lib : Lib) (d : Service) (inp : Str) : Str :=
  (takeCheckDigit (takeSerial d (d.captured lib inp)).2).1

/-- The details left after the serial number and the check digit are taken out. -/
def Service.detailsOf (lib : Lib) (d : Service) (inp : Str) : Details :=
  (takeCheckDigit (takeSerial d (d.captured lib inp)).2).2

/-- Condition (b): the checksum of the service validates the extracted serial and
check digit. -/
def Service.checksumValid (lib : Lib) (d : Service) (inp : Str) : Bool :=
  match d.Validation.Validator with
  | none => false
  | some v => decide (v.Validate (d.serialOf lib inp) (d.checkDigitOf lib inp) = some true)

/-- Condition (c): every additional-exists key of the service is confirmed. -/
def Service.additionalConfirmed (lib : Lib) (d : Service) (inp : Str) : Bool :=
  d.Validation.Exists.all fun k => d.ValidateAdditionalExists k (d.detailsOf lib inp)

/-- The service applies to the normalized input: (a), (b) and (c). -/
def Service.accepts (lib : Lib) (d : Service) (inp : Str) : Bool :=
  d.patternMatches inp && d.checksumValid lib inp && d.additionalConfirmed lib inp

/-- The lookup `out[k]` with its presence flag. -/
def Found.get : Found → Str → Option (List Tracking)
  | [], _ => none
  | p :: m, k => if p.1 = k then some p.2 else Found.get m k

/-- The term yields a match: `Track` returns a non-empty list on it. -/
def yieldsMatch (lib : Lib) (services : List Service) (t : Str) : Bool :=
  match Track lib services t with
  | .ok track => decide (track.length ≠ 0)
  | _ => false

/-- The result record that the service builds on the normalized input, once it
applies. -/
def Service.built (lib : Lib) (d : Service) (inp : Str) : Tracking :=
  Tracking.populate lib
    { Courier := d.CourierCode
      Service := d.Name
      TrackingNumber := inp
      SerialNumber := d.serialOf lib inp
      CheckDigit := d.checkDigitOf lib inp
      TrackingURL := if d.TrackingURL ≠ [] then lib.Sprintf d.TrackingURL inp else []
      Details := d.detailsOf lib inp }
    d.Additional

/-! ## Sample values for the worked instances -/

/-- An instance of the library parameters. The worked instances take ASCII inputs
and services with an empty URL template, on which its first four functions are not
called; where an instance reaches the formatting of a lookup entry, only what does
not depend on the formatted text is stated. -/
def sampleLib : Lib where
  ToUpperNonASCII := fun s => s
  TrimSpaceNonASCII := fun s => s
  FieldsNonASCII := fun s => [s]
  Sprintf := fun format arg => format ++ arg
  SprintLookup := fun lookup => lookup.Matches

/-- The pattern `^(?P<SerialNumber>w)$` for a literal `w`. -/
def exactly (w : Str) : Regexp where
  FindStringSubmatch := fun s => if s = w then some [s, s] else none
  SubexpNames := [[], ascii "SerialNumber"]

/-- The pattern `^(?P<SerialNumber>.*)$`: every string without a line feed, captured
whole. -/
def wholeLine : Regexp where
  FindStringSubmatch := fun s => if 10 ∈ s then none else some [s, s]
  SubexpNames := [[], ascii "SerialNumber"]

/-- The pattern `^(?P<SerialNumber>[0-9]+)(?P<CheckDigit>[0-9])$`: two or more
decimal digits, the last one captured as the check digit. -/
def serialAndDigit : Regexp where
  FindStringSubmatch := fun s =>
    if 2 ≤ s.length ∧ s.all (fun c => decide (48 ≤ c ∧ c ≤ 57)) then
      some [s, s.take (s.length - 1), s.drop (s.length - 1)]
    else none
  SubexpNames := [[], ascii "SerialNumber", ascii "CheckDigit"]

/-- A service with the given name, pattern and validator, no prepend rule, no URL
template and no lookup table. -/
def sampleService (name : Str) (re : Option Regexp) (v : Option CheckDigit) : Service where
  ID := name
  Name := name
  CourierName := ascii "Courier"
  CourierCode := ascii "cc"
  Description := []
  TrackingURL := []
  Regex := re
  Validation :=
    { CheckDigitOpts :=
        { Name := [], EvensMultiplier := 0, OddsMultiplier := 0, Weightings := [],
          Modulo1 := 0, Modulo2 := 0 }
      Validator := v
      Exists := []
      PrependIf := { Regex := none, Content := [] } }
  TestValid := []
  TestInvalid := []
  Additional := []

/-- A registry of three services on the same pattern of digits: Mod10(1,2), Mod7 and
the whole line without a checksum. -/
def sampleRegistry : List Service :=
  [sampleService (ascii "ten") (some serialAndDigit) (NewMod10 1 2),
   sampleService (ascii "seven") (some serialAndDigit) NewMod7,
   sampleService (ascii "any") (some wholeLine) NewNoop]

/-- The sample service without checksum on the whole line. -/
def anyService : Service := sampleService (ascii "any") (some wholeLine) NewNoop

/-- The sample service without checksum on the pattern of one literal. -/
def literalService (w : Str) : Service := sampleService (ascii "lit") (some (exactly w)) NewNoop

/-- The normalization as the specification words it, on an ASCII input: upper case,
and all white space removed. -/
def statedNormalize (s : Str) : Str := removeBy isAsciiSpace (s.map upperByte)

/-! ## Sample values for the enrichment rules -/

/-- A lookup entry with the given literal, name and description, no pattern and no
country fields. -/
def sampleLookup (literal name description : Str) : Lookup where
  Matches := literal
  MatchesRegex := none
  Name := name
  Description := description
  CountryCode := []
  CountryShortCode := []
  Country := []
  Courier := []
  CourierURL := []
  UPUReferenceURL := []

/-- The keys of a `map[string]string`. -/
def Details.keys (m : Details) : List Str := m.map Prod.fst

/-- An enrichment table named `Country` on the capture group `CountryCode`, with the
one entry of literal "US". -/
def countryTable : Additional where
  Name := ascii "Country"
  RegexGroupName := ascii "CountryCode"
  Lookups := [sampleLookup (ascii "US") [] []]

/-- The sample service on the whole line, with the table `Country` and the
additional-exists key `Country`; its pattern has no group `CountryCode`. -/
def tableService : Service :=
  { anyService with
    Additional := [countryTable]
    Validation := { anyService.Validation with Exists := [ascii "Country"] } }

/-- The keys that `populate` can write: the six fixed names of the service and
country fields, the group name `ShippingContainerType`, and a group name followed by
`:other`. -/
def DerivedKey (key : Str) : Prop :=
  key ∈ [ascii "ServiceName", ascii "ServiceDesc", ascii "Country", ascii "Courier",
    ascii "CourierURL", ascii "UPURefURL", ascii "ShippingContainerType"] ∨
  ∃ g : Str, key = g ++ ascii ":other"

/-- The serial after the prepend rule, for a captured serial `v`: the literal of
the rule followed by `v` when the rule has a pattern that does not match `v`, and `v`
otherwise. -/
def prependedSerial (rule : PrependIf) (v : Str) : Str :=
  match rule.Regex with
  | some re => if re.MatchString v = true then v else rule.Content ++ v
  | none => v

/-- The pattern `^0`: a string that starts with the digit zero. -/
def startsWithZero : Regexp where
  FindStringSubmatch := fun s => if s.head? = some 48 then some [[48]] else none
  SubexpNames := [[]]

/-- The sample service on the pattern of digits with Mod7, and the prepend rule
that puts "0" in front of a serial that does not start with zero. -/
def prependService : Service :=
  { sampleService (ascii "prep") (some serialAndDigit) NewMod7 with
    Validation :=
      { (sampleService (ascii "prep") (some serialAndDigit) NewMod7).Validation with
        PrependIf := { Regex := some startsWithZero, Content := ascii "0" } } }

/-- A `Validation` as decoded from a checksum configuration, before `SetValidator`:
no validator, no additional-exists key, no prepend rule. -/
def freshValidation (c : CheckDigitOpts) : Validation where
  CheckDigitOpts := c
  Validator := none
  Exists := []
  PrependIf := { Regex := none, Content := [] }

/-- A checksum configuration with the given name, weightings and moduli, and
multipliers zero. -/
def sampleOpts (name : Str) (w : List Int) (m1 m2 : Int) : CheckDigitOpts where
  Name := name
  EvensMultiplier := 0
  OddsMultiplier := 0
  Weightings := w
  Modulo1 := m1
  Modulo2 := m2

/-- The values that one iteration of the loop of `Mod3736.Generate` computes from
the accumulator `n` and the character value `si`, in unbounded integers: after the
addition, after the first reduction, after the doubling, the difference `n - mod` of
the second reduction when it is taken, and after the second reduction. -/
def Mod3736.intermediates (n si : Nat) : List Int :=
  let a : Int := (n : Int) + si
  let b : Int := if a > 36 then a - 36 else a
  let c : Int := b * 2
  let d : Int := if c > 36 then c - 36 - 1 else c
  [a, b, c, if c > 36 then c - 36 else c, d]

/-- The normal form of an ASCII input: upper case, with every space removed. -/
def normalizeASCII (x : Str) : Str :=
  (x.map upperByte).filter (fun c => decide (c ≠ 32))

theorem wrapInt_of_inRange (x : Int)
    (h : -9223372036854775808 ≤ x ∧ x < 9223372036854775808) : wrapInt x = x := by
  unfold wrapInt; omega

theorem wrapInt_add_wrapInt (a b : Int) : wrapInt (wrapInt a + wrapInt b) = wrapInt (a + b) := by
  unfold wrapInt; omega

theorem wrapInt_idem (a : Int) : wrapInt (wrapInt a) = wrapInt a := by
  unfold wrapInt; omega

/-- Go's remainder in terms of the Euclidean one, for a positive divisor. -/
theorem tmod_eq_ite (a b : Int) (hb : 0 < b) :
    Int.tmod a b = if 0 ≤ a then a % b else -((-a) % b) := by
  obtain ⟨n, rfl⟩ := Int.eq_ofNat_of_zero_le (Int.le_of_lt hb)
  cases a with
  | ofNat m =>
    have h0 : (0 : Int) ≤ Int.ofNat m := Int.ofNat_nonneg m
    rw [if_pos h0]
    rfl
  | negSucc m =>
    have h0 : ¬ (0 : Int) ≤ Int.negSucc m := by
      intro h; exact absurd h (by simp [Int.negSucc_not_nonneg])
    rw [if_neg h0]
    rfl

theorem tmod_ten_bounds (x : Int) : -10 < Int.tmod x 10 ∧ Int.tmod x 10 < 10 := by
  rw [tmod_eq_ite x 10 (by decide)]
  split_ifs <;> omega

/-! ### C1 -/

theorem validate_of_generate (gen : Str → Outcome GenError Str)
    (val : Str → Str → Option Bool)
    (h : ∀ s cd, val s cd = match gen s with
      | .ok v => some (decide (v = cd))
      | .error _ => some false
      | .panic => none) : ValidateFollowsGenerate gen val := by
  intro s d
  rw [h s d]
  cases hg : gen s with
  | ok v => simp
  | error e => simp
  | panic => simp

/-- C1: for Mod7, Mod10, S10, SumProductWithWeightingsAndModulo and Mod3736, and for
every serial and every check digit, `Validate` is true exactly when `Generate`
returns that digit, and it is false, raising nothing, whenever `Generate` returns an
error. -/
theorem C1_validate_iff_generate :
    (∀ m : Mod7, ValidateFollowsGenerate m.Generate m.Validate) ∧
    (∀ m : Mod10, ValidateFollowsGenerate m.Generate m.Validate) ∧
    (∀ m : S10, ValidateFollowsGenerate m.Generate m.Validate) ∧
    (∀ m : SumProductWithWeightingsAndModulo, ValidateFollowsGenerate m.Generate m.Validate) ∧
    (∀ m : Mod3736, ValidateFollowsGenerate m.Generate m.Validate) :=
  ⟨fun _ => validate_of_generate _ _ (fun _ _ => rfl),
   fun _ => validate_of_generate _ _ (fun _ _ => rfl),
   fun _ => validate_of_generate _ _ (fun _ _ => rfl),
   fun _ => validate_of_generate _ _ (fun _ _ => rfl),
   fun _ => validate_of_generate _ _ (fun _ _ => rfl)⟩

/-- The contract of C1 at a serial whose generation fails: the S10 check of a
seven-digit serial against eight weightings returns an error, and `Validate` answers
false. -/
theorem C1_validate_iff_generate_witness :
    S10.Generate ⟨[8, 6, 4, 2, 3, 5, 9, 7]⟩ (ascii "1234567") = .error .length ∧
    S10.Validate ⟨[8, 6, 4, 2, 3, 5, 9, 7]⟩ (ascii "1234567") (ascii "5") = some false :=
  ⟨rfl, ((C1_validate_iff_generate.2.2.1 ⟨[8, 6, 4, 2, 3, 5, 9, 7]⟩)
    (ascii "1234567") (ascii "5")).2.1 .length rfl⟩

/-! ### C2 -/

theorem Mod10.value_eq_byteValue (c : Nat) : Mod10.value c = Mod10.byteValue c := by
  unfold Mod10.value Mod10.byteValue atoiByte
  split_ifs with h
  · simp only []
    omega
  · simp only []
    omega

theorem Mod10.loop_eq (m : Mod10) (s : Str) : ∀ (i : Nat) (acc : Int),
    Mod10.loop m i (wrapInt acc) s = wrapInt (acc + Mod10.exactSum Mod10.byteValue m i s) := by
  induction s with
  | nil => intro i acc; simp [Mod10.loop, Mod10.exactSum]
  | cons c cs ih =>
    intro i acc
    have h := ih (i + 1) (acc + Mod10.value c * (if i % 2 = 0 then m.even else m.odd))
    simp only [Mod10.loop]
    rw [wrapInt_add_wrapInt, h]
    simp only [Mod10.exactSum, List.enumFrom_cons, List.map_cons, List.sum_cons,
      Mod10.value_eq_byteValue]
    congr 1
    ring

theorem Mod10.generate_eq (m : Mod10) (s : Str) :
    Mod10.Generate m s =
      .ok (fmtInt (Int.tmod (10 - Int.tmod (wrapInt (Mod10.exactSum Mod10.byteValue m 0 s)) 10) 10)) := by
  have h := Mod10.loop_eq m s 0 0
  have h0 : wrapInt 0 = 0 := by decide
  rw [h0, Int.zero_add] at h
  unfold Mod10.Generate
  simp only [h]
  rw [wrapInt_of_inRange]
  have := tmod_ten_bounds (wrapInt (Mod10.exactSum Mod10.byteValue m 0 s))
  omega

theorem ten_sub_tmod (x : Int) : Int.tmod (10 - Int.tmod x 10) 10 = (10 - x % 10) % 10 := by
  rw [tmod_eq_ite x 10 (by decide), tmod_eq_ite _ 10 (by decide)]
  split_ifs <;> omega

/-- C2 as stated fails at two inputs. With multipliers (1, 1) and the one-byte serial
`"\x00"` the code computes the byte value in 8-bit arithmetic, `(0 - 3) mod 256 = 253`,
`253 mod 10 = 3`, and returns "7", where the stated `(byte_value - 3) mod 10` gives "3"
under either reading of `mod`. With multipliers (4611686018427387904, 0) and the
serial "9" the 64-bit product wraps around and the code returns "6", where the exact
sum gives "4". -/
theorem C2_counterexample :
    (Mod10.Generate ⟨1, 1⟩ [0] = .ok (ascii "7") ∧
      Mod10.statedDigit Int.emod ⟨1, 1⟩ [0] = ascii "3" ∧
      Mod10.statedDigit Int.tmod ⟨1, 1⟩ [0] = ascii "3") ∧
    (Mod10.Generate ⟨4611686018427387904, 0⟩ (ascii "9") = .ok (ascii "6") ∧
      Mod10.statedDigit Int.emod ⟨4611686018427387904, 0⟩ (ascii "9") = ascii "4" ∧
      Mod10.statedDigit Int.tmod ⟨4611686018427387904, 0⟩ (ascii "9") = ascii "4") :=
  ⟨⟨rfl, rfl, rfl⟩, ⟨rfl, rfl, rfl⟩⟩

/-- C2, amended: for every pair of multipliers and every serial, `Mod10.Generate`
never fails and returns the decimal string of `(10 - sum mod 10) mod 10`, where `sum`
is the sum over every index `i` of `v_i` times the even multiplier when `i` is even and
the odd multiplier when `i` is odd, reduced to the 64-bit `int`, with `v_i` the digit
value of a decimal digit and `((byte_value - 3) mod 256) mod 10` otherwise; when the
exact sum fits the 64-bit `int` no reduction takes place. Mod10(1,2) on "123456789"
gives "5"; Mod10(3,1) on "703511447713847" gives "2" and on "897470275659911" gives
"2", not "5". -/
theorem C2_mod10_generate (m : Mod10) (s : Str) :
    Mod10.Generate m s =
      .ok (fmtInt (Int.tmod
        (10 - Int.tmod (wrapInt (Mod10.exactSum Mod10.byteValue m 0 s)) 10) 10)) ∧
    (-9223372036854775808 ≤ Mod10.exactSum Mod10.byteValue m 0 s ∧
        Mod10.exactSum Mod10.byteValue m 0 s < 9223372036854775808 →
      Mod10.Generate m s =
        .ok (fmtInt ((10 - Mod10.exactSum Mod10.byteValue m 0 s % 10) % 10))) ∧
    Mod10.Generate ⟨1, 2⟩ (ascii "123456789") = .ok (ascii "5") ∧
    Mod10.Generate ⟨3, 1⟩ (ascii "703511447713847") = .ok (ascii "2") ∧
    Mod10.Generate ⟨3, 1⟩ (ascii "897470275659911") = .ok (ascii "2") ∧
    Mod10.Generate ⟨3, 1⟩ (ascii "897470275659911") ≠ .ok (ascii "5") := by
  refine ⟨Mod10.generate_eq m s, ?_, rfl, rfl, rfl, ?_⟩
  · intro h
    rw [Mod10.generate_eq, wrapInt_of_inRange _ h, ten_sub_tmod]
  · intro h
    have h8 : Mod10.Generate ⟨3, 1⟩ (ascii "897470275659911") = .ok (ascii "2") := rfl
    rw [h8] at h
    exact absurd h (by decide)

/-- C2 at Mod10(1,2) and the serial "123456789": the exact sum is 65, within the
64-bit range, and the check digit is `(10 - 65 mod 10) mod 10 = 5`. -/
theorem C2_mod10_generate_witness :
    Mod10.exactSum Mod10.byteValue ⟨1, 2⟩ 0 (ascii "123456789") = 65 ∧
    Mod10.Generate ⟨1, 2⟩ (ascii "123456789") = .ok (fmtInt ((10 - 65 % 10) % 10)) :=
  ⟨by rfl, (C2_mod10_generate ⟨1, 2⟩ (ascii "123456789")).2.1 (by decide)⟩

/-! ### C3 and C4 -/

theorem atoiByte_of_digit (c : Nat) (h : 48 ≤ c ∧ c ≤ 57) :
    atoiByte c = some ((c : Int) - 48) := by
  unfold atoiByte
  rw [if_pos h]
  congr 1
  omega

theorem weightedLoop_eq (w : List Int) : ∀ (s : Str) (acc : Int),
    s.length = w.length → IsDigits s →
      weightedLoop w (wrapInt acc) s = .ok (wrapInt (acc + exactWeightedSum w s)) := by
  induction w with
  | nil => intro s acc _ _; simp [weightedLoop, exactWeightedSum]
  | cons x xs ih =>
    intro s acc hl hd
    cases s with
    | nil => simp at hl
    | cons c cs =>
      have hc : 48 ≤ c ∧ c ≤ 57 := hd c (List.mem_cons_self c cs)
      have hcs : IsDigits cs := fun d hd' => hd d (List.mem_cons_of_mem c hd')
      have hl' : cs.length = xs.length := by simpa using hl
      simp only [weightedLoop, atoiByte_of_digit c hc]
      rw [wrapInt_add_wrapInt, ih cs _ hl' hcs]
      simp only [exactWeightedSum, List.zipWith_cons_cons, List.sum_cons]
      congr 2
      ring

theorem weightedLoop_zero (w : List Int) (s : Str) (hl : s.length = w.length)
    (hd : IsDigits s) : weightedLoop w 0 s = .ok (wrapInt (exactWeightedSum w s)) := by
  have h := weightedLoop_eq w s 0 hl hd
  have h0 : wrapInt 0 = 0 := by decide
  rw [h0, Int.zero_add] at h
  exact h

theorem tmod_eleven_bounds (x : Int) : -11 < Int.tmod x 11 ∧ Int.tmod x 11 < 11 := by
  rw [tmod_eq_ite x 11 (by decide)]
  split_ifs <;> omega

theorem S10.generate_of_digits (w : List Int) (s : Str) (hl : s.length = w.length)
    (hd : IsDigits s) :
    S10.Generate ⟨w⟩ s =
      .ok (fmtInt (S10.checkValue (Int.tmod (wrapInt (exactWeightedSum w s)) 11))) := by
  unfold S10.Generate
  simp only [hl, ne_eq, not_true_eq_false, if_false, weightedLoop_zero w s hl hd]
  unfold S10.checkValue
  have hb := tmod_eleven_bounds (wrapInt (exactWeightedSum w s))
  rw [wrapInt_of_inRange (11 - _) (by omega)]

/-- C3 as stated fails at two inputs. On the single weighting 4611686018427387904
and the serial "9" the 64-bit product wraps around to 4611686018427387904, whose
remainder by 11 is 4, and the code returns "7"; the exact sum has remainder 3, for
which the stated digit is "8", under either reading of `mod`. On the single weighting
-1 and the serial "1" the sum is -1, Go's remainder is -1 and the code returns "12",
where the mathematical remainder 10 gives "1". -/
theorem C3_counterexample :
    (S10.Generate ⟨[4611686018427387904]⟩ (ascii "9") = .ok (ascii "7") ∧
      S10.statedDigit Int.emod [4611686018427387904] (ascii "9") = ascii "8" ∧
      S10.statedDigit Int.tmod [4611686018427387904] (ascii "9") = ascii "8") ∧
    (S10.Generate ⟨[-1]⟩ (ascii "1") = .ok (ascii "12") ∧
      S10.statedDigit Int.emod [-1] (ascii "1") = ascii "1") :=
  ⟨⟨rfl, rfl, rfl⟩, ⟨rfl, rfl⟩⟩

/-- C3, amended: `NewS10` replaces an empty weighting sequence by
`[8,6,4,2,3,5,9,7]` and keeps every other one; for every weighting sequence `w` and
serial `s`, `S10.Generate` fails when `len(s)` differs from `len(w)`; when the lengths
are equal and every character of `s` is a decimal digit it succeeds and returns the
decimal string of `f(r)`, where `r` is Go's remainder by 11 of the sum of
`digit[i] * w[i]` reduced to the 64-bit `int`, and `f(1) = 0`, `f(0) = 5`,
`f(r) = 11 - r` otherwise; when the exact sum is not negative and fits the 64-bit
`int`, `r` is the exact sum mod 11. Weights `[8,6,4,2,3,5,9,7]` on "12345678" give
"5". -/
theorem C3_s10_generate (w : List Int) (ex : List Str) (s : Str) :
    NewS10 [] ex = some (.s10 ⟨[8, 6, 4, 2, 3, 5, 9, 7]⟩) ∧
    (w ≠ [] → NewS10 w ex = some (.s10 ⟨w⟩)) ∧
    (s.length ≠ w.length → S10.Generate ⟨w⟩ s = .error .length) ∧
    (s.length = w.length → IsDigits s →
      S10.Generate ⟨w⟩ s =
        .ok (fmtInt (S10.checkValue (Int.tmod (wrapInt (exactWeightedSum w s)) 11)))) ∧
    (s.length = w.length → IsDigits s →
      0 ≤ exactWeightedSum w s → exactWeightedSum w s < 9223372036854775808 →
      S10.Generate ⟨w⟩ s = .ok (fmtInt (S10.checkValue (exactWeightedSum w s % 11)))) ∧
    S10.Generate ⟨[8, 6, 4, 2, 3, 5, 9, 7]⟩ (ascii "12345678") = .ok (ascii "5") := by
  refine ⟨rfl, ?_, ?_, S10.generate_of_digits w s, ?_, rfl⟩
  · intro hw
    cases w with
    | nil => exact absurd rfl hw
    | cons x xs => rfl
  · intro hl
    unfold S10.Generate
    rw [if_pos hl]
  · intro hl hd h0 h1
    rw [S10.generate_of_digits w s hl hd, wrapInt_of_inRange _ (by omega),
      tmod_eq_ite _ 11 (by decide), if_pos h0]

/-- C3 at the weights `[8,6,4,2,3,5,9,7]` and the serial "12345678": the lengths
agree, every byte is a digit, the exact sum is 204, of remainder 6 by 11, and the
check digit is 11 - 6 = 5. -/
theorem C3_s10_generate_witness :
    exactWeightedSum [8, 6, 4, 2, 3, 5, 9, 7] (ascii "12345678") = 204 ∧
    S10.Generate ⟨[8, 6, 4, 2, 3, 5, 9, 7]⟩ (ascii "12345678") =
      .ok (fmtInt (S10.checkValue (204 % 11))) :=
  ⟨by rfl, (C3_s10_generate [8, 6, 4, 2, 3, 5, 9, 7] [] (ascii "12345678")).2.2.2.2.1
    (by rfl) (by intro c hc; simp [ascii] at hc; omega) (by decide) (by decide)⟩

theorem SumProductWithWeightingsAndModulo.generate_append
    (sp : SumProductWithWeightingsAndModulo) (p t : Str)
    (ht : t.length = sp.Weightings.length) : sp.Generate (p ++ t) = sp.Generate t := by
  have h1 : ¬ (p ++ t).length < sp.Weightings.length := by
    rw [List.length_append]; omega
  have h2 : ¬ t.length < sp.Weightings.length := by omega
  have h3 : (p ++ t).drop ((p ++ t).length - sp.Weightings.length) = t := by
    rw [List.length_append, ht, Nat.add_sub_cancel]
    exact List.drop_left p t
  have h4 : t.drop (t.length - sp.Weightings.length) = t := by
    rw [ht, Nat.sub_self]; rfl
  unfold SumProductWithWeightingsAndModulo.Generate
  simp only [h1, h2, if_false, h3, h4]

theorem SumProductWithWeightingsAndModulo.generate_of_trailing_digits
    (sp : SumProductWithWeightingsAndModulo) (s : Str)
    (h1 : sp.Modulo1 ≠ 0) (h2 : sp.Modulo2 ≠ 0)
    (hl : sp.Weightings.length ≤ s.length)
    (hd : IsDigits (s.drop (s.length - sp.Weightings.length))) :
    sp.Generate s =
      .ok (fmtInt (Int.tmod (Int.tmod (wrapInt (exactWeightedSum sp.Weightings
        (s.drop (s.length - sp.Weightings.length)))) sp.Modulo1) sp.Modulo2)) := by
  have hlen : (s.drop (s.length - sp.Weightings.length)).length = sp.Weightings.length := by
    rw [List.length_drop]; omega
  have hlt : ¬ s.length < sp.Weightings.length := by omega
  unfold SumProductWithWeightingsAndModulo.Generate
  simp only [hlt, if_false, weightedLoop_zero _ _ hlen hd, h1, h2]

/-- C4 as stated fails at two inputs. On the single weighting 4611686018427387904,
moduli 11 and 10, and the serial "9" the 64-bit product wraps around to
4611686018427387904, of remainder 4 by 11, and the code returns "4"; the exact sum
has remainder 3, for which the stated digit is "3", under either reading of `mod`.
On the single weighting -1, moduli 11 and 10, and the serial "1" the sum is -1, Go's
remainders are -1 and the code returns "-1", where the mathematical remainders give
"0". -/
theorem C4_counterexample :
    (SumProductWithWeightingsAndModulo.Generate ⟨[4611686018427387904], 11, 10⟩ (ascii "9") =
        .ok (ascii "4") ∧
      SumProductWithWeightingsAndModulo.statedDigit Int.emod
        ⟨[4611686018427387904], 11, 10⟩ (ascii "9") = ascii "3" ∧
      SumProductWithWeightingsAndModulo.statedDigit Int.tmod
        ⟨[4611686018427387904], 11, 10⟩ (ascii "9") = ascii "3") ∧
    (SumProductWithWeightingsAndModulo.Generate ⟨[-1], 11, 10⟩ (ascii "1") =
        .ok (ascii "-1") ∧
      SumProductWithWeightingsAndModulo.statedDigit Int.emod ⟨[-1], 11, 10⟩ (ascii "1") =
        ascii "0") :=
  ⟨⟨rfl, rfl, rfl⟩, ⟨rfl, rfl⟩⟩

/-- C4, amended: for every weighting sequence `w`, non-zero moduli `m1` and `m2`,
and serial `s`, the weighted-sum `Generate` fails when `len(s) < len(w)`; otherwise it
depends only on the trailing `len(w)` characters of `s`, and when those are all
decimal digits it returns the decimal string of Go's remainder by `m2` of Go's
remainder by `m1` of the sum of `digit[i] * w[i]` reduced to the 64-bit `int`; when
the exact sum is not negative and fits the 64-bit `int` and the moduli are positive,
that is `(sum mod m1) mod m2`. Weights `[3,1,7,3,1,7,3,1,7,3,1]`, moduli 11 and 10, on
"98657878885" give "5"; the 13-weight variant on
"100192133425000100030077901797269" gives "7". -/
theorem C4_weighted_sum_generate (sp : SumProductWithWeightingsAndModulo) (s : Str)
    (h1 : sp.Modulo1 ≠ 0) (h2 : sp.Modulo2 ≠ 0) :
    (s.length < sp.Weightings.length → sp.Generate s = .error .length) ∧
    (∀ p t : Str, t.length = sp.Weightings.length → sp.Generate (p ++ t) = sp.Generate t) ∧
    (sp.Weightings.length ≤ s.length →
      IsDigits (s.drop (s.length - sp.Weightings.length)) →
      sp.Generate s =
        .ok (fmtInt (Int.tmod (Int.tmod (wrapInt (exactWeightedSum sp.Weightings
          (s.drop (s.length - sp.Weightings.length)))) sp.Modulo1) sp.Modulo2))) ∧
    (sp.Weightings.length ≤ s.length →
      IsDigits (s.drop (s.length - sp.Weightings.length)) →
      0 ≤ exactWeightedSum sp.Weightings (s.drop (s.length - sp.Weightings.length)) →
      exactWeightedSum sp.Weightings (s.drop (s.length - sp.Weightings.length))
        < 9223372036854775808 →
      0 < sp.Modulo1 → 0 < sp.Modulo2 →
      sp.Generate s =
        .ok (fmtInt (exactWeightedSum sp.Weightings
          (s.drop (s.length - sp.Weightings.length)) % sp.Modulo1 % sp.Modulo2))) ∧
    SumProductWithWeightingsAndModulo.Generate ⟨[3, 1, 7, 3, 1, 7, 3, 1, 7, 3, 1], 11, 10⟩
      (ascii "98657878885") = .ok (ascii "5") ∧
    SumProductWithWeightingsAndModulo.Generate
      ⟨[1, 7, 3, 1, 7, 3, 1, 7, 3, 1, 7, 3, 1], 11, 10⟩
      (ascii "100192133425000100030077901797269") = .ok (ascii "7") := by
  refine ⟨?_, sp.generate_append, sp.generate_of_trailing_digits s h1 h2, ?_, rfl, rfl⟩
  · intro hl
    unfold SumProductWithWeightingsAndModulo.Generate
    rw [if_pos hl]
  · intro hl hd h0 hr hm1 hm2
    rw [sp.generate_of_trailing_digits s h1 h2 hl hd, wrapInt_of_inRange _ (by omega),
      tmod_eq_ite _ _ hm1, if_pos h0, tmod_eq_ite _ _ hm2,
      if_pos (Int.emod_nonneg _ h1)]

/-- C4 at the weights `[3,1,7,3,1,7,3,1,7,3,1]`, moduli 11 and 10, and the serial
"98657878885": the exact sum is 269, and `(269 mod 11) mod 10 = 5`. -/
theorem C4_weighted_sum_generate_witness :
    exactWeightedSum [3, 1, 7, 3, 1, 7, 3, 1, 7, 3, 1] (ascii "98657878885") = 269 ∧
    SumProductWithWeightingsAndModulo.Generate ⟨[3, 1, 7, 3, 1, 7, 3, 1, 7, 3, 1], 11, 10⟩
      (ascii "98657878885") = .ok (fmtInt (269 % 11 % 10)) :=
  ⟨by rfl, (C4_weighted_sum_generate ⟨[3, 1, 7, 3, 1, 7, 3, 1, 7, 3, 1], 11, 10⟩
    (ascii "98657878885") (by decide) (by decide)).2.2.2.1
    (by decide) (by intro c hc; simp [ascii] at hc; omega) (by decide) (by decide)
    (by decide) (by decide)⟩

/-! ### C5 -/

theorem digitsValue_of_isDigits (ds : Str) : ∀ acc : Nat, IsDigits ds →
    digitsValue acc ds = some (ds.foldl (fun a c => a * 10 + (c - 48)) acc) := by
  induction ds with
  | nil => intro acc _; rfl
  | cons c cs ih =>
    intro acc hd
    have hc : 48 ≤ c ∧ c ≤ 57 := hd c (List.mem_cons_self c cs)
    have hcs : IsDigits cs := fun d hd' => hd d (List.mem_cons_of_mem c hd')
    simp only [digitsValue, if_pos hc, List.foldl_cons]
    exact ih _ hcs

theorem isDigits_of_digitsValue (ds : Str) : ∀ (acc v : Nat),
    digitsValue acc ds = some v → IsDigits ds := by
  induction ds with
  | nil => intro _ _ _ c hc; simp at hc
  | cons c cs ih =>
    intro acc v h
    simp only [digitsValue] at h
    split_ifs at h with hc
    intro d hd
    rcases List.mem_cons.mp hd with rfl | hd'
    · exact hc
    · exact ih _ _ h d hd'

theorem head_of_isDigits (ds : Str) (hd : IsDigits ds) :
    ds.head? ≠ some 43 ∧ ds.head? ≠ some 45 := by
  cases ds with
  | nil => simp
  | cons c cs =>
    have hc : 48 ≤ c ∧ c ≤ 57 := hd c (List.mem_cons_self c cs)
    simp only [List.head?_cons, ne_eq, Option.some.injEq]
    omega

theorem atoiDigits_eq_some_iff (neg : Bool) (body : Str) (v : Int) :
    atoiDigits neg body = some v ↔
      body ≠ [] ∧ IsDigits body ∧
        v = (if neg then -(decimalValue body : Int) else (decimalValue body : Int)) ∧
        InInt64 v := by
  unfold atoiDigits InInt64
  by_cases hb : body = []
  · simp [hb]
  · rw [if_neg hb]
    cases hdv : digitsValue 0 body with
    | none =>
      constructor
      · intro h; exact absurd h (by simp)
      · rintro ⟨_, hd, _⟩
        rw [digitsValue_of_isDigits body 0 hd] at hdv
        exact absurd hdv (by simp)
    | some n =>
      have hdig := isDigits_of_digitsValue _ _ _ hdv
      have hval := digitsValue_of_isDigits _ 0 hdig
      rw [hdv] at hval
      have hn : n = decimalValue body := Option.some.inj hval
      subst hn
      simp only []
      constructor
      · intro h
        by_cases hr : -9223372036854775808 ≤
            (if neg = true then -(decimalValue body : Int) else (decimalValue body : Int)) ∧
            (if neg = true then -(decimalValue body : Int) else (decimalValue body : Int))
              < 9223372036854775808
        · rw [if_pos hr] at h
          have hv := Option.some.inj h
          subst hv
          exact ⟨hb, hdig, rfl, hr⟩
        · rw [if_neg hr] at h
          exact absurd h (by simp)
      · rintro ⟨_, _, hv, hr⟩
        subst hv
        rw [if_pos hr]

/-- The call `Atoi` succeeds exactly on the base-10 integers that fit the 64-bit
`int`, with their value. -/
theorem Atoi_eq_some_iff (s : Str) (v : Int) :
    Atoi s = some v ↔ IsNumeral s v ∧ InInt64 v := by
  unfold Atoi IsNumeral
  cases s with
  | nil =>
    simp only [List.head?_nil, if_false, atoiDigits_eq_some_iff]
    constructor
    · rintro ⟨h, _⟩
    · rintro ⟨⟨ds, hne, _, h | h | h⟩, _⟩
      · exact absurd h.1.symm hne
      · exact absurd h.1 (by simp)
      · exact absurd h.1 (by simp)
  | cons c r =>
    by_cases h45 : c = 45
    · subst h45
      simp only [List.head?_cons, if_true, List.tail_cons, atoiDigits_eq_some_iff]
      constructor
      · rintro ⟨hne, hd, hv, hr⟩
        exact ⟨⟨r, hne, hd, Or.inr (Or.inr ⟨rfl, hv⟩)⟩, hr⟩
      · rintro ⟨⟨ds, hne, hd, h | h | h⟩, hr⟩
        · have := (head_of_isDigits ds hd).2
          rw [← h.1] at this
          exact absurd rfl this
        · exact absurd h.1 (by simp)
        · have hds : r = ds := (List.cons.inj h.1).2
          subst hds
          exact ⟨hne, hd, h.2, hr⟩
    · by_cases h43 : c = 43
      · subst h43
        have hne45 : ¬ (some 43 : Option Nat) = some 45 := by decide
        simp only [List.head?_cons, hne45, if_false, if_true, List.tail_cons,
          atoiDigits_eq_some_iff]
        constructor
        · rintro ⟨hne, hd, hv, hr⟩
          exact ⟨⟨r, hne, hd, Or.inr (Or.inl ⟨rfl, hv⟩)⟩, hr⟩
        · rintro ⟨⟨ds, hne, hd, h | h | h⟩, hr⟩
          · have := (head_of_isDigits ds hd).1
            rw [← h.1] at this
            exact absurd rfl this
          · have hds : r = ds := (List.cons.inj h.1).2
            subst hds
            exact ⟨hne, hd, h.2, hr⟩
          · exact absurd h.1 (by simp)
      · have e45 : ¬ (some c : Option Nat) = some 45 := by simpa using h45
        have e43 : ¬ (some c : Option Nat) = some 43 := by simpa using h43
        simp only [List.head?_cons, e45, e43, if_false, atoiDigits_eq_some_iff]
        constructor
        · rintro ⟨hne, hd, hv, hr⟩
          exact ⟨⟨c :: r, hne, hd, Or.inl ⟨rfl, hv⟩⟩, hr⟩
        · rintro ⟨⟨ds, hne, hd, h | h | h⟩, hr⟩
          · rw [← h.1] at hne hd
            have hv := h.2
            rw [← h.1] at hv
            exact ⟨hne, hd, hv, hr⟩
          · exact absurd (List.cons.inj h.1).1 h43
          · exact absurd (List.cons.inj h.1).1 h45

theorem Mod7.generate_of_numeral (m : Mod7) (s : Str) (v : Int) (hn : IsNumeral s v)
    (hr : InInt64 v) : m.Generate s = .ok (fmtInt (Int.tmod v 7)) := by
  unfold Mod7.Generate
  rw [(Atoi_eq_some_iff s v).mpr ⟨hn, hr⟩]

theorem Mod7.generate_of_not_numeral (m : Mod7) (s : Str)
    (h : ∀ v, IsNumeral s v → ¬ InInt64 v) : m.Generate s = .ok (ascii "0") := by
  unfold Mod7.Generate
  cases ha : Atoi s with
  | none => rfl
  | some v =>
    have hv := (Atoi_eq_some_iff s v).mp ha
    exact absurd hv.2 (h v hv.1)

/-- C5 as stated fails on the serial of twenty nines: it is a non-empty string of
decimal digits, of value 99999999999999999999, whose remainder by 7 is 1, but the
value does not fit the 64-bit `int`, `Atoi` fails and the code returns "0". On the
serial "-8", an integer of mathematical remainder 6 by 7, the code returns Go's
remainder, "-1". -/
theorem C5_counterexample :
    (IsDigits (ascii "99999999999999999999") ∧
      decimalValue (ascii "99999999999999999999") = 99999999999999999999 ∧
      fmtInt (Int.emod 99999999999999999999 7) = ascii "1" ∧
      fmtInt (Int.tmod 99999999999999999999 7) = ascii "1" ∧
      Mod7.Generate ⟨⟩ (ascii "99999999999999999999") = .ok (ascii "0")) ∧
    (fmtInt (Int.emod (-8) 7) = ascii "6" ∧
      Mod7.Generate ⟨⟩ (ascii "-8") = .ok (ascii "-1")) :=
  ⟨⟨by intro c hc; simp [ascii] at hc; omega, by rfl, by rfl, by rfl, by rfl⟩,
   ⟨by rfl, by rfl⟩⟩

/-- C5, amended: for every serial, `Mod7.Generate` never fails: when the entire serial
is a base-10 integer (one or more decimal digits after an optional sign) whose value
fits the 64-bit `int`, it returns Go's remainder of that value by 7 as a decimal
string, which for a non-empty string of decimal digits of value below 2^63 is the
value mod 7; for every other serial it returns "0". "331881002" gives "5";
"JVGL099999999" gives "0". -/
theorem C5_mod7_generate (m : Mod7) (s : Str) :
    (∃ d, m.Generate s = .ok d) ∧
    (∀ v, IsNumeral s v → InInt64 v → m.Generate s = .ok (fmtInt (Int.tmod v 7))) ∧
    (s ≠ [] → IsDigits s → decimalValue s < 9223372036854775808 →
      m.Generate s = .ok (fmtNat (decimalValue s % 7))) ∧
    ((∀ v, IsNumeral s v → ¬ InInt64 v) → m.Generate s = .ok (ascii "0")) ∧
    Mod7.Generate ⟨⟩ (ascii "331881002") = .ok (ascii "5") ∧
    Mod7.Generate ⟨⟩ (ascii "JVGL099999999") = .ok (ascii "0") := by
  refine ⟨?_, m.generate_of_numeral s, ?_, m.generate_of_not_numeral s, rfl, rfl⟩
  · unfold Mod7.Generate
    cases Atoi s with
    | none => exact ⟨_, rfl⟩
    | some v => exact ⟨_, rfl⟩
  · intro hne hd hlt
    have hn : IsNumeral s (decimalValue s : Int) := ⟨s, hne, hd, Or.inl ⟨rfl, rfl⟩⟩
    have hr : InInt64 (decimalValue s : Int) := by unfold InInt64; omega
    rw [m.generate_of_numeral s _ hn hr]
    rfl

/-- C5 at the serial "331881002": a non-empty string of digits of value 331881002,
below 2^63, whose remainder by 7 is 5. -/
theorem C5_mod7_generate_witness :
    decimalValue (ascii "331881002") = 331881002 ∧
    Mod7.Generate ⟨⟩ (ascii "331881002") = .ok (fmtNat (331881002 % 7)) :=
  ⟨by rfl, (C5_mod7_generate ⟨⟩ (ascii "331881002")).2.2.1 (by decide)
    (by intro c hc; simp [ascii] at hc; omega) (by decide)⟩

/-! ### C6 -/

theorem Mod3736.step_spec (n c : Nat) (h1 : 1 ≤ n) (h2 : n ≤ 36) :
    ((Mod3736.step n c : Nat) : Int) = Mod3736.refStep (n : Int) c ∧
      1 ≤ Mod3736.step n c ∧ Mod3736.step n c ≤ 36 := by
  unfold Mod3736.step Mod3736.refStep mod36CharToVal base36Value
  by_cases hA : 48 ≤ c ∧ c ≤ 57
  · simp only [if_pos hA]
    split_ifs <;> omega
  · by_cases hB : 65 ≤ c ∧ c ≤ 90
    · simp only [if_neg hA, if_pos hB]
      split_ifs <;> omega
    · by_cases hC : 97 ≤ c ∧ c ≤ 122
      · simp only [if_neg hA, if_neg hB, if_pos hC]
        split_ifs <;> omega
      · simp only [if_neg hA, if_neg hB, if_neg hC]
        exact ⟨trivial, h1, h2⟩

theorem Mod3736.foldl_spec (s : Str) : ∀ n : Nat, 1 ≤ n → n ≤ 36 →
    ((s.foldl Mod3736.step n : Nat) : Int) = s.foldl Mod3736.refStep (n : Int) ∧
      1 ≤ s.foldl Mod3736.step n ∧ s.foldl Mod3736.step n ≤ 36 := by
  induction s with
  | nil => intro n h1 h2; exact ⟨rfl, h1, h2⟩
  | cons c cs ih =>
    intro n h1 h2
    obtain ⟨he, hl, hu⟩ := Mod3736.step_spec n c h1 h2
    simp only [List.foldl_cons]
    rw [← he]
    exact ih _ hl hu

theorem Mod3736.generate_eq_reference (m : Mod3736) (s : Str) :
    m.Generate s = .ok (Mod3736.reference s) := by
  obtain ⟨he, hl, hu⟩ := Mod3736.foldl_spec s 36 (by decide) (by decide)
  unfold Mod3736.Generate Mod3736.reference
  simp only []
  have he' : List.foldl Mod3736.refStep 36 s = ((s.foldl Mod3736.step 36 : Nat) : Int) := by
    rw [he]; rfl
  rw [he']
  congr 2
  unfold mod36ValtoChar base36Char
  simp only []
  split_ifs <;> omega

theorem mod36CharToVal_upper (c : Nat) : mod36CharToVal (upperByte c) = mod36CharToVal c := by
  unfold upperByte
  by_cases hC : 97 ≤ c ∧ c ≤ 122
  · rw [if_pos hC]
    unfold mod36CharToVal
    have a1 : ¬ (48 ≤ c - 32 ∧ c - 32 ≤ 57) := by omega
    have a2 : 65 ≤ c - 32 ∧ c - 32 ≤ 90 := by omega
    have b1 : ¬ (48 ≤ c ∧ c ≤ 57) := by omega
    have b2 : ¬ (65 ≤ c ∧ c ≤ 90) := by omega
    rw [if_neg a1, if_pos a2, if_neg b1, if_neg b2, if_pos hC]
    congr 1
    omega
  · rw [if_neg hC]

theorem Mod3736.step_upper (n c : Nat) : Mod3736.step n (upperByte c) = Mod3736.step n c := by
  unfold Mod3736.step
  rw [mod36CharToVal_upper]

theorem Mod3736.step_skip (n c : Nat) (h : isAlnum c = false) : Mod3736.step n c = n := by
  unfold isAlnum base36Value at h
  by_cases hA : 48 ≤ c ∧ c ≤ 57
  · rw [if_pos hA] at h; exact absurd h (by simp)
  · by_cases hB : 65 ≤ c ∧ c ≤ 90
    · rw [if_neg hA, if_pos hB] at h; exact absurd h (by simp)
    · by_cases hC : 97 ≤ c ∧ c ≤ 122
      · rw [if_neg hA, if_neg hB, if_pos hC] at h; exact absurd h (by simp)
      · unfold Mod3736.step mod36CharToVal
        rw [if_neg hA, if_neg hB, if_neg hC]

theorem Mod3736.foldl_upper (s : Str) : ∀ n : Nat,
    (s.map upperByte).foldl Mod3736.step n = s.foldl Mod3736.step n := by
  induction s with
  | nil => intro n; rfl
  | cons c cs ih =>
    intro n
    simp only [List.map_cons, List.foldl_cons, Mod3736.step_upper]
    exact ih _

theorem Mod3736.foldl_filter (s : Str) : ∀ n : Nat,
    (s.filter isAlnum).foldl Mod3736.step n = s.foldl Mod3736.step n := by
  induction s with
  | nil => intro n; rfl
  | cons c cs ih =>
    intro n
    cases hc : isAlnum c with
    | true =>
      rw [List.filter_cons_of_pos hc]
      simp only [List.foldl_cons]
      exact ih _
    | false =>
      rw [List.filter_cons_of_neg (by simp [hc])]
      simp only [List.foldl_cons, Mod3736.step_skip n c hc]
      exact ih _

theorem map_upper_of_sameUpToCase (s t : Str) (h : List.Forall₂ SameUpToCase s t) :
    s.map upperByte = t.map upperByte := by
  induction h with
  | nil => rfl
  | cons hab _ ih =>
    simp only [List.map_cons]
    rw [ih]
    unfold SameUpToCase at hab
    rw [hab]

/-- C6: for every serial, `Mod3736.Generate` never fails and equals the reference
computation over unbounded integers (start at 36; for each digit or letter add its
base-36 value, subtract 36 if above 36, double, subtract 37 if above 36; skip every
other character; finish with `(37 - n) mod 36` written as one character `'0'-'9'` or
`'A'-'Z'`); its result is unchanged by changing the case of letters and by inserting
or deleting characters that are neither letters nor digits. -/
theorem C6_mod3736_reference (m : Mod3736) (s t : Str) :
    m.Generate s = .ok (Mod3736.reference s) ∧
    (List.Forall₂ SameUpToCase s t → m.Generate s = m.Generate t) ∧
    (s.filter isAlnum = t.filter isAlnum → m.Generate s = m.Generate t) := by
  refine ⟨m.generate_eq_reference s, ?_, ?_⟩
  · intro h
    unfold Mod3736.Generate
    rw [← Mod3736.foldl_upper s, ← Mod3736.foldl_upper t, map_upper_of_sameUpToCase s t h]
  · intro h
    unfold Mod3736.Generate
    rw [← Mod3736.foldl_filter s, ← Mod3736.foldl_filter t, h]

/-- C6 at the serials "ab-12" and "AB12": they agree up to the letters and digits
kept, and "ab12" and "AB12" agree up to case. -/
theorem C6_mod3736_reference_witness :
    Mod3736.Generate ⟨⟩ (ascii "a-b 12") = Mod3736.Generate ⟨⟩ (ascii "ab12") ∧
    Mod3736.Generate ⟨⟩ (ascii "ab12") = Mod3736.Generate ⟨⟩ (ascii "AB12") :=
  ⟨(C6_mod3736_reference ⟨⟩ (ascii "a-b 12") (ascii "ab12")).2.2 (by decide),
   (C6_mod3736_reference ⟨⟩ (ascii "ab12") (ascii "AB12")).2.1
    (List.Forall₂.cons (by decide) (List.Forall₂.cons (by decide)
      (List.Forall₂.cons (by decide) (List.Forall₂.cons (by decide) List.Forall₂.nil))))⟩

/-! ### UTF-8: the rune count and multi-byte characters -/

theorem runeWidth_bounds (s : Str) : 1 ≤ runeWidth s ∧ (s ≠ [] → runeWidth s ≤ s.length) := by
  rcases s with _ | ⟨c, rest⟩
  · simp [runeWidth]
  · simp only [runeWidth]
    generalize utf8First c = u
    rcases u with _ | ⟨size, lo, hi⟩ <;>
      rcases rest with _ | ⟨b1, _ | ⟨b2, _ | ⟨b3, r3⟩⟩⟩ <;>
      simp only [] <;> split_ifs <;> simp

theorem utf8First_cases (c : Nat) :
    (utf8First c = none ∧ (c < 0xC2 ∨ 0xF4 < c)) ∨
    (utf8First c = some (2, 0x80, 0xBF) ∧ 0xC2 ≤ c ∧ c ≤ 0xDF) ∨
    (utf8First c = some (3, 0xA0, 0xBF) ∧ c = 0xE0) ∨
    (utf8First c = some (3, 0x80, 0xBF) ∧ ((0xE1 ≤ c ∧ c ≤ 0xEC) ∨ (0xEE ≤ c ∧ c ≤ 0xEF))) ∨
    (utf8First c = some (3, 0x80, 0x9F) ∧ c = 0xED) ∨
    (utf8First c = some (4, 0x90, 0xBF) ∧ c = 0xF0) ∨
    (utf8First c = some (4, 0x80, 0xBF) ∧ 0xF1 ≤ c ∧ c ≤ 0xF3) ∨
    (utf8First c = some (4, 0x80, 0x8F) ∧ c = 0xF4) := by
  unfold utf8First
  by_cases h1 : 0xC2 ≤ c ∧ c ≤ 0xDF
  · rw [if_pos h1]; exact Or.inr (Or.inl ⟨rfl, h1⟩)
  rw [if_neg h1]
  by_cases h2 : c = 0xE0
  · rw [if_pos h2]; exact Or.inr (Or.inr (Or.inl ⟨rfl, h2⟩))
  rw [if_neg h2]
  by_cases h3 : 0xE1 ≤ c ∧ c ≤ 0xEC
  · rw [if_pos h3]; exact Or.inr (Or.inr (Or.inr (Or.inl ⟨rfl, Or.inl h3⟩)))
  rw [if_neg h3]
  by_cases h4 : c = 0xED
  · rw [if_pos h4]; exact Or.inr (Or.inr (Or.inr (Or.inr (Or.inl ⟨rfl, h4⟩))))
  rw [if_neg h4]
  by_cases h5 : 0xEE ≤ c ∧ c ≤ 0xEF
  · rw [if_pos h5]; exact Or.inr (Or.inr (Or.inr (Or.inl ⟨rfl, Or.inr h5⟩)))
  rw [if_neg h5]
  by_cases h6 : c = 0xF0
  · rw [if_pos h6]; exact Or.inr (Or.inr (Or.inr (Or.inr (Or.inr (Or.inl ⟨rfl, h6⟩)))))
  rw [if_neg h6]
  by_cases h7 : 0xF1 ≤ c ∧ c ≤ 0xF3
  · rw [if_pos h7]
    exact Or.inr (Or.inr (Or.inr (Or.inr (Or.inr (Or.inr (Or.inl ⟨rfl, h7⟩))))))
  rw [if_neg h7]
  by_cases h8 : c = 0xF4
  · rw [if_pos h8]
    exact Or.inr (Or.inr (Or.inr (Or.inr (Or.inr (Or.inr (Or.inr ⟨rfl, h8⟩))))))
  rw [if_neg h8]
  exact Or.inl ⟨rfl, by omega⟩

theorem runeWidth_ascii (c : Nat) (rest : Str) (h : c < 0x80) : runeWidth (c :: rest) = 1 := by
  simp only [runeWidth, if_pos h]

theorem runeWidth_none (c : Nat) (rest : Str) (hu : utf8First c = none) :
    runeWidth (c :: rest) = 1 := by
  simp only [runeWidth, hu]
  split_ifs <;> rfl

theorem runeWidth_single (c : Nat) : runeWidth [c] = 1 := by
  simp only [runeWidth]
  generalize utf8First c = u
  rcases u with _ | ⟨size, lo, hi⟩ <;> simp only [] <;> split_ifs <;> rfl

theorem runeWidth_two (c b1 lo hi : Nat) (r : Str) (h : ¬ c < 0x80)
    (hu : utf8First c = some (2, lo, hi)) :
    runeWidth (c :: b1 :: r) = if b1 < lo ∨ hi < b1 then 1 else 2 := by
  have hl : ¬ (b1 :: r).length + 1 < 2 := by simp
  simp only [runeWidth, if_neg h, hu, if_neg hl, if_true]

theorem runeWidth_three_short (c b1 lo hi : Nat)
    (hu : utf8First c = some (3, lo, hi)) : runeWidth [c, b1] = 1 := by
  have hl : [b1].length + 1 < 3 := by simp
  simp only [runeWidth, hu, if_pos hl]
  split_ifs <;> rfl

theorem runeWidth_three (c b1 b2 lo hi : Nat) (r : Str) (h : ¬ c < 0x80)
    (hu : utf8First c = some (3, lo, hi)) :
    runeWidth (c :: b1 :: b2 :: r) =
      if b1 < lo ∨ hi < b1 then 1 else if b2 < 0x80 ∨ 0xBF < b2 then 1 else 3 := by
  have hl : ¬ (b1 :: b2 :: r).length + 1 < 3 := by simp
  have h32 : ¬ (3 : Nat) = 2 := by decide
  simp only [runeWidth, if_neg h, hu, if_neg hl, if_neg h32, if_true]

theorem runeWidth_four_short (c lo hi : Nat) (rest : Str) (hl : rest.length < 3)
    (hu : utf8First c = some (4, lo, hi)) : runeWidth (c :: rest) = 1 := by
  have hl' : rest.length + 1 < 4 := by omega
  simp only [runeWidth, hu, if_pos hl']
  split_ifs <;> rfl

theorem runeWidth_four (c b1 b2 b3 lo hi : Nat) (r : Str) (h : ¬ c < 0x80)
    (hu : utf8First c = some (4, lo, hi)) :
    runeWidth (c :: b1 :: b2 :: b3 :: r) =
      if b1 < lo ∨ hi < b1 then 1
      else if b2 < 0x80 ∨ 0xBF < b2 then 1
      else if b3 < 0x80 ∨ 0xBF < b3 then 1 else 4 := by
  have hl : ¬ (b1 :: b2 :: b3 :: r).length + 1 < 4 := by simp
  have h42 : ¬ (4 : Nat) = 2 := by decide
  have h43 : ¬ (4 : Nat) = 3 := by decide
  simp only [runeWidth, if_neg h, hu, if_neg hl, if_neg h42, if_neg h43]

theorem runeWidth_encode (r : Nat) (post : Str) (h0 : 0x80 ≤ r) (hs : IsScalar r) :
    runeWidth (utf8Encode r ++ post) ≠ 1 := by
  unfold IsScalar at hs
  unfold utf8Encode
  rw [if_neg (by omega)]
  by_cases h2 : r < 0x800
  · rw [if_pos h2]
    simp only [List.cons_append, List.nil_append]
    rcases utf8First_cases (0xC0 + r / 64) with h | h | h | h | h | h | h | h <;>
      obtain ⟨hu, hc⟩ := h <;>
      first
        | (exfalso; omega)
        | (rw [runeWidth_two _ _ _ _ _ (by omega) hu, if_neg (by omega)]; decide)
  · rw [if_neg h2]
    by_cases h3 : r < 0x10000
    · rw [if_pos h3]
      simp only [List.cons_append, List.nil_append]
      rcases utf8First_cases (0xE0 + r / 4096) with h | h | h | h | h | h | h | h <;>
        obtain ⟨hu, hc⟩ := h <;>
        first
          | (exfalso; omega)
          | (rw [runeWidth_three _ _ _ _ _ _ (by omega) hu, if_neg (by omega),
              if_neg (by omega)]; decide)
    · rw [if_neg h3]
      simp only [List.cons_append, List.nil_append]
      rcases utf8First_cases (0xF0 + r / 262144) with h | h | h | h | h | h | h | h <;>
        obtain ⟨hu, hc⟩ := h <;>
        first
          | (exfalso; omega)
          | (rw [runeWidth_four _ _ _ _ _ _ _ (by omega) hu, if_neg (by omega),
              if_neg (by omega), if_neg (by omega)]; decide)

theorem decode_two (c b1 : Nat) (r : Str) (hc : 0xC2 ≤ c ∧ c ≤ 0xDF)
    (hb : ¬ (b1 < 0x80 ∨ 0xBF < b1)) : HasMultiByteChar (c :: b1 :: r) := by
  refine ⟨[], (c - 0xC0) * 64 + (b1 - 0x80), r, by omega, by unfold IsScalar; omega, ?_⟩
  unfold utf8Encode
  rw [if_neg (by omega), if_pos (by omega)]
  simp only [List.nil_append, List.cons_append]
  have e1 : 0xC0 + ((c - 0xC0) * 64 + (b1 - 0x80)) / 64 = c := by omega
  have e2 : 0x80 + ((c - 0xC0) * 64 + (b1 - 0x80)) % 64 = b1 := by omega
  rw [e1, e2]

theorem decode_three (c b1 b2 lo hi : Nat) (r : Str)
    (hv : (c = 0xE0 ∧ lo = 0xA0 ∧ hi = 0xBF) ∨
      (((0xE1 ≤ c ∧ c ≤ 0xEC) ∨ (0xEE ≤ c ∧ c ≤ 0xEF)) ∧ lo = 0x80 ∧ hi = 0xBF) ∨
      (c = 0xED ∧ lo = 0x80 ∧ hi = 0x9F))
    (hb1 : ¬ (b1 < lo ∨ hi < b1)) (hb2 : ¬ (b2 < 0x80 ∨ 0xBF < b2)) :
    HasMultiByteChar (c :: b1 :: b2 :: r) := by
  refine ⟨[], (c - 0xE0) * 4096 + (b1 - 0x80) * 64 + (b2 - 0x80), r, by omega,
    by unfold IsScalar; omega, ?_⟩
  unfold utf8Encode
  rw [if_neg (by omega), if_neg (by omega), if_pos (by omega)]
  simp only [List.nil_append, List.cons_append]
  have e1 : 0xE0 + ((c - 0xE0) * 4096 + (b1 - 0x80) * 64 + (b2 - 0x80)) / 4096 = c := by omega
  have e2 : 0x80 + ((c - 0xE0) * 4096 + (b1 - 0x80) * 64 + (b2 - 0x80)) / 64 % 64 = b1 := by
    omega
  have e3 : 0x80 + ((c - 0xE0) * 4096 + (b1 - 0x80) * 64 + (b2 - 0x80)) % 64 = b2 := by omega
  rw [e1, e2, e3]

theorem decode_four (c b1 b2 b3 lo hi : Nat) (r : Str)
    (hv : (c = 0xF0 ∧ lo = 0x90 ∧ hi = 0xBF) ∨
      ((0xF1 ≤ c ∧ c ≤ 0xF3) ∧ lo = 0x80 ∧ hi = 0xBF) ∨
      (c = 0xF4 ∧ lo = 0x80 ∧ hi = 0x8F))
    (hb1 : ¬ (b1 < lo ∨ hi < b1)) (hb2 : ¬ (b2 < 0x80 ∨ 0xBF < b2))
    (hb3 : ¬ (b3 < 0x80 ∨ 0xBF < b3)) :
    HasMultiByteChar (c :: b1 :: b2 :: b3 :: r) := by
  refine ⟨[], (c - 0xF0) * 262144 + (b1 - 0x80) * 4096 + (b2 - 0x80) * 64 + (b3 - 0x80), r,
    by omega, by unfold IsScalar; omega, ?_⟩
  unfold utf8Encode
  rw [if_neg (by omega), if_neg (by omega), if_neg (by omega)]
  simp only [List.nil_append, List.cons_append]
  have e1 : 0xF0 +
      ((c - 0xF0) * 262144 + (b1 - 0x80) * 4096 + (b2 - 0x80) * 64 + (b3 - 0x80)) / 262144
        = c := by omega
  have e2 : 0x80 +
      ((c - 0xF0) * 262144 + (b1 - 0x80) * 4096 + (b2 - 0x80) * 64 + (b3 - 0x80)) / 4096 % 64
        = b1 := by omega
  have e3 : 0x80 +
      ((c - 0xF0) * 262144 + (b1 - 0x80) * 4096 + (b2 - 0x80) * 64 + (b3 - 0x80)) / 64 % 64
        = b2 := by omega
  have e4 : 0x80 +
      ((c - 0xF0) * 262144 + (b1 - 0x80) * 4096 + (b2 - 0x80) * 64 + (b3 - 0x80)) % 64
        = b3 := by omega
  rw [e1, e2, e3, e4]

theorem multibyte_three (c lo hi : Nat) (rest : Str) (h128 : ¬ c < 0x80)
    (hu : utf8First c = some (3, lo, hi))
    (hv : (c = 0xE0 ∧ lo = 0xA0 ∧ hi = 0xBF) ∨
      (((0xE1 ≤ c ∧ c ≤ 0xEC) ∨ (0xEE ≤ c ∧ c ≤ 0xEF)) ∧ lo = 0x80 ∧ hi = 0xBF) ∨
      (c = 0xED ∧ lo = 0x80 ∧ hi = 0x9F))
    (h : runeWidth (c :: rest) ≠ 1) : HasMultiByteChar (c :: rest) := by
  rcases rest with _ | ⟨b1, _ | ⟨b2, r⟩⟩
  · exact absurd (runeWidth_single c) h
  · exact absurd (runeWidth_three_short c b1 lo hi hu) h
  · rw [runeWidth_three c b1 b2 lo hi r h128 hu] at h
    by_cases hb1 : b1 < lo ∨ hi < b1
    · rw [if_pos hb1] at h; exact absurd rfl h
    · rw [if_neg hb1] at h
      by_cases hb2 : b2 < 0x80 ∨ 0xBF < b2
      · rw [if_pos hb2] at h; exact absurd rfl h
      · exact decode_three c b1 b2 lo hi r hv hb1 hb2

theorem multibyte_four (c lo hi : Nat) (rest : Str) (h128 : ¬ c < 0x80)
    (hu : utf8First c = some (4, lo, hi))
    (hv : (c = 0xF0 ∧ lo = 0x90 ∧ hi = 0xBF) ∨
      ((0xF1 ≤ c ∧ c ≤ 0xF3) ∧ lo = 0x80 ∧ hi = 0xBF) ∨
      (c = 0xF4 ∧ lo = 0x80 ∧ hi = 0x8F))
    (h : runeWidth (c :: rest) ≠ 1) : HasMultiByteChar (c :: rest) := by
  rcases rest with _ | ⟨b1, _ | ⟨b2, _ | ⟨b3, r⟩⟩⟩
  · exact absurd (runeWidth_four_short c lo hi [] (by simp) hu) h
  · exact absurd (runeWidth_four_short c lo hi [b1] (by simp) hu) h
  · exact absurd (runeWidth_four_short c lo hi [b1, b2] (by simp) hu) h
  · rw [runeWidth_four c b1 b2 b3 lo hi r h128 hu] at h
    by_cases hb1 : b1 < lo ∨ hi < b1
    · rw [if_pos hb1] at h; exact absurd rfl h
    · rw [if_neg hb1] at h
      by_cases hb2 : b2 < 0x80 ∨ 0xBF < b2
      · rw [if_pos hb2] at h; exact absurd rfl h
      · rw [if_neg hb2] at h
        by_cases hb3 : b3 < 0x80 ∨ 0xBF < b3
        · rw [if_pos hb3] at h; exact absurd rfl h
        · exact decode_four c b1 b2 b3 lo hi r hv hb1 hb2 hb3

theorem multibyte_of_width (t : Str) (h : runeWidth t ≠ 1) : HasMultiByteChar t := by
  rcases t with _ | ⟨c, rest⟩
  · exact absurd rfl h
  · by_cases h128 : c < 0x80
    · exact absurd (runeWidth_ascii c rest h128) h
    · rcases utf8First_cases c with hh | hh | hh | hh | hh | hh | hh | hh <;>
        obtain ⟨hu, hc⟩ := hh
      · exact absurd (runeWidth_none c rest hu) h
      · rcases rest with _ | ⟨b1, r⟩
        · exact absurd (runeWidth_single c) h
        · rw [runeWidth_two c b1 _ _ r h128 hu] at h
          by_cases hb : b1 < 0x80 ∨ 0xBF < b1
          · rw [if_pos hb] at h; exact absurd rfl h
          · exact decode_two c b1 r hc hb
      · exact multibyte_three c _ _ rest h128 hu (Or.inl ⟨hc, rfl, rfl⟩) h
      · exact multibyte_three c _ _ rest h128 hu (Or.inr (Or.inl ⟨hc, rfl, rfl⟩)) h
      · exact multibyte_three c _ _ rest h128 hu (Or.inr (Or.inr ⟨hc, rfl, rfl⟩)) h
      · exact multibyte_four c _ _ rest h128 hu (Or.inl ⟨hc, rfl, rfl⟩) h
      · exact multibyte_four c _ _ rest h128 hu (Or.inr (Or.inl ⟨hc, rfl, rfl⟩)) h
      · exact multibyte_four c _ _ rest h128 hu (Or.inr (Or.inr ⟨hc, rfl, rfl⟩)) h

theorem hasMultiByteChar_append_left (pre t : Str) (h : HasMultiByteChar t) :
    HasMultiByteChar (pre ++ t) := by
  obtain ⟨p, r, q, h1, h2, h3⟩ := h
  refine ⟨pre ++ p, r, q, h1, h2, ?_⟩
  rw [h3]
  simp only [List.append_assoc]

theorem runeCountLoop_spec : ∀ (fuel : Nat) (s : Str), s.length ≤ fuel →
    runeCountLoop fuel s ≤ s.length ∧
      (runeCountLoop fuel s = s.length ↔
        ∀ pre t : Str, s = pre ++ t → t ≠ [] → runeWidth t = 1) := by
  intro fuel
  induction fuel with
  | zero =>
    intro s hs
    have hnil : s = [] := List.length_eq_zero.mp (Nat.le_zero.mp hs)
    subst hnil
    refine ⟨Nat.le_refl _, ⟨fun _ pre t ht hne => ?_, fun _ => rfl⟩⟩
    have := congrArg List.length ht
    simp only [List.length_nil, List.length_append] at this
    have : t.length = 0 := by omega
    exact absurd (List.length_eq_zero.mp this) hne
  | succ n ih =>
    intro s hs
    rcases s with _ | ⟨c, rest⟩
    · refine ⟨Nat.le_refl _, ⟨fun _ pre t ht hne => ?_, fun _ => rfl⟩⟩
      have := congrArg List.length ht
      simp only [List.length_nil, List.length_append] at this
      have : t.length = 0 := by omega
      exact absurd (List.length_eq_zero.mp this) hne
    · have hb := runeWidth_bounds (c :: rest)
      have hle := hb.2 (by simp)
      have hdl : ((c :: rest).drop (runeWidth (c :: rest))).length =
          (c :: rest).length - runeWidth (c :: rest) := List.length_drop _ _
      have hrec := ih ((c :: rest).drop (runeWidth (c :: rest)))
        (by rw [hdl]; simp only [List.length_cons] at hs ⊢; omega)
      simp only [runeCountLoop]
      by_cases hw : runeWidth (c :: rest) = 1
      · rw [hw] at hrec ⊢
        simp only [List.drop_succ_cons, List.drop_zero, List.length_cons] at hrec ⊢
        refine ⟨by omega, ⟨fun heq pre t ht hne => ?_, fun hall => ?_⟩⟩
        · rcases pre with _ | ⟨p, pre'⟩
          · simp only [List.nil_append] at ht
            rw [← ht]; exact hw
          · simp only [List.cons_append, List.cons.injEq] at ht
            exact (hrec.2.mp (by omega)) pre' t ht.2 hne
        · have : runeCountLoop n rest = rest.length :=
            hrec.2.mpr (fun pre t ht hne => hall (c :: pre) t (by rw [ht]; rfl) hne)
          omega
      · have h1 := hb.1
        refine ⟨by rw [hdl] at hrec; omega, ⟨fun heq => ?_, fun hall => ?_⟩⟩
        · rw [hdl] at hrec; omega
        · exact absurd (hall [] (c :: rest) rfl (by simp)) hw

/-- The rune count falls short of the length exactly on the strings that contain a
multi-byte character. -/
theorem runeCount_ne_length_iff (s : Str) :
    s.length ≠ RuneCountInString s ↔ HasMultiByteChar s := by
  have hspec := runeCountLoop_spec s.length s (Nat.le_refl _)
  unfold RuneCountInString
  constructor
  · intro hne
    by_contra hno
    apply hne
    refine (hspec.2.mpr ?_).symm
    intro pre t ht hnil
    by_contra hw
    exact hno (by rw [ht]; exact hasMultiByteChar_append_left pre t (multibyte_of_width t hw))
  · rintro ⟨pre, r, post, h0, hsc, hs⟩ heq
    have hall := hspec.2.mp heq.symm
    have hw := hall pre (utf8Encode r ++ post) (by rw [hs]; simp only [List.append_assoc])
      (by unfold utf8Encode; split_ifs <;> simp)
    exact runeWidth_encode r post h0 hsc hw

/-! ### C7 -/

theorem Service.track_ne_error (lib : Lib) (d : Service) (inp : Str) (e : TrackError) :
    d.track lib inp ≠ .error e := by
  unfold Service.track
  intro h
  split at h
  · cases h
  · split at h
    · cases h
    · simp only [] at h
      split at h
      · cases h
      · split at h
        · cases h
        · cases h
        · split at h <;> cases h

theorem trackLoop_ne_error (lib : Lib) (inp : Str) (e : TrackError) :
    ∀ (reg : List Service) (res : List Tracking), trackLoop lib inp reg res ≠ .error e := by
  intro reg
  induction reg with
  | nil => intro res h; cases h
  | cons d rest ih =>
    intro res h
    simp only [trackLoop] at h
    split at h
    · cases h
    · rename_i e' he
      exact Service.track_ne_error lib d inp e' he
    · exact ih _ h
    · exact ih _ h

theorem weightedLoop_ne_panic (w : List Int) : ∀ (s : Str) (acc : Int),
    w.length ≤ s.length → weightedLoop w acc s ≠ .panic := by
  induction w with
  | nil => intro s acc _ h; simp [weightedLoop] at h
  | cons x xs ih =>
    intro s acc hl h
    cases s with
    | nil => simp at hl
    | cons c cs =>
      simp only [weightedLoop] at h
      split at h
      · cases h
      · exact ih cs _ (by simpa using hl) h

theorem CheckDigit.generate_ne_panic (v : CheckDigit) (hs : v.Sound) (s : Str) :
    v.Generate s ≠ .panic := by
  cases v with
  | noop m => intro h; cases h
  | mod7 m =>
    simp only [CheckDigit.Generate, Mod7.Generate]
    cases Atoi s <;> (intro h; cases h)
  | mod10 m => intro h; cases h
  | s10 m =>
    simp only [CheckDigit.Generate, S10.Generate]
    by_cases hl : s.length ≠ m.Weightings.length
    · rw [if_pos hl]; intro h; cases h
    · rw [if_neg hl]
      have hp := weightedLoop_ne_panic m.Weightings s 0 (by omega)
      cases hw : weightedLoop m.Weightings 0 s with
      | ok a => intro h; cases h
      | error e => intro h; cases h
      | panic => exact absurd hw hp
  | sumProduct m =>
    simp only [CheckDigit.Sound] at hs
    simp only [CheckDigit.Generate, SumProductWithWeightingsAndModulo.Generate]
    by_cases hl : s.length < m.Weightings.length
    · rw [if_pos hl]; intro h; cases h
    · rw [if_neg hl]
      have hp := weightedLoop_ne_panic m.Weightings
        (s.drop (s.length - m.Weightings.length)) 0 (by rw [List.length_drop]; omega)
      cases hw : weightedLoop m.Weightings 0 (s.drop (s.length - m.Weightings.length)) with
      | ok a =>
        simp only [if_neg hs.1, if_neg hs.2]
        intro h; cases h
      | error e => intro h; cases h
      | panic => exact absurd hw hp
  | mod3736 m => intro h; cases h

theorem CheckDigit.validate_isSome (v : CheckDigit) (hs : v.Sound) (s cd : Str) :
    ∃ b, v.Validate s cd = some b := by
  have hg := v.generate_ne_panic hs s
  cases v with
  | noop m => exact ⟨true, rfl⟩
  | mod7 m =>
    simp only [CheckDigit.Generate] at hg
    simp only [CheckDigit.Validate, Mod7.Validate]
    cases hgen : m.Generate s with
    | ok a => exact ⟨_, rfl⟩
    | error e => exact ⟨_, rfl⟩
    | panic => exact absurd hgen hg
  | mod10 m =>
    simp only [CheckDigit.Generate] at hg
    simp only [CheckDigit.Validate, Mod10.Validate]
    cases hgen : m.Generate s with
    | ok a => exact ⟨_, rfl⟩
    | error e => exact ⟨_, rfl⟩
    | panic => exact absurd hgen hg
  | s10 m =>
    simp only [CheckDigit.Generate] at hg
    simp only [CheckDigit.Validate, S10.Validate]
    cases hgen : m.Generate s with
    | ok a => exact ⟨_, rfl⟩
    | error e => exact ⟨_, rfl⟩
    | panic => exact absurd hgen hg
  | sumProduct m =>
    simp only [CheckDigit.Generate] at hg
    simp only [CheckDigit.Validate, SumProductWithWeightingsAndModulo.Validate]
    cases hgen : m.Generate s with
    | ok a => exact ⟨_, rfl⟩
    | error e => exact ⟨_, rfl⟩
    | panic => exact absurd hgen hg
  | mod3736 m =>
    simp only [CheckDigit.Generate] at hg
    simp only [CheckDigit.Validate, Mod3736.Validate]
    cases hgen : m.Generate s with
    | ok a => exact ⟨_, rfl⟩
    | error e => exact ⟨_, rfl⟩
    | panic => exact absurd hgen hg

theorem Service.track_of_wellFormed (lib : Lib) (d : Service) (inp : Str)
    (hre : d.Regex ≠ none) (hv : ∃ v, d.Validation.Validator = some v ∧ v.Sound) :
    d.track lib inp = .ok (if d.accepts lib inp then some (d.built lib inp) else none) := by
  obtain ⟨v, hv1, hv2⟩ := hv
  cases hr : d.Regex with
  | none => exact absurd hr hre
  | some re =>
    unfold Service.track Service.accepts Service.patternMatches Service.checksumValid
      Service.additionalConfirmed Service.built Service.serialOf Service.checkDigitOf
      Service.detailsOf Service.captured Regexp.MatchString
    simp only [hr, hv1]
    cases hf : re.FindStringSubmatch inp with
    | none => simp
    | some groups =>
      simp only [Option.isSome_some, Bool.true_and]
      obtain ⟨b, hb⟩ := v.validate_isSome hv2
        (takeSerial d (captureGroups lib re.SubexpNames groups)).1
        (takeCheckDigit (takeSerial d (captureGroups lib re.SubexpNames groups)).2).1
      rw [hb]
      cases b with
      | false => simp
      | true =>
        simp only [decide_True, Bool.true_and]
        split_ifs <;> rfl

theorem trackLoop_of_wellFormed (lib : Lib) (inp : Str) :
    ∀ (reg : List Service) (res : List Tracking), WellFormed reg →
      trackLoop lib inp reg res =
        .ok (res ++ (reg.filter (fun d => d.accepts lib inp)).map (fun d => d.built lib inp)) := by
  intro reg
  induction reg with
  | nil => intro res _; simp [trackLoop]
  | cons d rest ih =>
    intro res hwf
    have hd := hwf d (List.mem_cons_self d rest)
    have hrest : WellFormed rest := fun x hx => hwf x (List.mem_cons_of_mem d hx)
    simp only [trackLoop, Service.track_of_wellFormed lib d inp hd.1 hd.2]
    by_cases ha : d.accepts lib inp = true
    · have hf : List.filter (fun d => d.accepts lib inp) (d :: rest) =
          d :: List.filter (fun d => d.accepts lib inp) rest :=
        List.filter_cons_of_pos ha
      simp only [ha, if_true, hf, List.map_cons]
      rw [ih _ hrest]
      simp only [List.append_assoc, List.singleton_append]
    · have hf : List.filter (fun d => d.accepts lib inp) (d :: rest) =
          List.filter (fun d => d.accepts lib inp) rest :=
        List.filter_cons_of_neg ha
      have ha' : d.accepts lib inp = false := by
        cases hq : d.accepts lib inp
        · rfl
        · exact absurd hq ha
      simp only [ha', hf, Bool.false_eq_true, if_false]
      rw [ih _ hrest]

theorem Track_bad_string (lib : Lib) (reg : List Service) (inp : Str)
    (h : HasMultiByteChar inp) : Track lib reg inp = .error .ErrBadString := by
  unfold Track
  rw [if_pos ((runeCount_ne_length_iff inp).mpr h)]

theorem Track_no_services (lib : Lib) (inp : Str) (h : ¬ HasMultiByteChar inp) :
    Track lib [] inp = .error .ErrNoServices := by
  unfold Track
  rw [if_neg (fun hne => h ((runeCount_ne_length_iff inp).mp hne))]
  rfl

theorem Track_accepted (lib : Lib) (reg : List Service) (inp : Str)
    (h : ¬ HasMultiByteChar inp) (hne : reg ≠ []) :
    Track lib reg inp = trackLoop lib (ReplaceAllSpace (ToUpper lib inp)) reg [] := by
  unfold Track
  rw [if_neg (fun hne => h ((runeCount_ne_length_iff inp).mp hne)),
    if_neg (fun hl => hne (List.length_eq_zero.mp hl))]

theorem not_hasMultiByteChar_of_count (s : Str) (h : s.length = RuneCountInString s) :
    ¬ HasMultiByteChar s :=
  fun hm => (runeCount_ne_length_iff s).mpr hm h

/-- C7: on every input that contains a multi-byte character `Track` returns
`ErrBadString` and no results, whatever the registry holds; on every input without
one and an empty registry it returns `ErrNoServices`; on every input without one and
a non-empty registry it returns no error, and it returns a result list when every
service of the registry has a pattern and a validator. -/
theorem C7_track_errors (lib : Lib) (reg : List Service) (inp : Str) :
    (HasMultiByteChar inp → Track lib reg inp = .error .ErrBadString) ∧
    (¬ HasMultiByteChar inp → reg = [] → Track lib reg inp = .error .ErrNoServices) ∧
    (¬ HasMultiByteChar inp → reg ≠ [] →
      (∀ e, Track lib reg inp ≠ .error e) ∧
      (WellFormed reg → ∃ res, Track lib reg inp = .ok res)) := by
  refine ⟨Track_bad_string lib reg inp, ?_, ?_⟩
  · intro h hreg
    rw [hreg]
    exact Track_no_services lib inp h
  · intro h hne
    rw [Track_accepted lib reg inp h hne]
    refine ⟨fun e => trackLoop_ne_error lib _ e reg [], fun hwf => ?_⟩
    rw [trackLoop_of_wellFormed lib _ reg [] hwf]
    exact ⟨_, rfl⟩

theorem wellFormed_sampleRegistry : WellFormed sampleRegistry := by
  intro d hd
  simp only [sampleRegistry, List.mem_cons, List.mem_singleton, List.not_mem_nil,
    or_false] at hd
  rcases hd with rfl | rfl | rfl
  · exact ⟨by simp [sampleService], ⟨_, rfl, trivial⟩⟩
  · exact ⟨by simp [sampleService], ⟨_, rfl, trivial⟩⟩
  · exact ⟨by simp [sampleService], ⟨_, rfl, trivial⟩⟩

/-- C7 on the sample registry: the two-byte string of U+00E9 is refused with
`ErrBadString`, the string "1" is refused with `ErrNoServices` by the empty registry
and yields a result list with the sample registry. -/
theorem C7_track_errors_witness :
    Track sampleLib sampleRegistry [0xC3, 0xA9] = .error .ErrBadString ∧
    Track sampleLib [] (ascii "1") = .error .ErrNoServices ∧
    ∃ res, Track sampleLib sampleRegistry (ascii "1") = .ok res :=
  ⟨(C7_track_errors sampleLib sampleRegistry [0xC3, 0xA9]).1
      ⟨[], 0xE9, [], by decide, Or.inl (by decide), rfl⟩,
    (C7_track_errors sampleLib [] (ascii "1")).2.1
      (not_hasMultiByteChar_of_count _ rfl) rfl,
    ((C7_track_errors sampleLib sampleRegistry (ascii "1")).2.2
      (not_hasMultiByteChar_of_count _ rfl) (List.cons_ne_nil _ _)).2
      wellFormed_sampleRegistry⟩

/-! ### C8 -/

/-- C9 as stated fails on the input "a\tb". The service on the pattern of the whole
line, without checksum, receives and reports "A\tB", with the tab, where the stated
normal form is "AB"; and the service on the literal pattern `AB` does not match,
where it matches the stated normal form. -/
theorem C9_counterexample :
    statedNormalize [97, 9, 98] = ascii "AB" ∧
    Track sampleLib [anyService] [97, 9, 98] =
      .ok [{ Courier := ascii "cc", Service := ascii "any",
             TrackingNumber := [65, 9, 66], SerialNumber := [65, 9, 66],
             CheckDigit := [], TrackingURL := [], Details := [] }] ∧
    Track sampleLib [literalService (ascii "AB")] [97, 9, 98] = .ok [] ∧
    Track sampleLib [literalService (ascii "AB")] (ascii "AB") =
      .ok [{ Courier := ascii "cc", Service := ascii "lit",
             TrackingNumber := ascii "AB", SerialNumber := ascii "AB",
             CheckDigit := [], TrackingURL := [], Details := [] }] :=
  ⟨by rfl, by rfl, by rfl, by rfl⟩

theorem upperByte_eq_space (c : Nat) : upperByte c = 32 ↔ c = 32 := by
  unfold upperByte
  split_ifs <;> omega

theorem filter_map_upper (s : Str) :
    (s.map upperByte).filter (fun c => decide (c ≠ 32)) =
      (s.filter (fun c => decide (c ≠ 32))).map upperByte := by
  induction s with
  | nil => rfl
  | cons c cs ih =>
    by_cases hc : c = 32
    · subst hc
      have h1 : upperByte 32 = 32 := by decide
      simp only [List.map_cons, h1, List.filter_cons, ne_eq, not_true_eq_false,
        decide_False, Bool.false_eq_true, if_false]
      exact ih
    · have h2 : ¬ upperByte c = 32 := fun h => hc ((upperByte_eq_space c).mp h)
      simp only [List.map_cons, List.filter_cons, ne_eq, h2, hc, not_false_eq_true,
        decide_True, if_true, List.cons.injEq, true_and]
      exact ih

/-- C9, amended: `Track` normalizes its input by uppercasing it and removing every
space character (U+0020) before any pattern is tested: for every accepted input and
every non-empty registry of services with a pattern and a validator, the patterns
are tested against, and every result's `TrackingNumber` equals, the uppercased input
with every space removed; that string holds no space, and on an ASCII input it keeps
every other byte of the input, tabs and line feeds included, in upper case. -/
theorem C9_track_normalizes (lib : Lib) (reg : List Service) (inp : Str)
    (hx : ¬ HasMultiByteChar inp) (hne : reg ≠ []) (hwf : WellFormed reg) :
    (∃ res, Track lib reg inp = .ok res ∧
      res = (reg.filter (fun d => d.accepts lib (ReplaceAllSpace (ToUpper lib inp)))).map
        (fun d => d.built lib (ReplaceAllSpace (ToUpper lib inp))) ∧
      ∀ t ∈ res, t.TrackingNumber = ReplaceAllSpace (ToUpper lib inp)) ∧
    32 ∉ ReplaceAllSpace (ToUpper lib inp) ∧
    (isASCII inp = true →
      ReplaceAllSpace (ToUpper lib inp) =
        (inp.filter (fun c => decide (c ≠ 32))).map upperByte ∧
      ∀ c ∈ inp, c ≠ 32 → upperByte c ∈ ReplaceAllSpace (ToUpper lib inp)) := by
  refine ⟨⟨_, ?_, rfl, ?_⟩, ?_, ?_⟩
  · rw [Track_accepted lib reg inp hx hne, trackLoop_of_wellFormed lib _ reg [] hwf]
    rfl
  · intro t ht
    obtain ⟨d, _, rfl⟩ := List.mem_map.mp ht
    rfl
  · intro h
    have := (List.mem_filter.mp h).2
    simp at this
  · intro ha
    have hn : ReplaceAllSpace (ToUpper lib inp) =
        (inp.filter (fun c => decide (c ≠ 32))).map upperByte := by
      unfold ReplaceAllSpace ToUpper
      rw [if_pos ha]
      exact filter_map_upper inp
    refine ⟨hn, fun c hc hne32 => ?_⟩
    rw [hn]
    exact List.mem_map.mpr ⟨c, List.mem_filter.mpr ⟨hc, by simpa using hne32⟩, rfl⟩

/-- C9 on the input "a b\tc" and the service on the pattern of the whole line: the
input is accepted, the result reports "AB\tC", the input in upper case without its
space and with its tab. -/
theorem C9_track_normalizes_witness :
    ReplaceAllSpace (ToUpper sampleLib [97, 32, 98, 9, 99]) = [65, 66, 9, 67] ∧
    ∃ res, Track sampleLib [anyService] [97, 32, 98, 9, 99] = .ok res ∧
      ∀ t ∈ res, t.TrackingNumber = [65, 66, 9, 67] :=
  ⟨by rfl,
   let h := (C9_track_normalizes sampleLib [anyService] [97, 32, 98, 9, 99]
      (not_hasMultiByteChar_of_count _ rfl) (List.cons_ne_nil _ _)
      (by
        intro d hd
        simp only [List.mem_singleton] at hd
        subst hd
        exact ⟨by simp [anyService, sampleService], ⟨_, rfl, trivial⟩⟩)).1
   ⟨h.choose, h.choose_spec.1, h.choose_spec.2.2⟩⟩

/-! ### C10 -/

theorem Found.get_set (m : Found) (k : Str) (v : List Tracking) (k' : Str) :
    (m.set k v).get k' = if k' = k then some v else m.get k' := by
  induction m with
  | nil =>
    simp only [Found.set, Found.get]
    by_cases h : k' = k
    · rw [if_pos h, if_pos h.symm]
    · rw [if_neg h, if_neg (fun e => h e.symm)]
  | cons p m ih =>
    simp only [Found.set]
    by_cases hp : p.1 = k
    · rw [if_pos hp]
      simp only [Found.get]
      by_cases h : k' = k
      · rw [if_pos h, if_pos h.symm]
      · rw [if_neg h, if_neg (fun e => h e.symm), if_neg (fun e => h (e.symm.trans hp))]
    · rw [if_neg hp]
      simp only [Found.get]
      by_cases hq : p.1 = k'
      · rw [if_pos hq, if_neg (fun e => hp (hq.trans e)), if_pos hq]
      · rw [if_neg hq, ih, if_neg hq]

theorem Found.set_ne_nil (m : Found) (k : Str) (v : List Tracking) : m.set k v ≠ [] := by
  cases m with
  | nil => simp [Found.set]
  | cons p m =>
    simp only [Found.set]
    split_ifs <;> simp

theorem Found.keys_set (m : Found) (k : Str) (v : List Tracking) :
    (m.set k v).map Prod.fst = if k ∈ m.map Prod.fst then m.map Prod.fst
      else m.map Prod.fst ++ [k] := by
  induction m with
  | nil => simp [Found.set]
  | cons p m ih =>
    simp only [Found.set]
    by_cases hp : p.1 = k
    · rw [if_pos hp]
      simp only [List.map_cons, hp, List.mem_cons, true_or, if_true]
    · rw [if_neg hp]
      simp only [List.map_cons, ih, List.mem_cons]
      have hk : ¬ k = p.1 := fun e => hp e.symm
      by_cases hm : k ∈ m.map Prod.fst
      · simp only [hm, or_true, if_true]
      · simp only [hm, hk, or_self, if_false, List.cons_append]

theorem Found.nodup_set (m : Found) (k : Str) (v : List Tracking)
    (h : (m.map Prod.fst).Nodup) : ((m.set k v).map Prod.fst).Nodup := by
  rw [Found.keys_set]
  split_ifs with hk
  · exact h
  · exact List.Nodup.append h (List.nodup_singleton k)
      (by
        intro a ha hb
        rw [List.mem_singleton] at hb
        subst hb
        exact hk ha)

theorem Track_ne_panic (lib : Lib) (reg : List Service) (hwf : WellFormed reg) (t : Str) :
    Track lib reg t ≠ .panic := by
  unfold Track
  split_ifs
  · intro h; cases h
  · intro h; cases h
  · rw [trackLoop_of_wellFormed lib _ reg [] hwf]
    intro h; cases h

/-- The list that `Track` returns on a term, empty when it returns none. -/
theorem yieldsMatch_iff (lib : Lib) (reg : List Service) (t : Str) :
    yieldsMatch lib reg t = true ↔ ∃ v, Track lib reg t = .ok v ∧ v ≠ [] := by
  unfold yieldsMatch
  cases h : Track lib reg t with
  | ok v =>
    simp only [ne_eq, decide_eq_true_eq, Outcome.ok.injEq, exists_eq_left']
    exact not_congr List.length_eq_zero
  | error e => simp
  | panic => simp

theorem findLoop_spec (lib : Lib) (reg : List Service) (hwf : WellFormed reg) :
    ∀ (terms : List Str) (acc : Found), ∃ out, findLoop lib reg terms acc = .ok out ∧
      (∀ k, out.get k =
        if k ∈ terms ∧ yieldsMatch lib reg k = true then
          (match Track lib reg k with
           | .ok v => some v
           | _ => none)
        else acc.get k) ∧
      (out = [] ↔ acc = [] ∧ ∀ t ∈ terms, yieldsMatch lib reg t = false) ∧
      ((acc.map Prod.fst).Nodup → (out.map Prod.fst).Nodup) := by
  intro terms
  induction terms with
  | nil =>
    intro acc
    exact ⟨acc, rfl, fun k => by simp, by simp, fun h => h⟩
  | cons t ts ih =>
    intro acc
    have hskip : yieldsMatch lib reg t = false →
        ∃ out, findLoop lib reg ts acc = .ok out ∧
          (∀ k, out.get k =
            if k ∈ t :: ts ∧ yieldsMatch lib reg k = true then
              (match Track lib reg k with
               | .ok v => some v
               | _ => none)
            else acc.get k) ∧
          (out = [] ↔ acc = [] ∧ ∀ x ∈ t :: ts, yieldsMatch lib reg x = false) ∧
          ((acc.map Prod.fst).Nodup → (out.map Prod.fst).Nodup) := by
      intro hy
      obtain ⟨out, h1, h2, h3, h4⟩ := ih acc
      refine ⟨out, h1, fun k => ?_, ?_, h4⟩
      · rw [h2 k]
        by_cases hk : k = t
        · subst hk
          simp only [hy, Bool.false_eq_true, and_false, if_false]
        · simp only [List.mem_cons, hk, false_or]
      · rw [h3]
        simp only [List.mem_cons, forall_eq_or_imp, hy, true_and]
    simp only [findLoop]
    cases htr : Track lib reg t with
    | panic => exact absurd htr (Track_ne_panic lib reg hwf t)
    | error e =>
      have hy : yieldsMatch lib reg t = false := by simp [yieldsMatch, htr]
      exact hskip hy
    | ok track =>
      by_cases hl : track.length ≠ 0
      · dsimp only
        rw [if_pos hl]
        have hy : yieldsMatch lib reg t = true := by simp [yieldsMatch, htr, hl]
        obtain ⟨out, h1, h2, h3, h4⟩ := ih (acc.set t track)
        refine ⟨out, h1, fun k => ?_, ?_, fun hn => h4 (Found.nodup_set acc t track hn)⟩
        · rw [h2 k, Found.get_set]
          by_cases hk : k = t
          · subst hk
            simp only [hy, and_true, List.mem_cons, true_or, if_true, htr]
            split_ifs <;> rfl
          · simp only [List.mem_cons, hk, false_or, if_false]
        · rw [h3]
          constructor
          · intro h; exact absurd h.1 (Found.set_ne_nil acc t track)
          · intro h
            have := h.2 t (List.mem_cons_self t ts)
            rw [hy] at this
            cases this
      · dsimp only
        rw [if_neg hl]
        have hy : yieldsMatch lib reg t = false := by
          simp only [yieldsMatch, htr]
          simpa using hl
        exact hskip hy

/-- C10 as stated fails on the text "A\vB", whichever class of white space is meant.
With the white space of `strings.Fields` (which has the vertical tab) the terms are
"A" and "B"; on the registry of the literal pattern `A\vB` neither yields a match,
and the fallback stores the result under the text with the class `\s` removed, which
keeps the vertical tab: the key is "A\vB", not "AB". With the white space of `\s`
(which has no vertical tab) the text is one term, "A\vB"; on the registry of the
literal pattern `A` it yields no match, yet the map has the key "A". -/
theorem C10_counterexample :
    (fieldsBy isAsciiSpace [65, 11, 66] [] = [[65], [66]] ∧
      yieldsMatch sampleLib [literalService [65, 11, 66]] [65] = false ∧
      yieldsMatch sampleLib [literalService [65, 11, 66]] [66] = false ∧
      removeBy isAsciiSpace [65, 11, 66] = [65, 66] ∧
      Find sampleLib [literalService [65, 11, 66]] [65, 11, 66] =
        .ok [([65, 11, 66],
          [{ Courier := ascii "cc", Service := ascii "lit",
             TrackingNumber := [65, 11, 66], SerialNumber := [65, 11, 66],
             CheckDigit := [], TrackingURL := [], Details := [] }])]) ∧
    (fieldsBy isRegexSpace [65, 11, 66] [] = [[65, 11, 66]] ∧
      yieldsMatch sampleLib [literalService [65]] [65, 11, 66] = false ∧
      removeBy isRegexSpace [65, 11, 66] = [65, 11, 66] ∧
      Find sampleLib [literalService [65]] [65, 11, 66] =
        .ok [([65],
          [{ Courier := ascii "cc", Service := ascii "lit",
             TrackingNumber := [65], SerialNumber := [65],
             CheckDigit := [], TrackingURL := [], Details := [] }])]) :=
  ⟨⟨by rfl, by rfl, by rfl, by rfl, by rfl⟩, ⟨by rfl, by rfl, by rfl, by rfl⟩⟩

/-- C10, amended: for every non-empty registry of services with a pattern and a
validator, and every text, `Find` returns a map. When some term of
`strings.Fields` (the runs delimited by Unicode white space: in an ASCII text tab,
line feed, vertical tab, form feed, carriage return and space) yields a match, the
keys are exactly the terms `t` for which `Track(t)` succeeds with a non-empty list,
each mapped to `Track(t)`. When no term does, the map is either empty or the single
entry whose key is the text with the class `\s` (tab, line feed, form feed, carriage
return, space) removed and whose value is the non-empty `Track` result of that key.
No key maps to an empty list, and the keys are distinct. -/
theorem C10_find (lib : Lib) (reg : List Service) (text : Str)
    (hne : reg ≠ []) (hwf : WellFormed reg) :
    ∃ out, Find lib reg text = .ok out ∧
      ((∃ t ∈ Fields lib text, yieldsMatch lib reg t = true) →
        ∀ k v, out.get k = some v ↔
          (k ∈ Fields lib text ∧ Track lib reg k = .ok v ∧ v ≠ [])) ∧
      ((∀ t ∈ Fields lib text, yieldsMatch lib reg t = false) →
        (out = [] ∧ yieldsMatch lib reg (removeRegexSpace text) = false) ∨
        (∃ v, out = [(removeRegexSpace text, v)] ∧
          Track lib reg (removeRegexSpace text) = .ok v ∧ v ≠ [])) ∧
      (∀ k v, out.get k = some v → v ≠ []) ∧
      (out.map Prod.fst).Nodup ∧
      removeRegexSpace text = removeBy isRegexSpace text ∧
      (isASCII text = true → Fields lib text = fieldsBy isAsciiSpace text []) := by
  obtain ⟨out, h1, h2, h3, h4⟩ := findLoop_spec lib reg hwf (Fields lib text) []
  have hnd : (out.map Prod.fst).Nodup := h4 List.nodup_nil
  have hlen : ¬ reg.length = 0 := fun h => hne (List.length_eq_zero.mp h)
  have hget : ∀ k v, out.get k = some v ↔
      (k ∈ Fields lib text ∧ Track lib reg k = .ok v ∧ v ≠ []) := by
    intro k v
    rw [h2 k]
    by_cases hk : k ∈ Fields lib text ∧ yieldsMatch lib reg k = true
    · rw [if_pos hk]
      obtain ⟨w, hw1, hw2⟩ := (yieldsMatch_iff lib reg k).mp hk.2
      rw [hw1]
      simp only [Option.some.injEq, Outcome.ok.injEq]
      constructor
      · intro e; subst e; exact ⟨hk.1, rfl, hw2⟩
      · intro e; exact e.2.1
    · rw [if_neg hk]
      simp only [Found.get]
      constructor
      · intro e; cases e
      · rintro ⟨e1, e2, e3⟩
        exact absurd ⟨e1, (yieldsMatch_iff lib reg k).mpr ⟨v, e2, e3⟩⟩ hk
  have hasc : isASCII text = true → Fields lib text = fieldsBy isAsciiSpace text [] := by
    intro ha
    unfold Fields
    rw [if_pos ha]
  by_cases hany : ∃ t ∈ Fields lib text, yieldsMatch lib reg t = true
  · have hout : out ≠ [] := by
      intro e
      obtain ⟨t, ht1, ht2⟩ := hany
      have := (h3.mp e).2 t ht1
      rw [ht2] at this
      cases this
    have hol : ¬ out.length = 0 := fun h => hout (List.length_eq_zero.mp h)
    refine ⟨out, ?_, fun _ => hget, ?_, fun k v hkv => ((hget k v).mp hkv).2.2, hnd, rfl, hasc⟩
    · unfold Find
      rw [if_neg hlen, h1]
      dsimp only
      rw [if_neg hol]
    · intro hnone
      obtain ⟨t, ht1, ht2⟩ := hany
      have := hnone t ht1
      rw [ht2] at this
      cases this
  · have hnone : ∀ t ∈ Fields lib text, yieldsMatch lib reg t = false := by
      intro t ht
      cases hy : yieldsMatch lib reg t
      · rfl
      · exact absurd ⟨t, ht, hy⟩ hany
    have hout : out = [] := h3.mpr ⟨rfl, hnone⟩
    subst hout
    cases htr : Track lib reg (removeRegexSpace text) with
    | panic => exact absurd htr (Track_ne_panic lib reg hwf _)
    | error e =>
      have hy : yieldsMatch lib reg (removeRegexSpace text) = false := by
        simp [yieldsMatch, htr]
      refine ⟨[], ?_, fun h => absurd h hany, fun _ => Or.inl ⟨rfl, hy⟩, ?_, hnd, rfl, hasc⟩
      · unfold Find
        rw [if_neg hlen, h1]
        dsimp only
        rw [if_pos List.length_nil, htr]
      · intro k v hkv; cases hkv
    | ok track =>
      by_cases hl : track.length ≠ 0
      · have hv : track ≠ [] := fun e => hl (by rw [e]; rfl)
        refine ⟨[(removeRegexSpace text, track)], ?_, fun h => absurd h hany,
          fun _ => Or.inr ⟨track, rfl, rfl, hv⟩, ?_, ?_, rfl, hasc⟩
        · unfold Find
          rw [if_neg hlen, h1]
          dsimp only
          rw [if_pos List.length_nil, htr]
          dsimp only
          rw [if_pos hl]
          rfl
        · intro k v hkv
          simp only [Found.get] at hkv
          split_ifs at hkv
          have := Option.some.inj hkv
          subst this
          exact hv
        · simp
      · have hy : yieldsMatch lib reg (removeRegexSpace text) = false := by
          simp only [yieldsMatch, htr]
          simpa using hl
        refine ⟨[], ?_, fun h => absurd h hany, fun _ => Or.inl ⟨rfl, hy⟩, ?_, hnd, rfl, hasc⟩
        · unfold Find
          rw [if_neg hlen, h1]
          dsimp only
          rw [if_pos List.length_nil, htr]
          dsimp only
          rw [if_neg hl]
        · intro k v hkv; cases hkv

/-- C10 on the sample registry and the text "3318810025 17": both terms yield a
match, and `Find` returns a map with distinct keys and no empty value. -/
theorem C10_find_witness :
    ∃ out, Find sampleLib sampleRegistry (ascii "3318810025 17") = .ok out ∧
      (∀ k v, out.get k = some v → v ≠ []) ∧ (out.map Prod.fst).Nodup :=
  let h := C10_find sampleLib sampleRegistry (ascii "3318810025 17")
    (List.cons_ne_nil _ _) wellFormed_sampleRegistry
  ⟨h.choose, h.choose_spec.1, h.choose_spec.2.2.2.1, h.choose_spec.2.2.2.2.1⟩

/-! ### C11 -/

theorem findLoop_ne_error (lib : Lib) (reg : List Service) (e : TrackError) :
    ∀ (terms : List Str) (acc : Found), findLoop lib reg terms acc ≠ .error e := by
  intro terms
  induction terms with
  | nil => intro acc h; cases h
  | cons t ts ih =>
    intro acc h
    simp only [findLoop] at h
    split at h
    · cases h
    · exact ih _ h
    · split at h
      · exact ih _ h
      · exact ih _ h

theorem Find_ne_error (lib : Lib) (reg : List Service) (text : Str) (hne : reg ≠ [])
    (e : TrackError) : Find lib reg text ≠ .error e := by
  have hlen : ¬ reg.length = 0 := fun h => hne (List.length_eq_zero.mp h)
  unfold Find
  rw [if_neg hlen]
  intro h
  split at h
  · cases h
  · rename_i e' he
    exact findLoop_ne_error lib reg e' _ _ he
  · split at h
    · dsimp only at h
      split at h
      · cases h
      · cases h
      · split at h <;> cases h
    · cases h

/-- The map that `Find` returns on a well-formed registry holds, under each key, the
non-empty list that `Track` returns on that key. -/
theorem Find_values (lib : Lib) (reg : List Service) (text : Str)
    (hne : reg ≠ []) (hwf : WellFormed reg) :
    ∃ out, Find lib reg text = .ok out ∧
      ∀ k v, out.get k = some v → Track lib reg k = .ok v ∧ v ≠ [] := by
  obtain ⟨out, h1, h2, -, -⟩ := findLoop_spec lib reg hwf (Fields lib text) []
  have hlen : ¬ reg.length = 0 := fun h => hne (List.length_eq_zero.mp h)
  have hget : ∀ k v, out.get k = some v → Track lib reg k = .ok v ∧ v ≠ [] := by
    intro k v hk
    rw [h2 k] at hk
    by_cases hc : k ∈ Fields lib text ∧ yieldsMatch lib reg k = true
    · rw [if_pos hc] at hk
      obtain ⟨w, hw1, hw2⟩ := (yieldsMatch_iff lib reg k).mp hc.2
      rw [hw1] at hk
      have := Option.some.inj hk
      subst this
      exact ⟨hw1, hw2⟩
    · rw [if_neg hc] at hk
      cases hk
  unfold Find
  rw [if_neg hlen, h1]
  dsimp only
  by_cases hol : out.length = 0
  · rw [if_pos hol]
    have hnil : out = [] := List.length_eq_zero.mp hol
    cases htr : Track lib reg (removeRegexSpace text) with
    | panic => exact absurd htr (Track_ne_panic lib reg hwf _)
    | error e => exact ⟨out, rfl, hget⟩
    | ok track =>
      dsimp only
      by_cases hl : track.length ≠ 0
      · rw [if_pos hl]
        refine ⟨_, rfl, fun k v hk => ?_⟩
        rw [Found.get_set, hnil] at hk
        by_cases hkk : k = removeRegexSpace text
        · rw [if_pos hkk] at hk
          have := Option.some.inj hk
          subst this
          subst hkk
          exact ⟨htr, fun e => hl (by rw [e]; rfl)⟩
        · rw [if_neg hkk] at hk
          cases hk
      · rw [if_neg hl]
        exact ⟨out, rfl, hget⟩
  · rw [if_neg hol]
    exact ⟨out, rfl, hget⟩

/-- C11: `Find` fails if and only if the registry is empty, and then with
`ErrNoServices`, whatever the text; with a non-empty registry it returns no error on
any text, it returns a map when every service has a pattern and a validator, and a
term on which `Track` fails is absent from that map. -/
theorem C11_find_errors (lib : Lib) (reg : List Service) (text : Str) :
    ((∃ e, Find lib reg text = .error e) ↔ reg = []) ∧
    (reg = [] → Find lib reg text = .error .ErrNoServices) ∧
    (reg ≠ [] → WellFormed reg →
      ∃ out, Find lib reg text = .ok out ∧
        ∀ t, Track lib reg t = .error .ErrBadString → out.get t = none) := by
  have hempty : reg = [] → Find lib reg text = .error .ErrNoServices := by
    intro h
    subst h
    rfl
  refine ⟨⟨?_, fun h => ⟨_, hempty h⟩⟩, hempty, ?_⟩
  · rintro ⟨e, he⟩
    by_contra hne
    exact Find_ne_error lib reg text hne e he
  · intro hne hwf
    obtain ⟨out, h1, h2⟩ := Find_values lib reg text hne hwf
    refine ⟨out, h1, fun t ht => ?_⟩
    cases hg : out.get t with
    | none => rfl
    | some v =>
      have := (h2 t v hg).1
      rw [ht] at this
      cases this

/-- C11 on the sample values: the empty registry refuses the two-byte text of U+00E9
with `ErrNoServices`, and the sample registry returns a map on the text
"3318810025 17". -/
theorem C11_find_errors_witness :
    Find sampleLib [] [0xC3, 0xA9] = .error .ErrNoServices ∧
    ∃ out, Find sampleLib sampleRegistry (ascii "3318810025 17") = .ok out ∧
      ∀ t, Track sampleLib sampleRegistry t = .error .ErrBadString → out.get t = none :=
  ⟨(C11_find_errors sampleLib [] [0xC3, 0xA9]).2.1 rfl,
   (C11_find_errors sampleLib sampleRegistry (ascii "3318810025 17")).2.2
    (List.cons_ne_nil _ _) wellFormed_sampleRegistry⟩

/-! ### C12 -/

theorem Details.get_nil (k : Str) : Details.get [] k = none := rfl

theorem Details.get_cons (p : Str × Str) (m : Details) (k : Str) :
    Details.get (p :: m) k = if p.1 = k then some p.2 else Details.get m k := by
  unfold Details.get
  rw [List.find?_cons]
  by_cases h : p.1 = k
  · simp [h]
  · simp [h]

theorem Details.get_set_eq (m : Details) (k v k' : Str) :
    (m.set k v).get k' = if k' = k then some v else m.get k' := by
  induction m with
  | nil =>
    simp only [Details.set, Details.get_cons, Details.get_nil]
    by_cases h : k' = k
    · rw [if_pos h, if_pos h.symm]
    · rw [if_neg h, if_neg (fun e => h e.symm)]
  | cons p m ih =>
    simp only [Details.set]
    by_cases hp : p.1 = k
    · rw [if_pos hp]
      simp only [Details.get_cons]
      by_cases h : k' = k
      · rw [if_pos h, if_pos h.symm]
      · rw [if_neg h, if_neg (fun e => h e.symm), if_neg (fun e => h (e.symm.trans hp))]
    · rw [if_neg hp]
      simp only [Details.get_cons]
      by_cases hq : p.1 = k'
      · rw [if_pos hq, if_neg (fun e => hp (hq.trans e)), if_pos hq]
      · rw [if_neg hq, ih, if_neg hq]

theorem Details.get_set_if (c : Prop) [Decidable c] (m : Details) (k v k' : Str) :
    (if c then m.set k v else m).get k' = if k' = k ∧ c then some v else m.get k' := by
  by_cases hc : c
  · rw [if_pos hc, Details.get_set_eq]
    by_cases hk : k' = k
    · rw [if_pos hk, if_pos ⟨hk, hc⟩]
    · rw [if_neg hk, if_neg (fun h => hk h.1)]
  · rw [if_neg hc, if_neg (fun h => hc h.2)]

/-- C12 as stated fails on two hits. For the group name `Foo` the derived field is
keyed `Foo:other`, not `Foo`: after `populate` the key `Foo` still holds the captured
value. For the group name `ServiceType` and an entry with a name and no description
only `ServiceName` is written, so the fields depend on the entry too. -/
theorem C12_counterexample :
    (derivedFields sampleLib [] (ascii "Foo") (sampleLookup (ascii "x") [] [])).keys =
      [ascii "Foo:other"] ∧
    (Tracking.populate sampleLib
      { Courier := [], Service := [], TrackingNumber := [], SerialNumber := [],
        CheckDigit := [], TrackingURL := [], Details := [(ascii "Foo", ascii "x")] }
      [{ Name := ascii "foo", RegexGroupName := ascii "Foo",
         Lookups := [sampleLookup (ascii "x") [] []] }]).Details.keys =
      [ascii "Foo", ascii "Foo:other"] ∧
    (Tracking.populate sampleLib
      { Courier := [], Service := [], TrackingNumber := [], SerialNumber := [],
        CheckDigit := [], TrackingURL := [], Details := [(ascii "Foo", ascii "x")] }
      [{ Name := ascii "foo", RegexGroupName := ascii "Foo",
         Lookups := [sampleLookup (ascii "x") [] []] }]).Details.get (ascii "Foo") =
      some (ascii "x") ∧
    derivedFields sampleLib [] (ascii "ServiceType")
        (sampleLookup (ascii "x") (ascii "Priority") []) =
      [(ascii "ServiceName", ascii "Priority")] :=
  ⟨by rfl, by rfl, by rfl, by rfl⟩

/-- C12, amended: on an enrichment hit for a rule with capture-group name `g`, the
fields written are determined by `g` and by which values of the entry are non-empty:
for `ServiceType` the fields `ServiceName` and `ServiceDesc`, each when the name,
respectively the description, of the entry is non-empty; for `CountryCode` the fields
`Country`, `Courier`, `CourierURL` and `UPURefURL`, each when non-empty; for
`ShippingContainerType` one field keyed by the group name, holding the group name, a
space and the name of the entry, when that name is non-empty; and for every other
group name exactly one field, keyed by the group name followed by `:other`, holding
the formatted entry. Every other key is left as it was. -/
theorem C12_derived_fields (lib : Lib) (deets : Details) (g : Str) (l : Lookup) (k : Str) :
    (g = ascii "ServiceType" →
      (derivedFields lib deets g l).get k =
        if k = ascii "ServiceDesc" ∧ l.Description ≠ [] then some l.Description
        else if k = ascii "ServiceName" ∧ l.Name ≠ [] then some l.Name
        else deets.get k) ∧
    (g = ascii "CountryCode" →
      (derivedFields lib deets g l).get k =
        if k = ascii "UPURefURL" ∧ l.UPUReferenceURL ≠ [] then some l.UPUReferenceURL
        else if k = ascii "CourierURL" ∧ l.CourierURL ≠ [] then some l.CourierURL
        else if k = ascii "Courier" ∧ l.Courier ≠ [] then some l.Courier
        else if k = ascii "Country" ∧ l.Country ≠ [] then some l.Country
        else deets.get k) ∧
    (g = ascii "ShippingContainerType" →
      (derivedFields lib deets g l).get k =
        if k = g ∧ l.Name ≠ [] then some (g ++ ascii " " ++ l.Name) else deets.get k) ∧
    (g ≠ ascii "ServiceType" → g ≠ ascii "CountryCode" →
      g ≠ ascii "ShippingContainerType" →
      derivedFields lib deets g l = deets.set (g ++ ascii ":other") (lib.SprintLookup l) ∧
      (derivedFields lib deets g l).get k =
        if k = g ++ ascii ":other" then some (lib.SprintLookup l) else deets.get k) := by
  refine ⟨?_, ?_, ?_, ?_⟩
  · intro hg
    subst hg
    unfold derivedFields
    rw [if_pos rfl]
    simp only [Details.get_set_if]
  · intro hg
    subst hg
    have hne : ¬ ascii "CountryCode" = ascii "ServiceType" := by decide
    unfold derivedFields
    rw [if_neg hne, if_pos rfl]
    simp only [Details.get_set_if]
  · intro hg
    subst hg
    have hne1 : ¬ ascii "ShippingContainerType" = ascii "ServiceType" := by decide
    have hne2 : ¬ ascii "ShippingContainerType" = ascii "CountryCode" := by decide
    unfold derivedFields
    rw [if_neg hne1, if_neg hne2, if_pos rfl]
    simp only [Details.get_set_if]
  · intro h1 h2 h3
    have hd : derivedFields lib deets g l =
        deets.set (g ++ ascii ":other") (lib.SprintLookup l) := by
      unfold derivedFields
      rw [if_neg h1, if_neg h2, if_neg h3]
    exact ⟨hd, by rw [hd, Details.get_set_eq]⟩

/-- C12 on the group name `Foo`: it is none of the three named groups, and the one
field written is keyed `Foo:other`. -/
theorem C12_derived_fields_witness :
    derivedFields sampleLib [] (ascii "Foo") (sampleLookup (ascii "x") [] []) =
      Details.set [] (ascii "Foo:other")
        (sampleLib.SprintLookup (sampleLookup (ascii "x") [] [])) :=
  ((C12_derived_fields sampleLib [] (ascii "Foo") (sampleLookup (ascii "x") [] []) []).2.2.2
    (by decide) (by decide) (by decide)).1

/-! ### C13 and C14 -/

/-- A service yields a result exactly when it applies, and the result is the record
that it builds. -/
theorem Service.track_eq_some_iff (lib : Lib) (d : Service) (inp : Str) (t : Tracking) :
    d.track lib inp = .ok (some t) ↔ d.accepts lib inp = true ∧ t = d.built lib inp := by
  unfold Service.track Service.accepts Service.patternMatches Service.checksumValid
    Service.additionalConfirmed Service.built Service.serialOf Service.checkDigitOf
    Service.detailsOf Service.captured Regexp.MatchString
  cases hr : d.Regex with
  | none => simp
  | some re =>
    cases hf : re.FindStringSubmatch inp with
    | none => simp [hf]
    | some groups =>
      cases hv : d.Validation.Validator with
      | none => simp [hf]
      | some v =>
        simp only [hf, Option.isSome_some, Bool.true_and]
        cases hb : v.Validate (takeSerial d (captureGroups lib re.SubexpNames groups)).1
            (takeCheckDigit (takeSerial d (captureGroups lib re.SubexpNames groups)).2).1 with
        | none => simp
        | some b =>
          cases b with
          | false => simp
          | true =>
            simp only [decide_True, Bool.true_and]
            by_cases hall : (d.Validation.Exists.all fun matchKey =>
                d.ValidateAdditionalExists matchKey
                  (takeCheckDigit
                    (takeSerial d (captureGroups lib re.SubexpNames groups)).2).2) = true
            · rw [if_pos hall]
              simp only [hall, Outcome.ok.injEq, Option.some.injEq, true_and]
              exact eq_comm
            · rw [if_neg hall]
              simp only [hall]
              constructor
              · intro h; cases h
              · intro h; exact absurd h.1 (by simp)

theorem S10.validate_length (m : S10) (s cd : Str) (h : s.length ≠ m.Weightings.length) :
    m.Generate s = .error .length ∧ m.Validate s cd = some false := by
  have hg : m.Generate s = .error .length := by
    unfold S10.Generate
    rw [if_pos h]
  exact ⟨hg, by unfold S10.Validate; rw [hg]⟩

theorem SumProductWithWeightingsAndModulo.validate_short
    (m : SumProductWithWeightingsAndModulo) (s cd : Str)
    (h : s.length < m.Weightings.length) :
    m.Generate s = .error .length ∧ m.Validate s cd = some false := by
  have hg : m.Generate s = .error .length := by
    unfold SumProductWithWeightingsAndModulo.Generate
    rw [if_pos h]
  exact ⟨hg, by unfold SumProductWithWeightingsAndModulo.Validate; rw [hg]⟩

theorem Service.no_result_of_invalid (lib : Lib) (d : Service) (inp : Str) (v : CheckDigit)
    (hv : d.Validation.Validator = some v)
    (h : v.Validate (d.serialOf lib inp) (d.checkDigitOf lib inp) = some false) :
    ∀ t, d.track lib inp ≠ .ok (some t) := by
  intro t ht
  have ha := ((Service.track_eq_some_iff lib d inp t).mp ht).1
  unfold Service.accepts Service.checksumValid at ha
  rw [hv] at ha
  simp only [h, Option.some.injEq, Bool.false_eq_true, decide_False, Bool.and_false,
    Bool.false_and] at ha

/-- C13 as stated fails for the weighted-sum variant on a serial longer than the
weighting sequence: with the thirteen weightings of the test `Fedex Express (34)`,
moduli 11 and 10, the serial "100192133425000100030077901797269" has 33 characters
and `Validate` accepts the check digit "7". -/
theorem C13_counterexample :
    (ascii "100192133425000100030077901797269").length = 33 ∧
    ([1, 7, 3, 1, 7, 3, 1, 7, 3, 1, 7, 3, 1] : List Int).length = 13 ∧
    SumProductWithWeightingsAndModulo.Validate
      ⟨[1, 7, 3, 1, 7, 3, 1, 7, 3, 1, 7, 3, 1], 11, 10⟩
      (ascii "100192133425000100030077901797269") (ascii "7") = some true :=
  ⟨by rfl, by rfl, by rfl⟩

/-- C13, amended: a descriptor whose checksum algorithm is S10 rejects every serial
whose length differs from the length of the weighting sequence, and a descriptor
whose algorithm is the weighted-sum variant rejects every serial shorter than the
weighting sequence: for every such serial and every check digit `Generate` fails with
the length error and `Validate` returns false, so the descriptor yields no result in
`Track`. -/
theorem C13_length_mismatch (lib : Lib) (d : Service) (inp : Str) :
    (∀ (m : S10) (s cd : Str), s.length ≠ m.Weightings.length →
      m.Generate s = .error .length ∧ m.Validate s cd = some false) ∧
    (∀ (m : SumProductWithWeightingsAndModulo) (s cd : Str),
      s.length < m.Weightings.length →
      m.Generate s = .error .length ∧ m.Validate s cd = some false) ∧
    (∀ m : S10, d.Validation.Validator = some (.s10 m) →
      (d.serialOf lib inp).length ≠ m.Weightings.length →
      ∀ t, d.track lib inp ≠ .ok (some t)) ∧
    (∀ m : SumProductWithWeightingsAndModulo,
      d.Validation.Validator = some (.sumProduct m) →
      (d.serialOf lib inp).length < m.Weightings.length →
      ∀ t, d.track lib inp ≠ .ok (some t)) := by
  refine ⟨S10.validate_length, SumProductWithWeightingsAndModulo.validate_short, ?_, ?_⟩
  · intro m hv hl
    exact Service.no_result_of_invalid lib d inp _ hv
      (S10.validate_length m _ _ hl).2
  · intro m hv hl
    exact Service.no_result_of_invalid lib d inp _ hv
      (SumProductWithWeightingsAndModulo.validate_short m _ _ hl).2

/-- C13 on the S10 weightings `[8,6,4,2,3,5,9,7]` and the seven-digit serial
"1234567": `Validate` refuses the digit "5". -/
theorem C13_length_mismatch_witness :
    S10.Validate ⟨[8, 6, 4, 2, 3, 5, 9, 7]⟩ (ascii "1234567") (ascii "5") = some false :=
  ((C13_length_mismatch sampleLib anyService []).1 ⟨[8, 6, 4, 2, 3, 5, 9, 7]⟩
    (ascii "1234567") (ascii "5") (by decide)).2

theorem atoiByte_of_not_digit (c : Nat) (h : ¬ (48 ≤ c ∧ c ≤ 57)) : atoiByte c = none := by
  unfold atoiByte
  rw [if_neg h]

theorem weightedLoop_of_not_digit (w : List Int) : ∀ (s : Str) (acc : Int),
    s.length = w.length → (∃ c ∈ s, ¬ (48 ≤ c ∧ c ≤ 57)) →
      weightedLoop w acc s = .error .atoi := by
  induction w with
  | nil =>
    intro s acc hl hc
    have hnil : s = [] := List.length_eq_zero.mp hl
    obtain ⟨c, hc, _⟩ := hc
    rw [hnil] at hc
    cases hc
  | cons x xs ih =>
    intro s acc hl hc
    cases s with
    | nil => simp at hl
    | cons c cs =>
      have hl' : cs.length = xs.length := by simpa using hl
      by_cases hd : 48 ≤ c ∧ c ≤ 57
      · simp only [weightedLoop, atoiByte_of_digit c hd]
        apply ih cs _ hl'
        obtain ⟨b, hb, hnb⟩ := hc
        rcases List.mem_cons.mp hb with rfl | hb'
        · exact absurd hd hnb
        · exact ⟨b, hb', hnb⟩
      · simp only [weightedLoop, atoiByte_of_not_digit c hd]

/-- C14: where a digit is strictly required, a character that is not a decimal digit
is a hard failure. For S10 with a serial of the weighting length, and for the
weighted-sum variant with a serial at least as long as the weighting sequence, if any
character consumed by the weighted sum (every character for S10, the trailing
`len(weightings)` characters for the weighted sum) is not one of `'0'-'9'`, then
`Generate` fails with the conversion error and `Validate` returns false for every
check digit; no byte outside `'0'-'9'` is given a value. -/
theorem C14_non_digit_fails (s cd : Str) :
    (∀ c : Nat, ¬ (48 ≤ c ∧ c ≤ 57) → atoiByte c = none) ∧
    (∀ m : S10, s.length = m.Weightings.length →
      (∃ c ∈ s, ¬ (48 ≤ c ∧ c ≤ 57)) →
      m.Generate s = .error .atoi ∧ m.Validate s cd = some false) ∧
    (∀ m : SumProductWithWeightingsAndModulo, m.Weightings.length ≤ s.length →
      (∃ c ∈ s.drop (s.length - m.Weightings.length), ¬ (48 ≤ c ∧ c ≤ 57)) →
      m.Generate s = .error .atoi ∧ m.Validate s cd = some false) := by
  refine ⟨atoiByte_of_not_digit, ?_, ?_⟩
  · intro m hl hc
    have hg : m.Generate s = .error .atoi := by
      unfold S10.Generate
      rw [if_neg (by simpa using hl), weightedLoop_of_not_digit m.Weightings s 0 hl hc]
    exact ⟨hg, by unfold S10.Validate; rw [hg]⟩
  · intro m hl hc
    have hlen : (s.drop (s.length - m.Weightings.length)).length = m.Weightings.length := by
      rw [List.length_drop]; omega
    have hg : m.Generate s = .error .atoi := by
      unfold SumProductWithWeightingsAndModulo.Generate
      rw [if_neg (by omega)]
      simp only [weightedLoop_of_not_digit m.Weightings _ 0 hlen hc]
    exact ⟨hg, by unfold SumProductWithWeightingsAndModulo.Validate; rw [hg]⟩

/-- C14 on the S10 weightings `[8,6,4,2,3,5,9,7]` and the serial "1234+678", of the
weighting length and with a plus sign: `Generate` fails and `Validate` refuses the
digit "5". -/
theorem C14_non_digit_fails_witness :
    S10.Generate ⟨[8, 6, 4, 2, 3, 5, 9, 7]⟩ (ascii "1234+678") = .error .atoi ∧
    S10.Validate ⟨[8, 6, 4, 2, 3, 5, 9, 7]⟩ (ascii "1234+678") (ascii "5") = some false :=
  (C14_non_digit_fails (ascii "1234+678") (ascii "5")).2.1 ⟨[8, 6, 4, 2, 3, 5, 9, 7]⟩
    (by rfl) ⟨43, by decide, by decide⟩

/-! ### C15 -/

theorem lookupHit_iff (v : Str) (e : Lookup) :
    lookupHit v e = true ↔
      (v = e.Matches ∨ ∃ r, e.MatchesRegex = some r ∧ r.MatchString v = true) := by
  unfold lookupHit
  cases hr : e.MatchesRegex with
  | none => simp
  | some r => simp

theorem lookupLoop_cons (lib : Lib) (k v : Str) (e : Lookup) (rest : List Lookup)
    (deets : Details) :
    lookupLoop lib k v (e :: rest) false deets =
      if lookupHit v e = true then derivedFields lib deets k e
      else lookupLoop lib k v rest false deets := by
  unfold lookupHit
  simp only [lookupLoop]
  cases hr : e.MatchesRegex with
  | none =>
    by_cases hm : v = e.Matches
    · simp [hm]
    · simp [hm]
  | some r =>
    by_cases hm : v = e.Matches
    · cases hs : r.MatchString v <;> simp [hm, hs]
    · cases hs : r.MatchString v <;> simp [hm, hs]

theorem lookupLoop_eq_find (lib : Lib) (k v : Str) (lookups : List Lookup) (deets : Details) :
    lookupLoop lib k v lookups false deets =
      match lookups.find? (lookupHit v) with
      | some l => derivedFields lib deets k l
      | none => deets := by
  induction lookups with
  | nil => rfl
  | cons e rest ih =>
    rw [lookupLoop_cons, List.find?_cons]
    cases he : lookupHit v e with
    | true => simp
    | false => simp [ih]

/-- C15: for every enrichment rule and every extracted value `v` of its capture
group, the lookup entries are tried in declaration order; an entry is satisfied when
its literal equals `v` or its pattern matches `v`; the derived fields are those of
the first satisfying entry, whatever the entries after it, and nothing is written
when no entry is satisfied. `populate` applies this to each rule in turn, on the
value captured for the group of the rule. -/
theorem C15_first_entry_wins (lib : Lib) (k v : Str) (deets : Details)
    (pre post : List Lookup) (l : Lookup) (t : Tracking) (rules : List Additional) :
    (lookupHit v l = true ↔
      (v = l.Matches ∨ ∃ r, l.MatchesRegex = some r ∧ r.MatchString v = true)) ∧
    ((∀ e ∈ pre, lookupHit v e = false) → lookupHit v l = true →
      lookupLoop lib k v (pre ++ l :: post) false deets = derivedFields lib deets k l) ∧
    ((∀ e ∈ pre, lookupHit v e = false) →
      lookupLoop lib k v pre false deets = deets) ∧
    (t.populate lib rules).Details =
      (rules.foldl (fun deets detail =>
        match t.Details.get detail.RegexGroupName with
        | none => deets
        | some v =>
          match detail.Lookups.find? (lookupHit v) with
          | none => deets
          | some l => derivedFields lib deets detail.RegexGroupName l) []).foldl
        (fun m p => m.set p.1 p.2) t.Details := by
  refine ⟨lookupHit_iff v l, ?_, ?_, ?_⟩
  · intro hpre hl
    rw [lookupLoop_eq_find]
    have hf : (pre ++ l :: post).find? (lookupHit v) = some l := by
      rw [List.find?_append]
      have hnone : pre.find? (lookupHit v) = none := by
        rw [List.find?_eq_none]
        intro e he
        rw [hpre e he]
        decide
      rw [hnone, List.find?_cons, hl]
      rfl
    rw [hf]
  · intro hpre
    rw [lookupLoop_eq_find]
    have hnone : pre.find? (lookupHit v) = none := by
      rw [List.find?_eq_none]
      intro e he
      rw [hpre e he]
      decide
    rw [hnone]
  · unfold Tracking.populate
    simp only []
    congr 2
    funext deets detail
    cases t.Details.get detail.RegexGroupName with
    | none => rfl
    | some w =>
      simp only []
      rw [lookupLoop_eq_find]
      cases detail.Lookups.find? (lookupHit w) <;> rfl

/-- C15 on the group `ServiceType`, the value "x" and two entries of literal "x":
the first is satisfied, and the name written is that of the first; the description
of the second is not written. -/
theorem C15_first_entry_wins_witness :
    lookupLoop sampleLib (ascii "ServiceType") (ascii "x")
        ([] ++ sampleLookup (ascii "x") (ascii "First") [] ::
          [sampleLookup (ascii "x") (ascii "Second") (ascii "text")]) false [] =
      [(ascii "ServiceName", ascii "First")] :=
  ((C15_first_entry_wins sampleLib (ascii "ServiceType") (ascii "x") [] []
      [sampleLookup (ascii "x") (ascii "Second") (ascii "text")]
      (sampleLookup (ascii "x") (ascii "First") [])
      { Courier := [], Service := [], TrackingNumber := [], SerialNumber := [],
        CheckDigit := [], TrackingURL := [], Details := [] } []).2.1
    (by intro e he; cases he) (by rfl)).trans (by rfl)

/-! ### C16 -/

theorem Service.validateAdditionalExists_iff (d : Service) (k : Str) (fields : Details) :
    d.ValidateAdditionalExists k fields = true ↔
      ∃ sa ∈ d.Additional, sa.Name = k ∧
        ∃ val, fields.get sa.RegexGroupName = some val ∧
          ∃ l ∈ sa.Lookups, l.Matches = val := by
  unfold Service.ValidateAdditionalExists
  rw [List.any_eq_true]
  constructor
  · rintro ⟨sa, hsa, h⟩
    rw [Bool.and_eq_true, decide_eq_true_eq] at h
    refine ⟨sa, hsa, h.1, ?_⟩
    have h2 := h.2
    cases hg : fields.get sa.RegexGroupName with
    | none => rw [hg] at h2; cases h2
    | some val =>
      rw [hg] at h2
      simp only [List.any_eq_true, decide_eq_true_eq] at h2
      exact ⟨val, rfl, h2⟩
  · rintro ⟨sa, hsa, hn, val, hg, l, hl, hm⟩
    refine ⟨sa, hsa, ?_⟩
    rw [Bool.and_eq_true, decide_eq_true_eq]
    refine ⟨hn, ?_⟩
    rw [hg]
    simp only [List.any_eq_true, decide_eq_true_eq]
    exact ⟨l, hl, hm⟩

/-- C16: `ValidateAdditionalExists(k, fields)` is true if and only if the descriptor
has an enrichment table named `k` whose capture-group name is a key of `fields` and
whose lookup entries include one whose literal equals the value of that field; it is
false when no table is named `k`, when no table named `k` has its field extracted,
and when no table named `k` lists the value of its field. In `Track`, a descriptor
with an additional-exists key that fails this confirmation produces no result. -/
theorem C16_additional_exists (lib : Lib) (d : Service) (k : Str) (fields : Details)
    (inp : Str) :
    (d.ValidateAdditionalExists k fields = true ↔
      ∃ sa ∈ d.Additional, sa.Name = k ∧
        ∃ val, fields.get sa.RegexGroupName = some val ∧
          ∃ l ∈ sa.Lookups, l.Matches = val) ∧
    ((∀ sa ∈ d.Additional, sa.Name ≠ k) → d.ValidateAdditionalExists k fields = false) ∧
    ((∀ sa ∈ d.Additional, sa.Name = k → fields.get sa.RegexGroupName = none) →
      d.ValidateAdditionalExists k fields = false) ∧
    ((∀ sa ∈ d.Additional, sa.Name = k → ∀ val, fields.get sa.RegexGroupName = some val →
        ∀ l ∈ sa.Lookups, l.Matches ≠ val) →
      d.ValidateAdditionalExists k fields = false) ∧
    ((∃ key ∈ d.Validation.Exists,
        d.ValidateAdditionalExists key (d.detailsOf lib inp) = false) →
      ∀ t, d.track lib inp ≠ .ok (some t)) := by
  have hiff := Service.validateAdditionalExists_iff d k fields
  have hfalse : ∀ {p : Prop}, (d.ValidateAdditionalExists k fields = true → p) → ¬ p →
      d.ValidateAdditionalExists k fields = false := by
    intro p h1 h2
    cases hv : d.ValidateAdditionalExists k fields
    · rfl
    · exact absurd (h1 hv) h2
  refine ⟨hiff, ?_, ?_, ?_, ?_⟩
  · intro h
    apply hfalse hiff.mp
    rintro ⟨sa, hsa, hn, _⟩
    exact h sa hsa hn
  · intro h
    apply hfalse hiff.mp
    rintro ⟨sa, hsa, hn, val, hg, _⟩
    rw [h sa hsa hn] at hg
    cases hg
  · intro h
    apply hfalse hiff.mp
    rintro ⟨sa, hsa, hn, val, hg, l, hl, hm⟩
    exact h sa hsa hn val hg l hl hm
  · rintro ⟨key, hkey, hv⟩ t ht
    have ha := ((Service.track_eq_some_iff lib d inp t).mp ht).1
    unfold Service.accepts Service.additionalConfirmed at ha
    rw [Bool.and_eq_true, List.all_eq_true] at ha
    have := ha.2 key hkey
    rw [hv] at this
    cases this

/-- C16 on the sample service with the additional-exists key `Country`: its pattern
extracts no `CountryCode`, the confirmation fails, and the service produces no result
on the input "X". -/
theorem C16_additional_exists_witness :
    tableService.ValidateAdditionalExists (ascii "Country")
        (tableService.detailsOf sampleLib (ascii "X")) = false ∧
    ∀ t, tableService.track sampleLib (ascii "X") ≠ .ok (some t) :=
  ⟨by rfl,
   (C16_additional_exists sampleLib tableService (ascii "Country") [] (ascii "X")).2.2.2.2
    ⟨ascii "Country", by decide, by rfl⟩⟩

/-! ### C17 -/

theorem Details.mem_keys_set (m : Details) (k v key : Str) :
    key ∈ (m.set k v).keys ↔ key = k ∨ key ∈ m.keys := by
  unfold Details.keys
  induction m with
  | nil => simp [Details.set]
  | cons p m ih =>
    simp only [Details.set]
    by_cases hp : p.1 = k
    · rw [if_pos hp]
      simp only [List.map_cons, List.mem_cons, hp]
      constructor
      · rintro (h | h)
        · exact Or.inl h
        · exact Or.inr (Or.inr h)
      · rintro (h | h | h)
        · exact Or.inl h
        · exact Or.inl h
        · exact Or.inr h
    · rw [if_neg hp]
      simp only [List.map_cons, List.mem_cons, ih]
      constructor
      · rintro (h | h | h)
        · exact Or.inr (Or.inl h)
        · exact Or.inl h
        · exact Or.inr (Or.inr h)
      · rintro (h | h | h)
        · exact Or.inr (Or.inl h)
        · exact Or.inl h
        · exact Or.inr (Or.inr h)

theorem Details.mem_keys_delete (m : Details) (k key : Str) :
    key ∈ (m.delete k).keys ↔ key ≠ k ∧ key ∈ m.keys := by
  unfold Details.keys Details.delete
  simp only [List.mem_map, List.mem_filter, decide_eq_true_eq]
  constructor
  · rintro ⟨p, ⟨hp, hne⟩, rfl⟩
    exact ⟨hne, p, hp, rfl⟩
  · rintro ⟨hne, p, hp, rfl⟩
    exact ⟨p, ⟨hp, hne⟩, rfl⟩

theorem Details.get_eq_none_iff (m : Details) (k : Str) :
    m.get k = none ↔ k ∉ m.keys := by
  unfold Details.keys
  induction m with
  | nil => simp [Details.get_nil]
  | cons p m ih =>
    rw [Details.get_cons]
    by_cases hp : p.1 = k
    · rw [if_pos hp]
      simp [hp]
    · rw [if_neg hp, ih]
      simp only [List.map_cons, List.mem_cons, not_or]
      constructor
      · intro h; exact ⟨fun e => hp e.symm, h⟩
      · intro h; exact h.2

theorem Details.mem_keys_merge (deets : Details) : ∀ (base : Details) (key : Str),
    key ∈ (deets.foldl (fun m p => m.set p.1 p.2) base).keys ↔
      key ∈ base.keys ∨ key ∈ deets.keys := by
  induction deets with
  | nil => intro base key; simp [Details.keys]
  | cons p rest ih =>
    intro base key
    simp only [List.foldl_cons]
    rw [ih, Details.mem_keys_set]
    simp only [Details.keys, List.map_cons, List.mem_cons]
    constructor
    · rintro ((h | h) | h)
      · exact Or.inr (Or.inl h)
      · exact Or.inl h
      · exact Or.inr (Or.inr h)
    · rintro (h | h | h)
      · exact Or.inl (Or.inr h)
      · exact Or.inl (Or.inl h)
      · exact Or.inr h

theorem Details.keys_set_if (c : Prop) [Decidable c] (m : Details) (k v key : Str)
    (h : key ∈ (if c then m.set k v else m).keys) : key = k ∨ key ∈ m.keys := by
  by_cases hc : c
  · rw [if_pos hc] at h
    exact (Details.mem_keys_set m k v key).mp h
  · rw [if_neg hc] at h
    exact Or.inr h

theorem derivedFields_keys (lib : Lib) (deets : Details) (g : Str) (l : Lookup)
    (key : Str) (h : key ∈ (derivedFields lib deets g l).keys) :
    key ∈ deets.keys ∨ DerivedKey key := by
  unfold derivedFields at h
  unfold DerivedKey
  by_cases h1 : g = ascii "ServiceType"
  · rw [if_pos h1] at h
    rcases Details.keys_set_if _ _ _ _ _ h with e | h
    · subst e; right; left; simp
    rcases Details.keys_set_if _ _ _ _ _ h with e | h
    · subst e; right; left; simp
    exact Or.inl h
  rw [if_neg h1] at h
  by_cases h2 : g = ascii "CountryCode"
  · rw [if_pos h2] at h
    rcases Details.keys_set_if _ _ _ _ _ h with e | h
    · subst e; right; left; simp
    rcases Details.keys_set_if _ _ _ _ _ h with e | h
    · subst e; right; left; simp
    rcases Details.keys_set_if _ _ _ _ _ h with e | h
    · subst e; right; left; simp
    rcases Details.keys_set_if _ _ _ _ _ h with e | h
    · subst e; right; left; simp
    exact Or.inl h
  rw [if_neg h2] at h
  by_cases h3 : g = ascii "ShippingContainerType"
  · rw [if_pos h3] at h
    rcases Details.keys_set_if _ _ _ _ _ h with e | h
    · subst e; right; left; simp [h3]
    exact Or.inl h
  rw [if_neg h3] at h
  rcases (Details.mem_keys_set _ _ _ _).mp h with e | h
  · exact Or.inr (Or.inr ⟨g, e⟩)
  · exact Or.inl h

theorem populate_keys (lib : Lib) (t : Tracking) (rules : List Additional) (key : Str)
    (h : key ∈ (t.populate lib rules).Details.keys) :
    key ∈ t.Details.keys ∨ DerivedKey key := by
  unfold Tracking.populate at h
  simp only [] at h
  rcases (Details.mem_keys_merge _ _ _).mp h with h | h
  · exact Or.inl h
  · right
    have hinv : ∀ (rs : List Additional) (acc : Details),
        (∀ k ∈ acc.keys, DerivedKey k) →
        ∀ k ∈ (rs.foldl (fun deets detail =>
          match t.Details.get detail.RegexGroupName with
          | none => deets
          | some v => lookupLoop lib detail.RegexGroupName v detail.Lookups false deets)
          acc).keys, DerivedKey k := by
      intro rs
      induction rs with
      | nil => intro acc hacc k hk; exact hacc k hk
      | cons r rest ih =>
        intro acc hacc k hk
        simp only [List.foldl_cons] at hk
        refine ih _ ?_ k hk
        intro k' hk'
        cases hg : t.Details.get r.RegexGroupName with
        | none => rw [hg] at hk'; exact hacc k' hk'
        | some v =>
          rw [hg] at hk'
          simp only [] at hk'
          rw [lookupLoop_eq_find] at hk'
          cases hf : r.Lookups.find? (lookupHit v) with
          | none => rw [hf] at hk'; exact hacc k' hk'
          | some l =>
            rw [hf] at hk'
            rcases derivedFields_keys lib acc _ l k' hk' with h1 | h1
            · exact hacc k' h1
            · exact h1
    exact hinv rules [] (by intro k hk; cases hk) key h

theorem not_derivedKey_of_suffix (key : Str)
    (hfix : key ∉ [ascii "ServiceName", ascii "ServiceDesc", ascii "Country",
      ascii "Courier", ascii "CourierURL", ascii "UPURefURL",
      ascii "ShippingContainerType"])
    (hsuf : key.reverse.take 6 ≠ (ascii ":other").reverse) : ¬ DerivedKey key := by
  rintro (h | ⟨g, hg⟩)
  · exact hfix h
  · apply hsuf
    rw [hg, List.reverse_append]
    exact List.take_left' (by rfl)

theorem captureGroups_nonempty (lib : Lib) (names groups : List Str) :
    ∀ p ∈ captureGroups lib names groups, p.2 ≠ [] := by
  unfold captureGroups
  have hset : ∀ (m : Details) (k v : Str), v ≠ [] → (∀ p ∈ m, p.2 ≠ []) →
      ∀ p ∈ m.set k v, p.2 ≠ [] := by
    intro m
    induction m with
    | nil =>
      intro k v hv _ p hp
      simp only [Details.set, List.mem_singleton] at hp
      subst hp
      exact hv
    | cons q m ih =>
      intro k v hv hm p hp
      simp only [Details.set] at hp
      split_ifs at hp with hq
      · rcases List.mem_cons.mp hp with rfl | hp'
        · exact hv
        · exact hm p (List.mem_cons_of_mem q hp')
      · rcases List.mem_cons.mp hp with rfl | hp'
        · exact hm p (List.mem_cons_self p m)
        · exact ih k v hv (fun x hx => hm x (List.mem_cons_of_mem q hx)) p hp'
  have hfold : ∀ (l : List (Str × Str)) (acc : Details), (∀ p ∈ acc, p.2 ≠ []) →
      ∀ p ∈ l.foldl (fun m p =>
        if p.2 ≠ [] then
          let val := TrimSpace lib p.1
          if val ≠ [] then m.set p.2 val else m
        else m) acc, p.2 ≠ [] := by
    intro l
    induction l with
    | nil => intro acc hacc p hp; exact hacc p hp
    | cons x xs ih =>
      intro acc hacc p hp
      simp only [List.foldl_cons] at hp
      refine ih _ ?_ p hp
      intro q hq
      split_ifs at hq with h1 h2
      · exact hset acc _ _ h2 hacc q hq
      · exact hacc q hq
      · exact hacc q hq
  exact hfold _ [] (by intro p hp; cases hp)

theorem Details.get_mem (m : Details) (k v : Str) (h : m.get k = some v) : (k, v) ∈ m := by
  induction m with
  | nil => rw [Details.get_nil] at h; cases h
  | cons p m ih =>
    rw [Details.get_cons] at h
    by_cases hp : p.1 = k
    · rw [if_pos hp] at h
      have := Option.some.inj h
      rw [← hp, ← this]
      exact List.mem_cons_self _ _
    · rw [if_neg hp] at h
      exact List.mem_cons_of_mem _ (ih h)

theorem Service.captured_nonempty (lib : Lib) (d : Service) (inp k v : Str)
    (h : (d.captured lib inp).get k = some v) : v ≠ [] := by
  have hm := Details.get_mem _ _ _ h
  unfold Service.captured at hm
  cases hr : d.Regex with
  | none => rw [hr] at hm; cases hm
  | some re =>
    rw [hr] at hm
    simp only [] at hm
    cases hf : re.FindStringSubmatch inp with
    | none => rw [hf] at hm; cases hm
    | some groups =>
      rw [hf] at hm
      exact captureGroups_nonempty lib _ _ _ hm

theorem takeSerial_keys (d : Service) (m : Details) :
    ascii "SerialNumber" ∉ (takeSerial d m).2.keys ∧
      ∀ key, key ∈ (takeSerial d m).2.keys → key ∈ m.keys := by
  unfold takeSerial
  cases hg : m.get (ascii "SerialNumber") with
  | none =>
    exact ⟨(Details.get_eq_none_iff _ _).mp hg, fun _ h => h⟩
  | some v =>
    simp only []
    refine ⟨fun h => ?_, fun key h => ?_⟩
    · exact ((Details.mem_keys_delete _ _ _).mp h).1 rfl
    · exact ((Details.mem_keys_delete _ _ _).mp h).2

theorem takeCheckDigit_keys (m : Details) :
    ascii "CheckDigit" ∉ (takeCheckDigit m).2.keys ∧
      ∀ key, key ∈ (takeCheckDigit m).2.keys → key ∈ m.keys := by
  unfold takeCheckDigit
  cases hg : m.get (ascii "CheckDigit") with
  | none =>
    exact ⟨(Details.get_eq_none_iff _ _).mp hg, fun _ h => h⟩
  | some v =>
    simp only []
    refine ⟨fun h => ?_, fun key h => ?_⟩
    · exact ((Details.mem_keys_delete _ _ _).mp h).1 rfl
    · exact ((Details.mem_keys_delete _ _ _).mp h).2

theorem Service.serialOf_eq (lib : Lib) (d : Service) (inp v : Str)
    (h : (d.captured lib inp).get (ascii "SerialNumber") = some v) :
    d.serialOf lib inp = prependedSerial d.Validation.PrependIf v := by
  unfold Service.serialOf takeSerial prependedSerial
  rw [h]
  simp only []
  cases d.Validation.PrependIf.Regex with
  | none => rfl
  | some re =>
    simp only []
    cases re.MatchString v <;> simp

/-- C17: for every descriptor that yields a result and whose pattern captures a
`SerialNumber` value `v` (non-empty, as stored after trimming), the serial that is
checksum-validated and stored in the field `SerialNumber` of the result is the
literal of the prepend rule followed by `v` when the rule is defined and `v` does not
match its pattern, and is `v` when no rule is defined or `v` matches it; and the
`Details` map of the result has neither the key `SerialNumber` nor the key
`CheckDigit`. -/
theorem C17_serial_and_details (lib : Lib) (d : Service) (inp : Str) (t : Tracking)
    (ht : d.track lib inp = .ok (some t)) :
    (∀ v, (d.captured lib inp).get (ascii "SerialNumber") = some v →
      v ≠ [] ∧
      t.SerialNumber = prependedSerial d.Validation.PrependIf v ∧
      (∀ re, d.Validation.PrependIf.Regex = some re → re.MatchString v = false →
        t.SerialNumber = d.Validation.PrependIf.Content ++ v) ∧
      (∀ re, d.Validation.PrependIf.Regex = some re → re.MatchString v = true →
        t.SerialNumber = v) ∧
      (d.Validation.PrependIf.Regex = none → t.SerialNumber = v) ∧
      ∃ validator, d.Validation.Validator = some validator ∧
        validator.Validate (prependedSerial d.Validation.PrependIf v) t.CheckDigit =
          some true) ∧
    ascii "SerialNumber" ∉ t.Details.keys ∧
    ascii "CheckDigit" ∉ t.Details.keys := by
  obtain ⟨hacc, hbuilt⟩ := (Service.track_eq_some_iff lib d inp t).mp ht
  have hser : t.SerialNumber = d.serialOf lib inp := by rw [hbuilt]; rfl
  have hcd : t.CheckDigit = d.checkDigitOf lib inp := by rw [hbuilt]; rfl
  have hkeys : ∀ key, key ∈ t.Details.keys → key ∈ (d.detailsOf lib inp).keys ∨
      DerivedKey key := by
    intro key hk
    rw [hbuilt] at hk
    exact populate_keys lib _ _ key hk
  have hs1 := takeSerial_keys d (d.captured lib inp)
  have hc1 := takeCheckDigit_keys (takeSerial d (d.captured lib inp)).2
  refine ⟨fun v hv => ?_, fun h => ?_, fun h => ?_⟩
  · have hso := Service.serialOf_eq lib d inp v hv
    refine ⟨Service.captured_nonempty lib d inp _ v hv, hser.trans hso, ?_, ?_, ?_, ?_⟩
    · intro re hre hm
      rw [hser, hso]
      unfold prependedSerial
      rw [hre]
      simp [hm]
    · intro re hre hm
      rw [hser, hso]
      unfold prependedSerial
      rw [hre]
      simp [hm]
    · intro hre
      rw [hser, hso]
      unfold prependedSerial
      rw [hre]
    · unfold Service.accepts Service.checksumValid at hacc
      cases hval : d.Validation.Validator with
      | none => rw [hval] at hacc; simp at hacc
      | some validator =>
        rw [hval] at hacc
        simp only [Bool.and_eq_true, decide_eq_true_eq] at hacc
        refine ⟨validator, rfl, ?_⟩
        rw [hcd, ← hso]
        exact hacc.1.2
  · rcases hkeys _ h with h1 | h1
    · exact hs1.1 (hc1.2 _ h1)
    · exact not_derivedKey_of_suffix _ (by decide) (by decide) h1
  · rcases hkeys _ h with h1 | h1
    · exact hc1.1 h1
    · exact not_derivedKey_of_suffix _ (by decide) (by decide) h1

/-- C17 on the sample service with the prepend rule `^0` and the input "3318810025":
the captured serial "331881002" does not start with zero, the validated and stored
serial is "0331881002", Mod7 accepts the digit 5 for it, and the `Details` map of the
result has no key `SerialNumber`. -/
theorem C17_serial_and_details_witness :
    prependService.track sampleLib (ascii "3318810025") =
      .ok (some { Courier := ascii "cc", Service := ascii "prep",
                  TrackingNumber := ascii "3318810025", SerialNumber := ascii "0331881002",
                  CheckDigit := ascii "5", TrackingURL := [], Details := [] }) ∧
    ascii "SerialNumber" ∉
      ({ Courier := ascii "cc", Service := ascii "prep",
         TrackingNumber := ascii "3318810025", SerialNumber := ascii "0331881002",
         CheckDigit := ascii "5", TrackingURL := [], Details := [] } : Tracking).Details.keys :=
  ⟨by rfl, (C17_serial_and_details sampleLib prependService (ascii "3318810025") _
    (by rfl)).2.1⟩

/-! ### C18 and C19 -/

/-- C18 as stated fails on two configurations. The name "s10" with no weightings
selects S10 with the weightings `[8,6,4,2,3,5,9,7]`, not with the configured (empty)
sequence; the name "sum_product_with_weightings_and_modulo" with a zero modulus
selects no variant at all: the validator is left nil. -/
theorem C18_counterexample :
    ((freshValidation (sampleOpts (ascii "s10") [] 0 0)).SetValidator).Validator =
      some (.s10 ⟨[8, 6, 4, 2, 3, 5, 9, 7]⟩) ∧
    ((freshValidation (sampleOpts (ascii "s10") [] 0 0)).SetValidator).Validator ≠
      some (.s10 ⟨[]⟩) ∧
    ((freshValidation (sampleOpts (ascii "sum_product_with_weightings_and_modulo")
      [3, 1, 7] 0 10)).SetValidator).Validator = none :=
  ⟨by rfl, by decide, by rfl⟩

/-- C18, amended: `SetValidator` selects the checksum variant by the configuration
name only and changes nothing else: "mod7" selects Mod7; "mod10" selects Mod10 with
the configured multipliers; "s10" selects S10 with the configured weightings, or with
`[8,6,4,2,3,5,9,7]` when none are configured; "sum_product_with_weightings_and_modulo"
with two non-zero moduli selects the weighted-sum variant with the configured
weightings and moduli; "mod_37_36" selects Mod3736; every other name, the empty one
included, selects Noop, whose `Generate` always returns the empty string without
error and whose `Validate` is true for every serial and every check digit. -/
theorem C18_set_validator (val : Validation) (s cd : Str) :
    (val.CheckDigitOpts.Name = ascii "mod7" →
      val.SetValidator.Validator = some (.mod7 {})) ∧
    (val.CheckDigitOpts.Name = ascii "mod10" →
      val.SetValidator.Validator =
        some (.mod10 ⟨val.CheckDigitOpts.EvensMultiplier, val.CheckDigitOpts.OddsMultiplier⟩)) ∧
    (val.CheckDigitOpts.Name = ascii "s10" →
      val.SetValidator.Validator =
        some (.s10 ⟨if val.CheckDigitOpts.Weightings = [] then [8, 6, 4, 2, 3, 5, 9, 7]
          else val.CheckDigitOpts.Weightings⟩)) ∧
    (val.CheckDigitOpts.Name = ascii "sum_product_with_weightings_and_modulo" →
      val.CheckDigitOpts.Modulo1 ≠ 0 → val.CheckDigitOpts.Modulo2 ≠ 0 →
      val.SetValidator.Validator =
        some (.sumProduct ⟨val.CheckDigitOpts.Weightings, val.CheckDigitOpts.Modulo1,
          val.CheckDigitOpts.Modulo2⟩)) ∧
    (val.CheckDigitOpts.Name = ascii "mod_37_36" →
      val.SetValidator.Validator = some (.mod3736 {})) ∧
    (val.CheckDigitOpts.Name ≠ ascii "mod7" → val.CheckDigitOpts.Name ≠ ascii "mod10" →
      val.CheckDigitOpts.Name ≠ ascii "s10" →
      val.CheckDigitOpts.Name ≠ ascii "sum_product_with_weightings_and_modulo" →
      val.CheckDigitOpts.Name ≠ ascii "mod_37_36" →
      val.SetValidator.Validator = some (.noop {})) ∧
    (CheckDigit.Generate (.noop {}) s = .ok [] ∧
      CheckDigit.Validate (.noop {}) s cd = some true) ∧
    (val.SetValidator.CheckDigitOpts = val.CheckDigitOpts ∧
      val.SetValidator.Exists = val.Exists ∧
      val.SetValidator.PrependIf = val.PrependIf) := by
  refine ⟨?_, ?_, ?_, ?_, ?_, ?_, ⟨rfl, rfl⟩, ⟨rfl, rfl, rfl⟩⟩
  · intro h
    simp only [Validation.SetValidator, h, if_true]
    rfl
  · intro h
    have h1 : ¬ ascii "mod10" = ascii "mod7" := by decide
    simp only [Validation.SetValidator, h, h1, if_true, if_false]
    rfl
  · intro h
    have h1 : ¬ ascii "s10" = ascii "mod7" := by decide
    have h2 : ¬ ascii "s10" = ascii "mod10" := by decide
    simp only [Validation.SetValidator, h, h1, h2, if_true, if_false, NewS10]
    cases hw : val.CheckDigitOpts.Weightings with
    | nil => rfl
    | cons x xs => rfl
  · intro h hm1 hm2
    have h1 : ¬ ascii "sum_product_with_weightings_and_modulo" = ascii "mod7" := by decide
    have h2 : ¬ ascii "sum_product_with_weightings_and_modulo" = ascii "mod10" := by decide
    have h3 : ¬ ascii "sum_product_with_weightings_and_modulo" = ascii "s10" := by decide
    have hm : ¬ (val.CheckDigitOpts.Modulo1 = 0 ∨ val.CheckDigitOpts.Modulo2 = 0) := by
      rintro (e | e)
      · exact hm1 e
      · exact hm2 e
    simp only [Validation.SetValidator, h, h1, h2, h3, if_true, if_false,
      NewSumProductWithWeightingsAndModulo, hm]
  · intro h
    have h1 : ¬ ascii "mod_37_36" = ascii "mod7" := by decide
    have h2 : ¬ ascii "mod_37_36" = ascii "mod10" := by decide
    have h3 : ¬ ascii "mod_37_36" = ascii "s10" := by decide
    have h4 : ¬ ascii "mod_37_36" = ascii "sum_product_with_weightings_and_modulo" := by
      decide
    simp only [Validation.SetValidator, h, h1, h2, h3, h4, if_true, if_false]
    rfl
  · intro h1 h2 h3 h4 h5
    simp only [Validation.SetValidator, h1, h2, h3, h4, h5, if_false]
    rfl

/-- C18 on the configuration named "mod10" with multipliers 3 and 1, and on the
empty name. -/
theorem C18_set_validator_witness :
    ((freshValidation
        { sampleOpts (ascii "mod10") [] 0 0 with
          EvensMultiplier := 3, OddsMultiplier := 1 }).SetValidator).Validator =
      some (.mod10 ⟨3, 1⟩) ∧
    ((freshValidation (sampleOpts [] [] 0 0)).SetValidator).Validator = some (.noop {}) :=
  ⟨(C18_set_validator
      (freshValidation
        { sampleOpts (ascii "mod10") [] 0 0 with
          EvensMultiplier := 3, OddsMultiplier := 1 }) [] []).2.1 rfl,
   (C18_set_validator (freshValidation (sampleOpts [] [] 0 0)) [] []).2.2.2.2.2.1
    (by decide) (by decide) (by decide) (by decide) (by decide)⟩

theorem SetValidator_cases (val : Validation) :
    val.SetValidator.Validator = none ∨
      ∃ v, val.SetValidator.Validator = some v ∧ v.Sound := by
  unfold Validation.SetValidator
  simp only []
  split_ifs with h1 h2 h3 h4 h5
  · exact Or.inr ⟨_, rfl, trivial⟩
  · exact Or.inr ⟨_, rfl, trivial⟩
  · exact Or.inr ⟨_, rfl, trivial⟩
  · unfold NewSumProductWithWeightingsAndModulo
    by_cases hm : val.CheckDigitOpts.Modulo1 = 0 ∨ val.CheckDigitOpts.Modulo2 = 0
    · rw [if_pos hm]; exact Or.inl rfl
    · rw [if_neg hm]
      refine Or.inr ⟨_, rfl, ?_⟩
      exact ⟨fun e => hm (Or.inl e), fun e => hm (Or.inr e)⟩
  · exact Or.inr ⟨_, rfl, trivial⟩
  · exact Or.inr ⟨_, rfl, trivial⟩

/-- C19 fails on the code: for the name "sum_product_with_weightings_and_modulo"
with a zero modulus `SetValidator` leaves the validator nil, and `Track` panics on an
input that the pattern of such a service matches. What holds for every
configuration: the validator is nil or its `Validate` returns on every serial and
check digit, so no division by zero is reached. -/
theorem C19_set_validator_nil (val : Validation) :
    ((freshValidation (sampleOpts (ascii "sum_product_with_weightings_and_modulo")
        [3, 1, 7] 0 10)).SetValidator).Validator = none ∧
    Track sampleLib
      [{ anyService with
         Validation := (freshValidation
          (sampleOpts (ascii "sum_product_with_weightings_and_modulo")
            [3, 1, 7] 0 10)).SetValidator }]
      (ascii "123") = .panic ∧
    (val.SetValidator.Validator = none ∨
      ∃ v, val.SetValidator.Validator = some v ∧ ∀ s cd, ∃ b, v.Validate s cd = some b) := by
  refine ⟨by rfl, by rfl, ?_⟩
  rcases SetValidator_cases val with h | ⟨v, hv, hs⟩
  · exact Or.inl h
  · exact Or.inr ⟨v, hv, fun s cd => v.validate_isSome hs s cd⟩

/-! ### C20 -/

theorem mod36CharToVal_le (ch si : Nat) (h : mod36CharToVal ch = some si) : si ≤ 35 := by
  unfold mod36CharToVal at h
  split_ifs at h
  · have := Option.some.inj h; omega
  · have := Option.some.inj h; omega
  · have := Option.some.inj h; omega

theorem Mod3736.step_of_some (n ch si : Nat) (h1 : 1 ≤ n) (h2 : n ≤ 36)
    (h : mod36CharToVal ch = some si) :
    (∀ x ∈ Mod3736.intermediates n si, 1 ≤ x ∧ x ≤ 72) ∧
      (Mod3736.intermediates n si).getLast? = some ((Mod3736.step n ch : Nat) : Int) ∧
      1 ≤ Mod3736.step n ch ∧ Mod3736.step n ch ≤ 36 := by
  have hsi := mod36CharToVal_le ch si h
  unfold Mod3736.step Mod3736.intermediates
  rw [h]
  simp only [List.mem_cons, List.mem_singleton, List.not_mem_nil, or_false, forall_eq_or_imp,
    forall_eq, List.getLast?_cons_cons, List.getLast?_singleton, Option.some.injEq]
  refine ⟨⟨?_, ?_, ?_, ?_, ?_⟩, ?_, ?_, ?_⟩ <;> first | omega | (split_ifs <;> omega)

/-- C20: in `Mod3736.Generate` the accumulator is between 1 and 36 before and after
every loop iteration, for every input string; within an iteration every value
computed lies between 1 and 72, so the 8-bit arithmetic agrees with the unbounded
one; a character without a base-36 value leaves the accumulator as it is; the final
subtraction `37 - n` does not go below 1, the final value `(37 - n) mod 36` lies in
0..35, and the output is exactly one character from `'0'-'9'` or `'A'-'Z'`. -/
theorem C20_mod3736_invariant (m : Mod3736) (s : Str) :
    (∀ pre post : Str, s = pre ++ post →
      1 ≤ pre.foldl Mod3736.step 36 ∧ pre.foldl Mod3736.step 36 ≤ 36) ∧
    (∀ n ch si : Nat, 1 ≤ n → n ≤ 36 → mod36CharToVal ch = some si →
      si ≤ 35 ∧
      (∀ x ∈ Mod3736.intermediates n si, 1 ≤ x ∧ x ≤ 72) ∧
      (Mod3736.intermediates n si).getLast? = some ((Mod3736.step n ch : Nat) : Int) ∧
      1 ≤ Mod3736.step n ch ∧ Mod3736.step n ch ≤ 36) ∧
    (∀ n ch : Nat, mod36CharToVal ch = none → Mod3736.step n ch = n) ∧
    (1 ≤ 37 - s.foldl Mod3736.step 36 ∧
      (36 + 1 + 256 - s.foldl Mod3736.step 36) % 256 = 37 - s.foldl Mod3736.step 36 ∧
      (37 - s.foldl Mod3736.step 36) % 36 < 36) ∧
    (∃ ch, m.Generate s = .ok [ch] ∧ ((48 ≤ ch ∧ ch ≤ 57) ∨ (65 ≤ ch ∧ ch ≤ 90))) := by
  obtain ⟨-, hl, hu⟩ := Mod3736.foldl_spec s 36 (by decide) (by decide)
  refine ⟨?_, ?_, ?_, ⟨by omega, by omega, Nat.mod_lt _ (by decide)⟩, ?_⟩
  · intro pre post _
    obtain ⟨-, h1, h2⟩ := Mod3736.foldl_spec pre 36 (by decide) (by decide)
    exact ⟨h1, h2⟩
  · intro n ch si h1 h2 h
    exact ⟨mod36CharToVal_le ch si h, Mod3736.step_of_some n ch si h1 h2 h⟩
  · intro n ch h
    unfold Mod3736.step
    rw [h]
  · refine ⟨_, rfl, ?_⟩
    unfold mod36ValtoChar
    simp only []
    split_ifs <;> omega

/-- C20 at the accumulator 36 and the character 'Z', of value 35: the values of the
iteration are 71, 35, 70, 34 and 33, and the byte step gives 33. -/
theorem C20_mod3736_invariant_witness :
    Mod3736.intermediates 36 35 = [71, 35, 70, 34, 33] ∧
    Mod3736.step 36 90 = 33 ∧
    (1 ≤ Mod3736.step 36 90 ∧ Mod3736.step 36 90 ≤ 36) :=
  ⟨by rfl, by rfl,
   ((C20_mod3736_invariant ⟨⟩ []).2.1 36 90 35 (by decide) (by decide) (by rfl)).2.2.2⟩

/-! ### C21 -/

theorem utf8Encode_has_high_byte (r : Nat) (h : 0x80 ≤ r) : ∃ b ∈ utf8Encode r, 0x80 ≤ b := by
  unfold utf8Encode
  rw [if_neg (by omega)]
  split_ifs
  · exact ⟨0xC0 + r / 64, List.mem_cons_self _ _, by omega⟩
  · exact ⟨0xE0 + r / 4096, List.mem_cons_self _ _, by omega⟩
  · exact ⟨0xF0 + r / 262144, List.mem_cons_self _ _, by omega⟩

theorem not_hasMultiByteChar_of_isASCII (s : Str) (h : isASCII s = true) :
    ¬ HasMultiByteChar s := by
  rintro ⟨pre, r, post, h0, -, hs⟩
  obtain ⟨b, hb, hhigh⟩ := utf8Encode_has_high_byte r h0
  unfold isASCII at h
  rw [List.all_eq_true] at h
  have hmem : b ∈ s := by
    rw [hs]
    exact List.mem_append_left _ (List.mem_append_right _ hb)
  have := h b hmem
  rw [decide_eq_true_eq] at this
  omega

theorem upperByte_idem (c : Nat) : upperByte (upperByte c) = upperByte c := by
  unfold upperByte
  split_ifs <;> omega

theorem upperByte_lt (c : Nat) (h : c < 0x80) : upperByte c < 0x80 := by
  unfold upperByte
  split_ifs <;> omega

theorem isASCII_normalizeASCII (x : Str) (h : isASCII x = true) :
    isASCII (normalizeASCII x) = true := by
  unfold isASCII at h ⊢
  rw [List.all_eq_true] at h ⊢
  intro c hc
  unfold normalizeASCII at hc
  obtain ⟨b, hb, rfl⟩ := List.mem_map.mp (List.mem_filter.mp hc).1
  have := h b hb
  rw [decide_eq_true_eq] at this ⊢
  exact upperByte_lt b this

theorem normalize_eq (lib : Lib) (x : Str) (h : isASCII x = true) :
    ReplaceAllSpace (ToUpper lib x) = normalizeASCII x := by
  unfold ReplaceAllSpace ToUpper normalizeASCII
  rw [if_pos h]

theorem normalizeASCII_idem (x : Str) : normalizeASCII (normalizeASCII x) = normalizeASCII x := by
  unfold normalizeASCII
  have hfix : ((x.map upperByte).filter (fun c => decide (c ≠ 32))).map upperByte =
      (x.map upperByte).filter (fun c => decide (c ≠ 32)) := by
    conv_rhs => rw [← List.map_id ((x.map upperByte).filter (fun c => decide (c ≠ 32)))]
    apply List.map_congr_left
    intro c hc
    obtain ⟨b, _, rfl⟩ := List.mem_map.mp (List.mem_filter.mp hc).1
    exact upperByte_idem b
  rw [hfix, List.filter_filter]
  simp only [Bool.and_self]

theorem Track_eq_trackLoop_or_error (lib : Lib) (reg : List Service) (x : Str)
    (h : isASCII x = true) :
    Track lib reg x =
      if reg.length = 0 then .error .ErrNoServices
      else trackLoop lib (normalizeASCII x) reg [] := by
  unfold Track
  rw [if_neg (fun hne => not_hasMultiByteChar_of_isASCII x h
    ((runeCount_ne_length_iff x).mp hne)), normalize_eq lib x h]

theorem trackLoop_trackingNumber (lib : Lib) (inp : Str) :
    ∀ (reg : List Service) (acc res : List Tracking),
      trackLoop lib inp reg acc = .ok res →
      ∀ r ∈ res, r ∈ acc ∨ r.TrackingNumber = inp := by
  intro reg
  induction reg with
  | nil =>
    intro acc res h r hr
    simp only [trackLoop, Outcome.ok.injEq] at h
    subst h
    exact Or.inl hr
  | cons d rest ih =>
    intro acc res h r hr
    simp only [trackLoop] at h
    cases hd : d.track lib inp with
    | panic => rw [hd] at h; cases h
    | error e => rw [hd] at h; cases h
    | ok o =>
      rw [hd] at h
      cases o with
      | none => exact ih acc res h r hr
      | some t =>
        rcases ih _ res h r hr with hmem | heq
        · rcases List.mem_append.mp hmem with h1 | h1
          · exact Or.inl h1
          · right
            rw [List.mem_singleton] at h1
            subst h1
            rw [((Service.track_eq_some_iff lib d inp r).mp hd).2]
            rfl
        · exact Or.inr heq

/-- C21: `Track` is invariant under its own normalization: for every registry and
every ASCII-only input `x`, `Track(x)` equals `Track(n(x))`, where `n(x)` is `x` in
upper case with its spaces removed, and `n(n(x)) = n(x)`; consequently every result
`r` of `Track(x)` has `n(x)` as its tracking number, and `Track(r.TrackingNumber)`
returns the same result list as `Track(x)`. -/
theorem C21_track_normal_form (lib : Lib) (reg : List Service) (x : Str)
    (hx : isASCII x = true) :
    Track lib reg x = Track lib reg (normalizeASCII x) ∧
    normalizeASCII (normalizeASCII x) = normalizeASCII x ∧
    ReplaceAllSpace (ToUpper lib x) = normalizeASCII x ∧
    (∀ res, Track lib reg x = .ok res →
      ∀ r ∈ res, r.TrackingNumber = normalizeASCII x ∧
        Track lib reg r.TrackingNumber = .ok res) := by
  have hn := isASCII_normalizeASCII x hx
  have heq : Track lib reg x = Track lib reg (normalizeASCII x) := by
    rw [Track_eq_trackLoop_or_error lib reg x hx,
      Track_eq_trackLoop_or_error lib reg (normalizeASCII x) hn, normalizeASCII_idem]
  refine ⟨heq, normalizeASCII_idem x, normalize_eq lib x hx, ?_⟩
  intro res hres r hr
  have htn : r.TrackingNumber = normalizeASCII x := by
    rw [Track_eq_trackLoop_or_error lib reg x hx] at hres
    split_ifs at hres
    rcases trackLoop_trackingNumber lib _ reg [] res hres r hr with h | h
    · cases h
    · exact h
  exact ⟨htn, by rw [htn, ← heq, hres]⟩

/-- C21 on the sample registry and the input "33 1881 0025": it is ASCII, its
normal form is "3318810025", and `Track` returns the same on both. -/
theorem C21_track_normal_form_witness :
    normalizeASCII (ascii "33 1881 0025") = ascii "3318810025" ∧
    Track sampleLib sampleRegistry (ascii "33 1881 0025") =
      Track sampleLib sampleRegistry (normalizeASCII (ascii "33 1881 0025")) :=
  ⟨by rfl, (C21_track_normal_form sampleLib sampleRegistry (ascii "33 1881 0025")
    (by rfl)).1⟩

end Parcel
